import Mathlib

/-!
# Tiled pyramidal TIFF handler (`src/src/TPTImage.cc`)

A shallow embedding of `TPTImage::openImage`, `loadImageInfo`, `closeImage`,
`getTile`, `loadSubIFDs` and `loadStackInfo`, together with the part of the
tagged-directory codec (libtiff) these functions call.

Conventions of the embedding

* C++ exceptions are the `Except.error` results; the `file_error` thrown at each
  `throw` site has its own constructor of `Err`. A call that throws returns no state:
  what a throwing call leaves in the handle is not described.
* Operations without defined C++ behaviour (a vector index outside the vector,
  a null `tiff`, an integer division by zero, a read past the decoded bytes of a
  tile, a write past the end of the buffer of the bilevel expansion) yield
  `Err.undefinedBehaviour`.
* `unsigned int` / `uint32_t` arithmetic is arithmetic on `Nat` reduced modulo
  `2 ^ 32` where the source can wrap; `int` values are `Int`.
* A `TIFFGetField` call on an absent tag leaves its output variable unchanged;
  the values found in never-assigned locals are the fields of `Uninit`. Tags the
  source reads without testing the return value and that the codec fills with a
  default (image size, samples per pixel, bits per sample, colour model, planar
  configuration) are plain values of a `Directory`.
* The two loops that walk the chain of top-level directories are recursions on a
  fuel argument; the callers pass the length of the chain, which the lemmas
  `stackLoop_spec` and `normalLoop_spec` show to be enough.
* In the sample range (lines 259-312) a finite `double` is the rational number it
  denotes (`ℚ`); infinities and NaN are not modelled. The conversion `(float)` is
  `toFloat32`, rounding to the nearest binary32 value with ties to even; a value
  beyond the binary32 range has no defined conversion and yields
  `Err.undefinedBehaviour`.
* The functions are split at the line ranges named in their doc comments; line
  numbers refer to `TPTImage.cc`.
-/

namespace TPT

/-! ## The codec as seen by the handler -/

/-- Position of the directory cursor: a top-level directory of the main chain, or a
nested directory reached through its file offset. -/
inductive Loc where
  | top (n : Nat)
  | sub (off : Nat)
  deriving DecidableEq

/-- Tags of one directory that the handler reads, with the size of and the decoded
bytes of its tiles (`none` is a tile whose decoding fails). The last two fields are the
values of the minimum and maximum sample value tags, one per sample (a single one
when the codec has no per-sample mode). -/
structure Directory where
  imageWidth : Nat
  imageLength : Nat
  tileWidth : Option Nat
  tileLength : Option Nat
  samplesPerPixel : Nat
  bitsPerSample : Nat
  photometric : Nat
  planarConfig : Nat
  sampleFormat : Option Nat
  subfileType : Option Nat
  subIFD : Option (List Nat)
  documentName : Option String
  stonits : Option Nat
  tileSize : Nat
  tiles : List (Option (List Nat))
  sMinSampleValue : Option (List ℚ) := none
  sMaxSampleValue : Option (List ℚ) := none
  deriving DecidableEq

/-- A raster container: the chain of top-level directories, the nested directories by
file offset, and the directory number the codec reports after a seek to a nested
directory, as a function of the number it reported before the seek. -/
structure Container where
  dirs : List Directory
  subdirs : List (Nat × Directory)
  subDirNumber : Nat → Nat

/-- An open codec handle (`TIFF*`): the container, the cursor, the directory loaded at
the cursor, the number `TIFFCurrentDirectory` reports and the JPEG colour mode
pseudo-tag. -/
structure TIFF where
  container : Container
  loc : Loc
  cur : Directory
  curdir : Nat
  jpegColorMode : Option Nat

def PHOTOMETRIC_MINISWHITE : Nat := 0
def PHOTOMETRIC_MINISBLACK : Nat := 1
def PHOTOMETRIC_RGB : Nat := 2
def PHOTOMETRIC_PALETTE : Nat := 3
def PHOTOMETRIC_YCBCR : Nat := 6
def PHOTOMETRIC_CIELAB : Nat := 8
def PLANARCONFIG_CONTIG : Nat := 1
def PLANARCONFIG_SEPARATE : Nat := 2
def JPEGCOLORMODE_RGB : Nat := 1
def FILETYPE_REDUCEDIMAGE : Nat := 1
def FILETYPE_PAGE : Nat := 2

/-- `TIFFOpen`: fails on a container without a first directory, and on one whose first
directory carries a tile width or tile length tag of 0 (the codec refuses a tiled
directory that holds no tiles); else the cursor is on directory 0. -/
def TIFFOpen (c : Container) : Option TIFF :=
  match c.dirs with
  | [] => none
  | d :: _ =>
    if d.tileWidth = some 0 ∨ d.tileLength = some 0 then none
    else some { container := c, loc := .top 0, cur := d, curdir := 0, jpegColorMode := none }

def TIFFCurrentDirectory (t : TIFF) : Nat := t.curdir

/-- `TIFFSetDirectory`: seek to top-level directory `n`; `none` is the return value 0. -/
def TIFFSetDirectory (t : TIFF) (n : Int) : Option TIFF :=
  if 0 ≤ n then
    match t.container.dirs[n.toNat]? with
    | some d => some { t with loc := .top n.toNat, cur := d, curdir := n.toNat }
    | none => none
  else none

/-- `TIFFReadDirectory`: advance to the next directory of the main chain; `none` is the
return value 0 (end of the chain), which leaves the handle as it is. -/
def TIFFReadDirectory (t : TIFF) : Option TIFF :=
  match t.loc with
  | .top n =>
    match t.container.dirs[n + 1]? with
    | some d => some { t with loc := .top (n + 1), cur := d, curdir := n + 1 }
    | none => none
  | .sub _ => none

/-- `TIFFSetSubDirectory`: seek to the nested directory at file offset `off`. -/
def TIFFSetSubDirectory (t : TIFF) (off : Nat) : Option TIFF :=
  match t.container.subdirs.lookup off with
  | some d => some { t with loc := .sub off, cur := d, curdir := t.container.subDirNumber t.curdir }
  | none => none

def TIFFNumberOfTiles (t : TIFF) : Nat := t.cur.tiles.length

def TIFFTileSize (t : TIFF) : Nat := t.cur.tileSize

/-- `TIFFReadEncodedTile` into a buffer of `bytes` bytes: the decoded bytes, or `none`
for the return value -1. -/
def TIFFReadEncodedTile (t : TIFF) (tile : Nat) (bytes : Nat) : Option (List Nat) :=
  match t.cur.tiles[tile]? with
  | some (some data) => some (data.take bytes)
  | _ => none

/-! ## The handler's state -/

inductive Err where
  | tiffNotNull
  | tiffOpenFailed
  | setDirectoryFailed
  | notTiled
  | nonExistentResolution (res : Nat)
  | setDirectoryFailedForStack
  | setSubDirectoryFailed
  | setDirectoryFailedForResolution
  | nonExistentTile (tile : Nat)
  | resolutionNotTiled
  | readEncodedTileFailed
  | undefinedBehaviour
  deriving DecidableEq

inductive PyramidType where
  | NORMAL
  | SUBIFD
  deriving DecidableEq

inductive ColourSpace where
  | NONE
  | GREYSCALE
  | sRGB
  | CIELAB
  | BINARY
  deriving DecidableEq

inductive SampleType where
  | FIXEDPOINT
  | FLOATINGPOINT
  deriving DecidableEq

/-- One layer of an image stack: document name and scale as read from the directory. -/
structure Stack where
  name : Option String
  scale : Option Nat
  deriving DecidableEq

/-- Values found in the locals of `loadImageInfo` that no statement assigns before the
first `TIFFGetField` on a possibly absent tag. -/
structure Uninit where
  tw : Nat
  th : Nat
  sampleformat : Nat

/-- Members of `TPTImage` (and of its base class) that the embedded functions use. -/
structure TPTImage where
  tiff : Option TIFF
  currentX : Int
  currentY : Int
  image_widths : List Nat
  image_heights : List Nat
  tile_widths : List Nat
  tile_heights : List Nat
  resolution_ids : List Nat
  subifds : List Nat
  subifd_ifd : Nat
  pyramid : PyramidType
  stack : List Stack
  horizontalAnglesList : List Nat
  numResolutions : Nat
  channels : Nat
  bpc : Nat
  sampleType : SampleType
  colourspace : ColourSpace
  isSet : Bool

/-- The handle with `tiff` pointing to the codec handle `t`. -/
def withTiff (h : TPTImage) (t : TIFF) : TPTImage := { h with tiff := some t }

/-- Indexing `v[i]` of a `std::vector` with an `int` index. -/
def vecAt {α : Type} (v : List α) (i : Int) : Except Err α :=
  if 0 ≤ i then
    match v[i.toNat]? with
    | some a => .ok a
    | none => .error .undefinedBehaviour
  else .error .undefinedBehaviour

/-- `std::vector::resize(n)` on a vector of unsigned integers. -/
def vecResize (v : List Nat) (n : Nat) : List Nat :=
  v.take n ++ List.replicate (n - v.length) 0

/-- Result of a codec call that the source turns into an exception on failure. -/
def orThrow {α : Type} (e : Err) (r : Option α) : Except Err α :=
  match r with
  | some a => .ok a
  | none => .error e

/-! ## `loadSubIFDs` and `loadStackInfo` -/

/-- Lines 564-575: the list of nested directory offsets of the current directory, with a
leading 0 standing for the directory itself. -/
def loadSubIFDs (t : TIFF) (h : TPTImage) : TPTImage :=
  match t.cur.subIFD with
  | some (o :: os) => { h with subifds := 0 :: o :: os }
  | _ => { h with subifds := [] }

/-- Body of the do-while of `loadStackInfo` (lines 593-602) at the current directory. -/
def stackBody (t : TIFF) (h : TPTImage) (n : Nat) : TPTImage × Nat :=
  if t.cur.subfileType = some FILETYPE_PAGE then
    ({ h with
        horizontalAnglesList := h.horizontalAnglesList ++ [n]
        stack := h.stack ++ [{ name := t.cur.documentName, scale := t.cur.stonits }] },
      n + 1)
  else (h, n)

/-- The do-while of `loadStackInfo` (lines 592-603); `none` when `fuel` runs out before
`TIFFReadDirectory` reports the end of the chain. -/
def stackLoop : Nat → TIFF → TPTImage → Nat → Option (TIFF × TPTImage)
  | 0, _, _, _ => none
  | fuel + 1, t, h, n =>
    match TIFFReadDirectory t with
    | some t1 => stackLoop fuel t1 (stackBody t h n).1 (stackBody t h n).2
    | none => some (t, (stackBody t h n).1)

/-- Lines 580-607. -/
def loadStackInfo (t : TIFF) (h : TPTImage) : Except Err (TIFF × TPTImage) :=
  match TIFFSetDirectory t 0 with
  | none => .error .setDirectoryFailed
  | some t0 =>
    match stackLoop t0.container.dirs.length t0 h 1 with
    | none => .error .undefinedBehaviour
    | some (t1, h1) =>
      if h1.horizontalAnglesList.length > 1 then
        .ok (t1, { h1 with horizontalAnglesList := h1.horizontalAnglesList.dropLast })
      else .ok (t1, h1)

/-! ## `loadImageInfo` -/

/-- Loop state of the scan of nested directories: handle, codec, the locals `tw`, `th`
and `count`. -/
structure SubScan where
  t : TIFF
  h : TPTImage
  tw : Nat
  th : Nat
  count : Nat

/-- Body of the loop over `subifds[n]`, `n ≥ 1` (lines 161-180). -/
def subIFDBody (s : SubScan) (off : Nat) : SubScan :=
  match TIFFSetSubDirectory s.t off with
  | some t1 =>
    if t1.cur.subfileType = some FILETYPE_REDUCEDIMAGE then
      let tw := t1.cur.tileWidth.getD s.tw
      let th := t1.cur.tileLength.getD s.th
      { t := t1
        h := { s.h with
                image_widths := s.h.image_widths ++ [t1.cur.imageWidth]
                image_heights := s.h.image_heights ++ [t1.cur.imageLength]
                tile_widths := s.h.tile_widths ++ [tw]
                tile_heights := s.h.tile_heights ++ [th] }
        tw := tw
        th := th
        count := s.count + 1 }
    else { s with t := t1 }
  | none => s

/-- The loop `for n = 1; n < subifds.size(); n++` (lines 160-181) over the offsets
`subifds[1..]`. -/
def subIFDLoop (s : SubScan) (offs : List Nat) : SubScan :=
  offs.foldl subIFDBody s

/-- Lines 158-191. -/
def subIFDBlock (t : TIFF) (h : TPTImage) (tw th : Nat) : Except Err (TIFF × TPTImage) :=
  if h.subifds.length > 0 then
    let s := subIFDLoop { t := t, h := h, tw := tw, th := th, count := 0 } (h.subifds.drop 1)
    let r : Except Err (TIFF × TPTImage) :=
      if s.count > 0 then loadStackInfo s.t { s.h with pyramid := .SUBIFD }
      else .ok (s.t, s.h)
    match r with
    | .error e => .error e
    | .ok (t1, h1) =>
      match TIFFSetDirectory t1 0 with
      | some t2 => .ok (t2, h1)
      | none => .error .setDirectoryFailed
  else .ok (t, h)

/-- Body of the loop over the main chain (lines 197-213) at the directory just read. -/
def normalBody (t : TIFF) (h : TPTImage) (count : Nat) : TPTImage :=
  match t.cur.tileWidth, t.cur.tileLength with
  | some tw, some th =>
    { h with
        tile_widths := h.tile_widths ++ [tw]
        tile_heights := h.tile_heights ++ [th]
        image_widths := h.image_widths ++ [t.cur.imageWidth]
        image_heights := h.image_heights ++ [t.cur.imageLength]
        resolution_ids := h.resolution_ids ++ [count + 1] }
  | _, _ => h

/-- The loop `for( count = 0; TIFFReadDirectory( tiff ); count++ )` (lines 195-215);
`none` when `fuel` runs out before the end of the chain. -/
def normalLoop : Nat → TIFF → TPTImage → Nat → Option (TIFF × TPTImage)
  | 0, _, _, _ => none
  | fuel + 1, t, h, count =>
    match TIFFReadDirectory t with
    | some t1 => normalLoop fuel t1 (normalBody t1 h count) (count + 1)
    | none => some (t, h)

/-- Lines 217-228: the comparison of the first two levels and the collapse to one level
when stack layers are found. -/
def stackCheck (t : TIFF) (h : TPTImage) : Except Err (TIFF × TPTImage) := do
  if h.image_widths.length > 0 then
    let w0 ← vecAt h.image_widths 0
    let w1 ← vecAt h.image_widths 1
    if w0 = w1 then
      let h0 ← vecAt h.image_heights 0
      let h1 ← vecAt h.image_heights 1
      if h0 = h1 then
        let (t1, hs) ← loadStackInfo t h
        if hs.stack.length > 0 then
          pure (t1, { hs with
                        image_widths := vecResize hs.image_widths 1
                        image_heights := vecResize hs.image_heights 1
                        tile_widths := vecResize hs.tile_widths 1
                        tile_heights := vecResize hs.tile_heights 1 })
        else pure (t1, hs)
      else pure (t, h)
    else pure (t, h)
  else pure (t, h)

/-- Lines 193-229. -/
def normalBlock (t : TIFF) (h : TPTImage) : Except Err (TIFF × TPTImage) :=
  if h.pyramid = .NORMAL then
    match normalLoop (t.container.dirs.length + 1) t h 0 with
    | none => .error .undefinedBehaviour
    | some (t1, h1) => stackCheck t1 h1
  else .ok (t, h)

/-- Lines 240-256: colour space, channel count and JPEG colour mode from the colour
model tag of the first directory. -/
def catalogColour (colour : Nat) (t : TIFF) (h : TPTImage) : TIFF × TPTImage :=
  if colour = PHOTOMETRIC_CIELAB then (t, { h with colourspace := .CIELAB })
  else if colour = PHOTOMETRIC_MINISBLACK then
    (t, { h with colourspace := if h.bpc = 1 then .BINARY else .GREYSCALE })
  else if colour = PHOTOMETRIC_PALETTE then (t, { h with colourspace := .sRGB, channels := 3 })
  else if colour = PHOTOMETRIC_YCBCR then
    ({ t with jpegColorMode := some JPEGCOLORMODE_RGB }, { h with colourspace := .sRGB })
  else (t, { h with colourspace := .sRGB })

/-- Lines 103-156 without the seek of lines 131-133: the members set from the tags of
the directory `t0` under the cursor at entry, the four size lists restarted with its
sizes, directory 0 added to `resolution_ids`, and the nested directory list of the
directory `t1` the cursor is on after the seek. -/
def catalogStart (u : Uninit) (t0 t1 : TIFF) (h : TPTImage) (seq ang : Int) : TPTImage :=
  let sampleformat := t0.cur.sampleFormat.getD u.sampleformat
  let h := { h with
              currentX := seq
              currentY := ang
              channels := t0.cur.samplesPerPixel
              bpc := t0.cur.bitsPerSample
              sampleType := if sampleformat = 3 then .FLOATINGPOINT else .FIXEDPOINT
              image_widths := [t0.cur.imageWidth]
              image_heights := [t0.cur.imageLength]
              tile_widths := [t0.cur.tileWidth.getD u.tw]
              tile_heights := [t0.cur.tileLength.getD u.th]
              resolution_ids := h.resolution_ids ++ [0] }
  { loadSubIFDs t1 h with subifd_ifd := 0 }

/-- Lines 92-256 of `loadImageInfo`: everything up to and including the colour space
(the sample range and the metadata strings that follow touch none of these members). -/
def loadImageInfo (u : Uninit) (h : TPTImage) (seq ang : Int) : Except Err TPTImage :=
  match h.tiff with
  | none => .error .undefinedBehaviour
  | some t0 => do
    let tw := t0.cur.tileWidth.getD u.tw
    let th := t0.cur.tileLength.getD u.th
    let colour := t0.cur.photometric
    let current_dir := TIFFCurrentDirectory t0
    let t1 ← if current_dir ≠ 0 then orThrow .setDirectoryFailed (TIFFSetDirectory t0 0) else pure t0
    let s ← subIFDBlock t1 (catalogStart u t0 t1 h seq ang) tw th
    let n ← normalBlock s.1 s.2
    let h := { n.2 with numResolutions := n.2.image_widths.length }
    let t4 ← orThrow .setDirectoryFailed (TIFFSetDirectory n.1 current_dir)
    let c := catalogColour colour t4 h
    pure (withTiff c.2 c.1)

/-! ## `openImage` and `closeImage` -/

/-- Lines 335-341. -/
def closeImage (h : TPTImage) : TPTImage :=
  match h.tiff with
  | some _ => { h with tiff := none }
  | none => h

/-- Lines 64-89; `files x y` is the container stored under `getFileName( x, y )`. -/
def openImage (files : Int → Int → Option Container) (u : Uninit) (h : TPTImage) :
    Except Err TPTImage :=
  match h.tiff with
  | some _ => .error .tiffNotNull
  | none => do
    let t ← orThrow .tiffOpenFailed ((files h.currentX h.currentY).bind TIFFOpen)
    let h := withTiff h t
    let h ← if h.bpc = 0 then loadImageInfo u h h.currentX h.currentY else pure h
    let tw0 ← vecAt h.tile_widths 0
    if tw0 = 0 then
      let th0 ← vecAt h.tile_heights 0
      if th0 = 0 then throw .notTiled
      else pure { h with isSet := true }
    else pure { h with isSet := true }

/-! ## Tiles -/

/-- Modelled from the spec: the tile class `RawTile` is declared outside
`TPTImage.cc`; these are the attributes the spec gives the tile returned to the
caller (layer coordinates, resolution, tile index, pixel buffer, width and height,
channels, bits per channel, sample domain, populated length, capacity). -/
structure RawTile where
  tileNum : Nat
  resolution : Nat
  hSequence : Int
  vSequence : Int
  width : Nat
  height : Nat
  channels : Nat
  bpc : Nat
  sampleType : SampleType
  data : List Nat
  dataLength : Nat
  capacity : Nat
  deriving DecidableEq

/-- Modelled from the spec: the constructor call of line 495, which fixes the
addressing and the nominal geometry of a tile that has no pixel buffer yet. -/
def RawTile.new (tile res : Nat) (x y : Int) (w h c b : Nat) : RawTile :=
  { tileNum := tile, resolution := res, hSequence := x, vSequence := y, width := w, height := h,
    channels := c, bpc := b, sampleType := .FIXEDPOINT, data := [], dataLength := 0, capacity := 0 }

/-- Modelled from the spec: `RawTile::allocate`, a buffer of the capacity reported by
the codec's tile-size query. -/
def RawTile.allocate (r : RawTile) (bytes : Nat) : RawTile :=
  { r with capacity := bytes }

/-- Modelled from the spec: `RawTile::crop`, which repacks the pixel buffer row by row
into a tightly packed buffer of the cropped dimensions. -/
def RawTile.crop (r : RawTile) (w h : Nat) : RawTile :=
  let bpp := r.channels * (r.bpc / 8)
  { r with
      width := w
      height := h
      data := (List.range h).foldr (fun j acc => (r.data.drop (j * r.width * bpp)).take (w * bpp) ++ acc) []
      dataLength := w * h * bpp }

/-! ## `getTile` -/

/-- Subtraction of `unsigned int` values. -/
def usub32 (a b : Nat) : Nat := (a % 2 ^ 32 + 2 ^ 32 - b % 2 ^ 32) % 2 ^ 32

/-- Conversion of an `unsigned int` value to `int`. -/
def toInt32 (n : Nat) : Int :=
  if n % 2 ^ 32 < 2 ^ 31 then ((n % 2 ^ 32 : Nat) : Int) else ((n % 2 ^ 32 : Nat) : Int) - 2 ^ 32

/-- Line 385: `int vipsres = ( numResolutions - 1 ) - res;`. -/
def vipsresOf (numResolutions res : Nat) : Int :=
  toInt32 (usub32 (usub32 numResolutions 1) res)

/-- Lines 361-380: close and reopen the container and reload the catalog when the
handle holds no stack and works on another `(x, y)`. -/
def reload (files : Int → Int → Option Container) (u : Uninit) (h : TPTImage) (x y : Int) :
    Except Err TPTImage := do
  let h := if h.stack.isEmpty ∧ (h.currentX ≠ x ∨ h.currentY ≠ y) then closeImage h else h
  let h ← match h.tiff with
    | some _ => pure h
    | none => do
      let t ← orThrow .tiffOpenFailed ((files x y).bind TIFFOpen)
      pure (withTiff h t)
  if h.stack.isEmpty ∧ (h.currentX ≠ x ∨ h.currentY ≠ y) then loadImageInfo u h x y
  else pure h

/-- Lines 394-398: with a stack inside the container, move to top-level directory `x`
unless the codec reports that number already; the result carries the local `cd`. -/
def seekStack (t : TIFF) (x : Int) : Except Err (TIFF × Nat) :=
  if (TIFFCurrentDirectory t : Int) ≠ x then
    match TIFFSetDirectory t x with
    | some t1 => .ok (t1, x.toNat)
    | none => .error .setDirectoryFailedForStack
  else .ok (t, TIFFCurrentDirectory t)

/-- Lines 400-404: reload the list of nested directories when it is empty or belongs to
another top-level directory. -/
def refreshSubIFDs (t : TIFF) (h : TPTImage) (x : Int) (cd : Nat) : TPTImage :=
  if h.subifds.isEmpty ∨ x ≠ (h.subifd_ifd : Int) then { loadSubIFDs t h with subifd_ifd := cd }
  else h

/-- Lines 406-411: seek to the nested directory `subifds[vipsres]` when that entry
exists and is not 0. -/
def seekSubIFD (t : TIFF) (h : TPTImage) (vipsres : Int) : Except Err TIFF :=
  if vipsres < (h.subifds.length : Int) then
    match vecAt h.subifds vipsres with
    | .error e => .error e
    | .ok off =>
      if off > 0 then orThrow .setSubDirectoryFailed (TIFFSetSubDirectory t off) else .ok t
  else .ok t

/-- Lines 413-420: in a classic pyramid, seek to `resolution_ids[vipsres]` unless
`vipsres` equals the directory number the codec reports. -/
def seekNormal (t : TIFF) (h : TPTImage) (vipsres : Int) : Except Err TIFF :=
  if vipsres ≠ (TIFFCurrentDirectory t : Int) then
    match vecAt h.resolution_ids vipsres with
    | .error e => .error e
    | .ok id => orThrow .setDirectoryFailedForResolution (TIFFSetDirectory t id)
  else .ok t

/-- Lines 388-420: move the cursor to the directory of native level `vipsres`. -/
def selectDirectory (t : TIFF) (h : TPTImage) (x : Int) (vipsres : Int) :
    Except Err (TIFF × TPTImage) :=
  if h.pyramid = .SUBIFD then
    match seekStack t x with
    | .error e => .error e
    | .ok s =>
      match seekSubIFD s.1 (refreshSubIFDs s.1 h x s.2) vipsres with
      | .error e => .error e
      | .ok t2 => .ok (t2, refreshSubIFDs s.1 h x s.2)
  else
    match seekNormal t h vipsres with
    | .error e => .error e
    | .ok t1 => .ok (t1, h)

/-- Lines 453-472: the width and height of tile `tile` of an `im_width × im_height`
level with nominal tile size `tw × th` (`uint32_t` arithmetic). -/
def tileExtent (im_width im_height tw th tile : Nat) : Except Err (Nat × Nat) :=
  if tw = 0 ∨ th = 0 then .error .undefinedBehaviour
  else
    let rem_x := im_width % tw
    let rem_y := im_height % th
    let ntlx := (im_width / tw + (if rem_x = 0 then 0 else 1)) % 2 ^ 32
    let ntly := (im_height / th + (if rem_y = 0 then 0 else 1)) % 2 ^ 32
    if ntlx = 0 then .error .undefinedBehaviour
    else
      let tw1 := if tile % ntlx = usub32 ntlx 1 ∧ rem_x ≠ 0 then rem_x else tw
      let th1 := if tile / ntlx = usub32 ntly 1 ∧ rem_y ≠ 0 then rem_y else th
      .ok (tw1, th1)

/-- Lines 475-491: colour space, channel count and JPEG colour mode from the colour
model tag of the directory being served. -/
def tileColour (colour : Nat) (t : TIFF) (h : TPTImage) : TIFF × TPTImage :=
  if colour = PHOTOMETRIC_CIELAB then (t, { h with colourspace := .CIELAB })
  else if colour = PHOTOMETRIC_MINISBLACK then
    (t, { h with colourspace := if h.bpc = 1 then .BINARY else .GREYSCALE })
  else if colour = PHOTOMETRIC_PALETTE then
    (t, { h with colourspace := .GREYSCALE, channels := 1 })
  else if colour = PHOTOMETRIC_YCBCR then
    ({ t with jpegColorMode := some JPEGCOLORMODE_RGB }, { h with colourspace := .sRGB })
  else (t, { h with colourspace := .sRGB })

/-- Lines 540-543: the samples written for source byte `t`, bit `k - 1` first down to
bit 0. -/
def unpackByte (t mx mn : Nat) : Nat → List Nat
  | 0 => []
  | k + 1 => (if t &&& (1 <<< k) ≠ 0 then mx else mn) :: unpackByte t mx mn k

/-- Lines 537-544: `unpackLoop data mx mn i cnt buffer` runs the iterations
`i, i + 1, ..., i + cnt - 1` of the loop over the source bytes; `buffer` holds the
samples written so far, in the order of the write index `n`. Reading a byte the
decoder did not deliver has no defined result. -/
def unpackLoop (data : List Nat) (mx mn : Nat) : Nat → Nat → List Nat → Except Err (List Nat)
  | _, 0, buffer => .ok buffer
  | i, cnt + 1, buffer =>
    match data[i]? with
    | some t => unpackLoop data mx mn (i + 1) cnt (buffer ++ unpackByte t mx mn 8)
    | none => .error .undefinedBehaviour

/-- Lines 519-552: expansion of a 1 bit, 1 channel tile to 8 bits per sample.
`unpackLoop` gives the samples written, in the order of the write index `n`; the
buffer of line 526 has `np` elements, so a run of the loop that writes more than `np`
samples writes past its end, which has no defined result. -/
def expandBilevel (rawtile : RawTile) (np colour : Nat) : Except Err RawTile :=
  let nbytes := (np + 7) / 8
  let mn := if colour = 0 then 255 else 0
  let mx := if colour = 0 then 0 else 255
  match unpackLoop rawtile.data mx mn 0 nbytes [] with
  | .error e => .error e
  | .ok buffer =>
    if np < buffer.length then .error .undefinedBehaviour
    else .ok { rawtile with data := buffer, capacity := np, dataLength := buffer.length, bpc := 8 }

/-- What a successful `getTile` leaves behind: the handle, the tile returned, and the
values of the locals `vipsres`, `tw`, `th` at line 555 with the outcome of the test
that guards `rawtile.crop`. -/
structure TileResult where
  image : TPTImage
  rawtile : RawTile
  vipsres : Int
  tw : Nat
  th : Nat
  cropped : Bool

/-- Lines 442-448: the nominal tile size of native level `vipsres`, from the catalog. -/
def nominalTile (h : TPTImage) (vipsres : Int) : Except Err (Nat × Nat) := do
  let tw ← vecAt h.tile_widths vipsres
  let th ← vecAt h.tile_heights vipsres
  if tw = 0 ∨ th = 0 then throw .resolutionNotTiled
  pure (tw, th)

/-- Lines 494-552: construct the tile with the nominal size, decode it, keep one
channel of separate planes, expand bilevel data. `h` holds the members `channels`,
`bpc` and `sampleType` as they are at line 495. -/
def decodeTile (t : TIFF) (h : TPTImage) (x y : Int) (res tile tw0 th0 colour planar : Nat) :
    Except Err RawTile := do
  let np := (tw0 * th0) % 2 ^ 32
  let rawtile := { RawTile.new tile res x y tw0 th0 h.channels h.bpc with sampleType := h.sampleType }
  let bytes := TIFFTileSize t
  let rawtile := rawtile.allocate bytes
  let data ← orThrow .readEncodedTileFailed (TIFFReadEncodedTile t tile bytes)
  let rawtile := { rawtile with data := data, dataLength := data.length }
  let rawtile := if h.channels > 1 ∧ planar = PLANARCONFIG_SEPARATE then { rawtile with channels := 1 }
    else rawtile
  if h.bpc = 1 ∧ h.channels = 1 then expandBilevel rawtile np colour else pure rawtile

/-- Lines 495-516 once the decoder has delivered `data` into the buffer of `bytes`
bytes: the tile as it stands before the bilevel expansion. -/
def filledTile (h : TPTImage) (x y : Int) (res tile tw0 th0 planar bytes : Nat)
    (data : List Nat) : RawTile :=
  let rawtile := { RawTile.new tile res x y tw0 th0 h.channels h.bpc with sampleType := h.sampleType }
  let rawtile := rawtile.allocate bytes
  let rawtile := { rawtile with data := data, dataLength := data.length }
  if h.channels > 1 ∧ planar = PLANARCONFIG_SEPARATE then { rawtile with channels := 1 }
  else rawtile

/-- Lines 438-439: the members `channels` and `bpc` take the values of the directory
being served. -/
def readTags (t : TIFF) (h : TPTImage) : TPTImage :=
  { h with channels := t.cur.samplesPerPixel, bpc := t.cur.bitsPerSample }

/-- Lines 423-557: with the cursor on the directory to serve, check the tile number,
read the tags, fix the geometry, decode and normalise the tile. -/
def serveTile (t : TIFF) (h : TPTImage) (x y : Int) (res tile : Nat) (vipsres : Int) :
    Except Err TileResult := do
  if tile ≥ TIFFNumberOfTiles t then throw (.nonExistentTile tile)
  let im_width := t.cur.imageWidth
  let im_height := t.cur.imageLength
  let colour := t.cur.photometric
  let h := readTags t h
  let planar := t.cur.planarConfig
  let nominal ← nominalTile h vipsres
  let extent ← tileExtent im_width im_height nominal.1 nominal.2 tile
  let c := tileColour colour t h
  let rawtile ← decodeTile c.1 c.2 x y res tile nominal.1 nominal.2 colour planar
  let cropped : Bool := decide (extent.1 ≠ nominal.1 ∨ extent.2 ≠ nominal.2)
  let rawtile := if cropped then rawtile.crop extent.1 extent.2 else rawtile
  pure { image := withTiff c.2 c.1, rawtile := rawtile, vipsres := vipsres,
         tw := extent.1, th := extent.2, cropped := cropped }

/-- Lines 345-559; `layers` is not used by the source. -/
def getTile (files : Int → Int → Option Container) (u : Uninit) (h : TPTImage) (x y : Int)
    (res : Nat) (_layers : Int) (tile : Nat) : Except Err TileResult := do
  if res > h.numResolutions then throw (.nonExistentResolution res)
  let h ← reload files u h x y
  let t ← orThrow .undefinedBehaviour h.tiff
  let vipsres := vipsresOf h.numResolutions res
  let (t, h) ← selectDirectory t h x vipsres
  serveTile t h x y res tile vipsres

/-! ## Sample containers and handles -/

/-- A tiled, 8 bit, pixel-interleaved RGB directory with `ntiles` tiles of `data`. -/
def tiledDir (w h tw th ntiles : Nat) (data : List Nat) : Directory :=
  { imageWidth := w, imageLength := h, tileWidth := some tw, tileLength := some th,
    samplesPerPixel := 3, bitsPerSample := 8, photometric := PHOTOMETRIC_RGB,
    planarConfig := PLANARCONFIG_CONTIG, sampleFormat := none, subfileType := none, subIFD := none,
    documentName := none, stonits := none, tileSize := tw * th * 3,
    tiles := List.replicate ntiles (some data) }

/-- A directory stored in strips: no tile width or tile length tag. -/
def stripDir (w h : Nat) : Directory :=
  { tiledDir w h 0 0 0 [] with tileWidth := none, tileLength := none }

/-- A handle on which `openImage` has not run: no container, empty catalog, classic
pyramid scheme, and `horizontalAnglesList` holding its default 0 (line 588). -/
def closedHandle : TPTImage :=
  { tiff := none, currentX := 0, currentY := 0, image_widths := [], image_heights := [],
    tile_widths := [], tile_heights := [], resolution_ids := [], subifds := [], subifd_ifd := 0,
    pyramid := .NORMAL, stack := [], horizontalAnglesList := [0], numResolutions := 0, channels := 0,
    bpc := 0, sampleType := .FIXEDPOINT, colourspace := .NONE, isSet := false }

def u0 : Uninit := { tw := 0, th := 0, sampleformat := 0 }

/-- The classic pyramid 1000x800, 500x400, 250x200 with 256x256 tiles, one level per
top-level directory. -/
def pyr3 : Container :=
  { dirs := [tiledDir 1000 800 256 256 16 [], tiledDir 500 400 256 256 4 [],
             tiledDir 250 200 256 256 1 []],
    subdirs := [], subDirNumber := fun n => n + 1 }

/-- Every `(x, y)` names a file holding `pyr3`. -/
def pyr3Files : Int → Int → Option Container := fun _ _ => some pyr3

/-- The pyramid of `pyr3` with a strip-organised directory between the first two levels. -/
def gap4 : Container :=
  { dirs := [tiledDir 1000 800 256 256 16 [], stripDir 64 64, tiledDir 500 400 256 256 4 [],
             tiledDir 250 200 256 256 1 []],
    subdirs := [], subDirNumber := fun n => n + 1 }

def gap4Files : Int → Int → Option Container := fun _ _ => some gap4

/-- A full-resolution directory with two nested directories: at offset 100 a 64x64 image
that is not tagged as a reduced-resolution image, at offset 200 the 500x400 reduced level. -/
def nested2 : Container :=
  { dirs := [{ tiledDir 1000 800 256 256 16 [] with subIFD := some [100, 200] }],
    subdirs := [(100, tiledDir 64 64 64 64 1 []),
                (200, { tiledDir 500 400 256 256 4 [] with subfileType := some FILETYPE_REDUCEDIMAGE })],
    subDirNumber := fun n => n + 1 }

def nested2Files : Int → Int → Option Container := fun _ _ => some nested2

/-- A two-level RGB pyramid whose three channels are stored as separate planes. -/
def planar2 : Container :=
  { dirs := [{ tiledDir 512 512 256 256 12 [] with planarConfig := PLANARCONFIG_SEPARATE },
             { tiledDir 256 256 256 256 3 [] with planarConfig := PLANARCONFIG_SEPARATE }],
    subdirs := [], subDirNumber := fun n => n + 1 }

def planar2Files : Int → Int → Option Container := fun _ _ => some planar2

/-- The handle a successful build returns (`closedHandle` stands in for a failure). -/
def opened (r : Except Err TPTImage) : TPTImage :=
  match r with
  | .ok h => h
  | .error _ => closedHandle

/-- The handle `openImage` returns for `pyr3`; likewise below for the other sample
containers. -/
def pyr3Handle : TPTImage := opened (openImage pyr3Files u0 closedHandle)

def gap4Handle : TPTImage := opened (openImage gap4Files u0 closedHandle)

def nested2Handle : TPTImage := opened (openImage nested2Files u0 closedHandle)

def planar2Handle : TPTImage := opened (openImage planar2Files u0 closedHandle)

/-- Two top-level 2048x2048 directories, both tagged as pages of a multi-page file. -/
def layerDir : Directory :=
  { tiledDir 2048 2048 256 256 64 [] with subfileType := some FILETYPE_PAGE }

def stack2 : Container :=
  { dirs := [layerDir, layerDir], subdirs := [], subDirNumber := fun n => n + 1 }

/-- The codec handle `TIFFOpen` returns for `stack2`. -/
def stack2Tiff : TIFF :=
  { container := stack2, loc := .top 0, cur := layerDir, curdir := 0, jpegColorMode := none }

/-- A two-level palette-indexed pyramid. -/
def paletteDir (w h ntiles : Nat) : Directory :=
  { tiledDir w h 256 256 ntiles [] with samplesPerPixel := 1, photometric := PHOTOMETRIC_PALETTE }

def palette2 : Container :=
  { dirs := [paletteDir 512 512 4, paletteDir 256 256 1], subdirs := [],
    subDirNumber := fun n => n + 1 }

def palette2Files : Int → Int → Option Container := fun _ _ => some palette2

def palette2Handle : TPTImage := opened (openImage palette2Files u0 closedHandle)

/-- A two-level bilevel (1 bit, 1 channel, min-is-black) pyramid with 8x8 tiles of 8
bytes each. -/
def bilevelDir (w h ntiles : Nat) : Directory :=
  { tiledDir w h 8 8 ntiles [0b10110000, 0, 0, 0, 0, 0, 0, 1] with
      samplesPerPixel := 1, bitsPerSample := 1, photometric := PHOTOMETRIC_MINISBLACK,
      tileSize := 8 }

def bilevel2 : Container :=
  { dirs := [bilevelDir 16 16 4, bilevelDir 8 8 1], subdirs := [],
    subDirNumber := fun n => n + 1 }

def bilevel2Files : Int → Int → Option Container := fun _ _ => some bilevel2

def bilevel2Handle : TPTImage := opened (openImage bilevel2Files u0 closedHandle)

/-- A 1 bit, 1 channel tile of 8 pixels as `TIFFReadEncodedTile` leaves it. -/
def bilevelRaw : RawTile :=
  { RawTile.new 0 0 0 0 8 1 1 1 with data := [0b10110000], dataLength := 1, capacity := 1 }

/-- Cursor location of a handle. -/
def cursor (h : TPTImage) : Option Loc := h.tiff.map fun t => t.loc

/-- Directory under the cursor of a handle. -/
def served (h : TPTImage) : Option Directory := h.tiff.map fun t => t.cur

/-- Line 337: the test that guards `TIFFClose` in `closeImage`; `true` when the call
releases a container. -/
def releases (h : TPTImage) : Bool := h.tiff.isSome

/-- A container whose base directory is stored in strips (no tile width or tile length
tag), followed by a tiled 500x400 directory. -/
def stripBase : Container :=
  { dirs := [stripDir 1000 800, tiledDir 500 400 256 256 4 []],
    subdirs := [], subDirNumber := fun n => n + 1 }

def stripBaseFiles : Int → Int → Option Container := fun _ _ => some stripBase

/-- Never-assigned locals of `loadImageInfo` that hold `tw` and `th` when line 107 is
reached. -/
def garbage (tw th : Nat) : Uninit := { tw := tw, th := th, sampleformat := 0 }

/-- The handle `openImage` leaves on `stripBase` when the locals hold 0 and 256. -/
def stripBaseHandle : TPTImage := opened (openImage stripBaseFiles (garbage 0 256) closedHandle)

/-- A container with exactly one top-level directory, which is tiled, and no nested
directory. -/
def single1 : Container :=
  { dirs := [tiledDir 1000 800 256 256 16 []], subdirs := [], subDirNumber := fun n => n + 1 }

def single1Files : Int → Int → Option Container := fun _ _ => some single1

/-- The codec handle `TIFFOpen` returns for `single1`. -/
def single1Tiff : TIFF :=
  { container := single1, loc := .top 0, cur := tiledDir 1000 800 256 256 16 [], curdir := 0,
    jpegColorMode := none }

/-- A 1 bit, 1 channel tile of 3x3 pixels as `TIFFReadEncodedTile` leaves it: three rows
of one byte each. -/
def oddRaw : RawTile :=
  { RawTile.new 0 0 0 0 3 3 1 1 with data := [0b11100000, 0, 0], dataLength := 3, capacity := 3 }

/-- A two-level bilevel pyramid with 3x3 tiles of three bytes each. -/
def oddDir (w h ntiles : Nat) : Directory :=
  { tiledDir w h 3 3 ntiles [0b11100000, 0, 0] with
      samplesPerPixel := 1, bitsPerSample := 1, photometric := PHOTOMETRIC_MINISBLACK,
      tileSize := 3 }

def odd2 : Container :=
  { dirs := [oddDir 6 6 4, oddDir 3 3 1], subdirs := [], subDirNumber := fun n => n + 1 }

def odd2Files : Int → Int → Option Container := fun _ _ => some odd2

def odd2Handle : TPTImage := opened (openImage odd2Files u0 closedHandle)

/-- Width that lines 453-466 give tile `t` (0 where `tileExtent` has no result). -/
def extentWidth (W H tw th t : Nat) : Nat :=
  match tileExtent W H tw th t with
  | .ok e => e.1
  | .error _ => 0

/-- Height that lines 453-472 give tile `t` (0 where `tileExtent` has no result). -/
def extentHeight (W H tw th t : Nat) : Nat :=
  match tileExtent W H tw th t with
  | .ok e => e.2
  | .error _ => 0

/-- The four per-level lists hold the same, non-zero number of entries. -/
def levelsAligned (h : TPTImage) : Prop :=
  1 ≤ h.image_widths.length ∧ h.image_heights.length = h.image_widths.length ∧
    h.tile_widths.length = h.image_widths.length ∧ h.tile_heights.length = h.image_widths.length

/-- The cursor of the codec handle is on the top-level directory whose number the codec
reports, and the directory loaded is that directory of the container. -/
def onTopLevel (t : TIFF) : Prop :=
  t.loc = .top t.curdir ∧ t.container.dirs[t.curdir]? = some t.cur

/-- The codec handle `TIFFOpen` returns for `pyr3`. -/
def pyr3Tiff : TIFF :=
  { container := pyr3, loc := .top 0, cur := tiledDir 1000 800 256 256 16 [], curdir := 0,
    jpegColorMode := none }

/-- The catalog `loadImageInfo` builds for `pyr3` on a handle that has just opened it. -/
def pyr3Built : TPTImage := opened (loadImageInfo u0 (withTiff closedHandle pyr3Tiff) 0 0)

/-- The handle a successful `getTile` leaves (`closedHandle` stands in for a failure). -/
def after (r : Except Err TileResult) : TPTImage :=
  match r with
  | .ok t => t.image
  | .error _ => closedHandle

/-- The pyramid of `gap4` with tiles that hold the byte 1 in directory 0, the byte 2 in
directory 2 and the byte 3 in directory 3. -/
def marked4 : Container :=
  { dirs := [tiledDir 1000 800 256 256 16 [1], stripDir 64 64, tiledDir 500 400 256 256 4 [2],
             tiledDir 250 200 256 256 1 [3]],
    subdirs := [], subDirNumber := fun n => n + 1 }

def marked4Files : Int → Int → Option Container := fun _ _ => some marked4

def marked4Handle : TPTImage := opened (openImage marked4Files u0 closedHandle)

/-- The handle on `marked4` after a tile of `res = 1` was served: the cursor is on
directory 2. -/
def marked4Moved : TPTImage := after (getTile marked4Files u0 marked4Handle 0 0 1 0 0)

/-- The level sizes of `h1` are those of `h` followed by the sizes of the directories
`ds`, in order. -/
def levelsAdded (h h1 : TPTImage) (ds : List Directory) : Prop :=
  h1.image_widths = h.image_widths ++ ds.map (fun d => d.imageWidth) ∧
    h1.image_heights = h.image_heights ++ ds.map (fun d => d.imageLength)

/-- A chain whose second directory is larger than its first. -/
def growing2 : Container :=
  { dirs := [tiledDir 100 100 64 64 4 [], tiledDir 200 200 64 64 16 []]
    subdirs := []
    subDirNumber := fun n => n }

def growing2Files : Int → Int → Option Container := fun _ _ => some growing2

/-- The handle `openImage` leaves on `growing2`. -/
def growing2Handle : TPTImage := opened (openImage growing2Files u0 closedHandle)
/-! ## The sample range (lines 259-312 of `loadImageInfo`) -/

/-- The integer nearest to `n / d`, the even one of the two when `n / d` lies half way. -/
def roundHalfEven (n d : Nat) : Nat :=
  if 2 * (n % d) < d then n / d
  else if d < 2 * (n % d) then n / d + 1
  else if (n / d) % 2 = 0 then n / d
  else n / d + 1

/-- The recursion behind `ilog2`, on a fuel argument of at least `n`. -/
def ilog2Fuel : Nat → Nat → Nat
  | 0, _ => 0
  | fuel + 1, n => if n < 2 then 0 else ilog2Fuel fuel (n / 2) + 1

/-- The position of the leading binary digit of `n`: `2 ^ ilog2 n ≤ n < 2 ^ (ilog2 n + 1)`
for positive `n`. -/
def ilog2 (n : Nat) : Nat := ilog2Fuel n n

/-- The exponent `e` with `2 ^ e ≤ n / d < 2 ^ (e + 1)`, for positive `n` and `d`. -/
def floorLog2 (n d : Nat) : Int :=
  if ilog2 d ≤ ilog2 n then
    if d * 2 ^ (ilog2 n - ilog2 d) ≤ n then ((ilog2 n - ilog2 d : Nat) : Int)
    else ((ilog2 n - ilog2 d : Nat) : Int) - 1
  else
    if d ≤ n * 2 ^ (ilog2 d - ilog2 n) then -((ilog2 d - ilog2 n : Nat) : Int)
    else -((ilog2 d - ilog2 n : Nat) : Int) - 1

/-- The conversion `(float)` of a finite `double`: the nearest binary32 value (24 bit
significand, exponents from -126, gradual underflow), ties to the even significand;
`none` when the magnitude rounds to `2 ^ 128` or beyond. With `k` the exponent of the
last significand bit, the significand is `m` and the magnitude `m * 2 ^ k`. -/
def toFloat32 (q : ℚ) : Option ℚ :=
  if q = 0 then some 0
  else
    let n := q.num.natAbs
    let d := q.den
    let k : Int := max (floorLog2 n d) (-126) - 23
    let m := if 0 ≤ k then roundHalfEven n (d * 2 ^ k.toNat) else roundHalfEven (n * 2 ^ (-k).toNat) d
    let mag : ℚ := if 0 ≤ k then ((m * 2 ^ k.toNat : Nat) : ℚ) else mkRat m (2 ^ (-k).toNat)
    if 0 ≤ k ∧ 2 ^ 128 ≤ m * 2 ^ k.toNat then none
    else some (if q < 0 then -mag else mag)

/-- Lines 261-292: the arrays `sminvalue` and `smaxvalue`. With `perSample` (the branch
compiled when the codec defines `TIFFTAG_PERSAMPLE`) they are the arrays the codec
holds for the two tags, or the zero-filled defaults of `channels` entries when a tag
is absent; without it they are the defaults, overwritten in every entry by the single
value of a tag that is present. -/
def sampleArrays (perSample : Bool) (t : TIFF) (channels : Nat) : List ℚ × List ℚ :=
  let default_min := List.replicate channels (0 : ℚ)
  let default_max := List.replicate channels (0 : ℚ)
  if perSample then
    (t.cur.sMinSampleValue.getD default_min, t.cur.sMaxSampleValue.getD default_max)
  else
    (match t.cur.sMinSampleValue with
      | some vs => List.replicate channels (vs.headD 0)
      | none => default_min,
     match t.cur.sMaxSampleValue with
      | some vs => List.replicate channels (vs.headD 0)
      | none => default_max)

/-- Lines 300-306: the value of `smaxvalue[i]` after the test for a maximum of 0. -/
def defaultMax (bpc : Nat) (sampleType : SampleType) (v : ℚ) : ℚ :=
  if v = 0 then
    if bpc ≤ 8 then 255
    else if bpc = 12 then 4095
    else if bpc = 16 then 65535
    else if bpc = 32 ∧ sampleType = .FIXEDPOINT then 4294967295
    else if bpc = 32 ∧ sampleType = .FLOATINGPOINT then 1
    else v
  else v

/-- Body of the loop over the channels (lines 299-308) for channel `i`; the pair holds
the vectors `min` and `max`. -/
def rangeBody (bpc : Nat) (sampleType : SampleType) (smin smax : List ℚ)
    (acc : List ℚ × List ℚ) (i : Nat) : Except Err (List ℚ × List ℚ) := do
  let mx ← vecAt smax i
  let mn ← vecAt smin i
  let fmin ← orThrow .undefinedBehaviour (toFloat32 mn)
  let fmax ← orThrow .undefinedBehaviour (toFloat32 (defaultMax bpc sampleType mx))
  pure (acc.1 ++ [fmin], acc.2 ++ [fmax])

/-- The loop `for( i = 0; i < channels; i++ )` of lines 298-309, with `n` channels still
to do from channel `i` on. -/
def rangeLoop (bpc : Nat) (sampleType : SampleType) (smin smax : List ℚ) :
    Nat → Nat → List ℚ × List ℚ → Except Err (List ℚ × List ℚ)
  | 0, _, acc => .ok acc
  | n + 1, i, acc =>
    match rangeBody bpc sampleType smin smax acc i with
    | .ok acc1 => rangeLoop bpc sampleType smin smax n (i + 1) acc1
    | .error e => .error e

/-- Lines 259-312: the vectors `min` and `max` of the handle `h` on the codec `t`. -/
def sampleRange (perSample : Bool) (t : TIFF) (h : TPTImage) : Except Err (List ℚ × List ℚ) :=
  rangeLoop h.bpc h.sampleType (sampleArrays perSample t h.channels).1
    (sampleArrays perSample t h.channels).2 h.channels 0 ([], [])

/-- Lines 92-312 of `loadImageInfo`: the catalog of `loadImageInfo` with the vectors
`min` and `max`. -/
def catalogRange (perSample : Bool) (u : Uninit) (h : TPTImage) (seq ang : Int) :
    Except Err (TPTImage × List ℚ × List ℚ) := do
  let h1 ← loadImageInfo u h seq ang
  match h1.tiff with
  | none => .error .undefinedBehaviour
  | some t => do
    let r ← sampleRange perSample t h1
    pure (h1, r.1, r.2)

/-- A tiled greyscale directory of unsigned 32 bit samples, without the minimum and
maximum sample value tags. -/
def deepDir (w h ntiles : Nat) : Directory :=
  { tiledDir w h 256 256 ntiles [] with
    samplesPerPixel := 1, bitsPerSample := 32, photometric := PHOTOMETRIC_MINISBLACK,
    sampleFormat := some 1, tileSize := 256 * 256 * 4 }

/-- A two-level pyramid of unsigned 32 bit samples. -/
def deep2 : Container :=
  { dirs := [deepDir 1000 800 16, deepDir 500 400 4], subdirs := [], subDirNumber := fun n => n + 1 }

/-- The codec handle `TIFFOpen` returns for `deep2`. -/
def deep2Tiff : TIFF :=
  { container := deep2, loc := .top 0, cur := deepDir 1000 800 16, curdir := 0,
    jpegColorMode := none }

/-- The catalog `loadImageInfo` builds for `deep2` on a handle that has just opened it. -/
def deep2Built : TPTImage := opened (loadImageInfo u0 (withTiff closedHandle deep2Tiff) 0 0)

/-! ## Lemmas on the stages of `getTile` -/

theorem bind_eq_ok {α β : Type} (x : Except Err α) (f : α → Except Err β) (b : β) :
    (x >>= f) = .ok b ↔ ∃ a, x = .ok a ∧ f a = .ok b := by
  cases x <;> simp [bind, Except.bind]

theorem orThrow_eq_ok {α : Type} (e : Err) (o : Option α) (a : α) :
    orThrow e o = .ok a ↔ o = some a := by
  cases o <;> simp [orThrow]

theorem vecAt_eq_ok {α : Type} (l : List α) (i : Int) (a : α) :
    vecAt l i = .ok a ↔ 0 ≤ i ∧ l[i.toNat]? = some a := by
  unfold vecAt
  by_cases hi : 0 ≤ i
  · simp only [hi, if_true, true_and]
    cases hl : l[i.toNat]? <;> simp
  · simp [hi]

theorem TIFFOpen_eq_some (c : Container) (t : TIFF) (hok : TIFFOpen c = some t) :
    ∃ d rest, c.dirs = d :: rest ∧
      t = { container := c, loc := .top 0, cur := d, curdir := 0, jpegColorMode := none } := by
  unfold TIFFOpen at hok
  cases hd : c.dirs with
  | nil => simp [hd] at hok
  | cons d rest =>
    simp only [hd] at hok
    split at hok
    · simp at hok
    · simp only [Option.some.injEq] at hok
      exact ⟨d, rest, rfl, hok.symm⟩

theorem TIFFSetDirectory_eq_some (t t2 : TIFF) (n : Int) (hok : TIFFSetDirectory t n = some t2) :
    0 ≤ n ∧ t2.loc = .top n.toNat ∧ t2.curdir = n.toNat ∧ t2.container = t.container ∧
      t.container.dirs[n.toNat]? = some t2.cur := by
  unfold TIFFSetDirectory at hok
  by_cases hn : 0 ≤ n
  · simp only [hn, if_true] at hok
    cases hd : t.container.dirs[n.toNat]? with
    | none => simp [hd] at hok
    | some d => 
      simp only [hd, Option.some.injEq] at hok
      subst hok
      exact ⟨hn, rfl, rfl, rfl, rfl⟩
  · simp [hn] at hok

theorem TIFFSetSubDirectory_eq_some (t t2 : TIFF) (off : Nat)
    (hok : TIFFSetSubDirectory t off = some t2) :
    t2.loc = .sub off ∧ t2.container = t.container ∧
      t.container.subdirs.lookup off = some t2.cur := by
  unfold TIFFSetSubDirectory at hok
  cases hd : t.container.subdirs.lookup off with
  | none => simp [hd] at hok
  | some d =>
    simp only [hd, Option.some.injEq] at hok
    subst hok
    exact ⟨rfl, rfl, rfl⟩

theorem refreshSubIFDs_eq (t : TIFF) (h : TPTImage) (x : Int) (cd : Nat) :
    ∃ s si, refreshSubIFDs t h x cd = { h with subifds := s, subifd_ifd := si } := by
  unfold refreshSubIFDs loadSubIFDs
  split
  · split
    · exact ⟨_, _, rfl⟩
    · exact ⟨_, _, rfl⟩
  · exact ⟨_, _, rfl⟩

theorem seekSubIFD_eq_ok (t t2 : TIFF) (h : TPTImage) (v : Int) (hok : seekSubIFD t h v = .ok t2)
    (off : Nat) (hoff : vecAt h.subifds v = .ok off) (hpos : 0 < off) : t2.loc = .sub off := by
  unfold seekSubIFD at hok
  have hv := (vecAt_eq_ok _ _ _).1 hoff
  have hlt : v < (h.subifds.length : Int) := by
    have := (List.getElem?_eq_some_iff.1 hv.2).1
    omega
  simp only [hlt, if_true, hoff, gt_iff_lt, hpos, orThrow_eq_ok] at hok
  exact (TIFFSetSubDirectory_eq_some _ _ _ hok).1

theorem seekNormal_eq_ok (t t2 : TIFF) (h : TPTImage) (v : Int) (hok : seekNormal t h v = .ok t2) :
    (t2 = t ∧ v = (t.curdir : Int)) ∨
      ∃ id, vecAt h.resolution_ids v = .ok id ∧ t2.loc = .top id := by
  unfold seekNormal at hok
  by_cases hv : v = (TIFFCurrentDirectory t : Int)
  · simp only [hv, ne_eq, not_true_eq_false, if_false, Except.ok.injEq] at hok
    exact Or.inl ⟨hok.symm, hv⟩
  · simp only [ne_eq, hv, not_false_eq_true, if_true] at hok
    cases hid : vecAt h.resolution_ids v with
    | error e => simp [hid] at hok
    | ok id =>
      simp only [hid, orThrow_eq_ok] at hok
      have := TIFFSetDirectory_eq_some _ _ _ hok
      exact Or.inr ⟨id, rfl, by simpa using this.2.1⟩

/-- What `selectDirectory` changes: of the handle only the sub-directory list and its owner. -/
theorem selectDirectory_eq_ok (t t2 : TIFF) (h h2 : TPTImage) (x v : Int)
    (hok : selectDirectory t h x v = .ok (t2, h2)) :
    (∃ s si, h2 = { h with subifds := s, subifd_ifd := si }) ∧
    (h.pyramid = .NORMAL →
      (t2 = t ∧ v = (t.curdir : Int)) ∨
        ∃ id, vecAt h.resolution_ids v = .ok id ∧ t2.loc = .top id) ∧
    (h.pyramid = .SUBIFD → ∀ off, vecAt h2.subifds v = .ok off → 0 < off → t2.loc = .sub off) := by
  unfold selectDirectory at hok
  by_cases hp : h.pyramid = .SUBIFD
  · simp only [hp, if_true] at hok
    cases hs : seekStack t x with
    | error e => simp [hs] at hok
    | ok s =>
      simp only [hs] at hok
      cases hq : seekSubIFD s.1 (refreshSubIFDs s.1 h x s.2) v with
      | error e => simp [hq] at hok
      | ok t3 =>
        simp only [hq, Except.ok.injEq, Prod.mk.injEq] at hok
        obtain ⟨h3, h4⟩ := hok
        subst h3
        refine ⟨?_, by simp [hp], ?_⟩
        · rw [← h4]; exact refreshSubIFDs_eq _ _ _ _
        · intro _ off hoff hpos
          rw [← h4] at hoff
          exact seekSubIFD_eq_ok _ _ _ _ hq off hoff hpos
  · simp only [hp, if_false] at hok
    cases hs : seekNormal t h v with
    | error e => simp [hs] at hok
    | ok t3 =>
      simp only [hs, Except.ok.injEq, Prod.mk.injEq] at hok
      obtain ⟨h3, h4⟩ := hok
      subst h3 h4
      refine ⟨⟨_, _, rfl⟩, fun _ => seekNormal_eq_ok _ _ _ _ hs, fun hq => absurd hq hp⟩

theorem tileColour_snd (c : Nat) (t : TIFF) (h : TPTImage) :
    ∃ cs ch, (tileColour c t h).2 = { h with colourspace := cs, channels := ch } := by
  unfold tileColour
  split_ifs <;> exact ⟨_, _, rfl⟩

theorem tileColour_fst (c : Nat) (t : TIFF) (h : TPTImage) :
    ∃ j, (tileColour c t h).1 = { t with jpegColorMode := j } := by
  unfold tileColour
  split_ifs <;> exact ⟨_, rfl⟩

theorem nominalTile_eq_ok (h : TPTImage) (v : Int) (tw th : Nat)
    (hok : nominalTile h v = .ok (tw, th)) :
    vecAt h.tile_widths v = .ok tw ∧ vecAt h.tile_heights v = .ok th ∧ tw ≠ 0 ∧ th ≠ 0 := by
  unfold nominalTile at hok
  simp only [bind_eq_ok] at hok
  obtain ⟨a, ha, b, hb, hc⟩ := hok
  by_cases hz : a = 0 ∨ b = 0
  · simp [hz, bind, Except.bind, throw, throwThe, MonadExceptOf.throw] at hc
  · simp only [hz, if_false, bind_eq_ok, pure, Except.pure, Except.ok.injEq, Prod.mk.injEq] at hc
    obtain ⟨_, -, h1, h2⟩ := hc
    subst h1 h2
    exact ⟨ha, hb, fun h0 => hz (Or.inl h0), fun h0 => hz (Or.inr h0)⟩

theorem expandBilevel_eq_ok (raw r : RawTile) (np colour : Nat)
    (hok : expandBilevel raw np colour = .ok r) :
    r.width = raw.width ∧ r.height = raw.height ∧ r.channels = raw.channels ∧ r.bpc = 8 := by
  unfold expandBilevel at hok
  simp only at hok
  split at hok
  · simp at hok
  · split at hok
    · simp at hok
    · simp only [Except.ok.injEq] at hok
      subst hok
      exact ⟨rfl, rfl, rfl, rfl⟩

theorem decodeTile_eq_ok (t : TIFF) (h : TPTImage) (x y : Int) (res tile tw0 th0 colour planar : Nat)
    (raw : RawTile) (hok : decodeTile t h x y res tile tw0 th0 colour planar = .ok raw) :
    raw.width = tw0 ∧ raw.height = th0 ∧
      raw.channels = (if h.channels > 1 ∧ planar = PLANARCONFIG_SEPARATE then 1 else h.channels) := by
  unfold decodeTile at hok
  simp only [bind_eq_ok, orThrow_eq_ok] at hok
  obtain ⟨data, -, hr⟩ := hok
  split at hr
  · have := expandBilevel_eq_ok _ _ _ _ hr
    rw [this.1, this.2.1, this.2.2.1]
    split <;> exact ⟨rfl, rfl, rfl⟩
  · simp only [pure, Except.pure, Except.ok.injEq] at hr
    subst hr
    split <;> exact ⟨rfl, rfl, rfl⟩

/-- What a successful `decodeTile` read: the bytes of tile `tile` of the directory under
the cursor, as many as the tile size the codec reports, put into the tile of lines
495-516 and expanded when the tile is bilevel. -/
theorem decodeTile_inv (t : TIFF) (h : TPTImage) (x y : Int) (res tile tw0 th0 colour planar : Nat)
    (raw : RawTile) (hok : decodeTile t h x y res tile tw0 th0 colour planar = .ok raw) :
    ∃ data, t.cur.tiles[tile]? = some (some data) ∧
      (if h.bpc = 1 ∧ h.channels = 1 then
          expandBilevel (filledTile h x y res tile tw0 th0 planar t.cur.tileSize
            (data.take t.cur.tileSize)) ((tw0 * th0) % 2 ^ 32) colour
        else .ok (filledTile h x y res tile tw0 th0 planar t.cur.tileSize
            (data.take t.cur.tileSize))) = .ok raw := by
  unfold decodeTile at hok
  simp only [bind_eq_ok, orThrow_eq_ok] at hok
  obtain ⟨bytes, hb, hr⟩ := hok
  unfold TIFFReadEncodedTile TIFFTileSize at hb
  cases ht : t.cur.tiles[tile]? with
  | none => simp [ht] at hb
  | some o =>
    cases o with
    | none => simp [ht] at hb
    | some data =>
      simp only [ht, Option.some.injEq] at hb
      subst hb
      exact ⟨data, rfl, hr⟩

theorem vipsresOf_eq (n res : Nat) (hn : n < 2 ^ 31) (hres : res < n) :
    vipsresOf n res = (n : Int) - 1 - res := by
  unfold vipsresOf toInt32 usub32
  norm_num
  omega

theorem serveTile_inv (t : TIFF) (h : TPTImage) (x y : Int) (res tile : Nat) (v : Int) (r : TileResult)
    (hok : serveTile t h x y res tile v = .ok r) :
    ∃ tw0 th0 raw,
      tile < TIFFNumberOfTiles t ∧
      nominalTile (readTags t h) v = .ok (tw0, th0) ∧
      tileExtent t.cur.imageWidth t.cur.imageLength tw0 th0 tile = .ok (r.tw, r.th) ∧
      decodeTile (tileColour t.cur.photometric t (readTags t h)).1
        (tileColour t.cur.photometric t (readTags t h)).2 x y res tile tw0 th0
        t.cur.photometric t.cur.planarConfig = .ok raw ∧
      r.image = withTiff (tileColour t.cur.photometric t (readTags t h)).2
                    (tileColour t.cur.photometric t (readTags t h)).1 ∧
      r.vipsres = v ∧
      r.cropped = decide (r.tw ≠ tw0 ∨ r.th ≠ th0) ∧
      r.rawtile = if r.cropped then raw.crop r.tw r.th else raw := by
  unfold serveTile at hok
  by_cases hT : tile ≥ TIFFNumberOfTiles t
  · simp [hT, bind, Except.bind, throw, throwThe, MonadExceptOf.throw] at hok
  · simp only [hT, if_false, bind_eq_ok, pure, Except.pure] at hok
    obtain ⟨_, -, ⟨a1, a2⟩, hn, ⟨e1, e2⟩, he, raw, hd, hr⟩ := hok
    injection hr with hr
    subst hr
    exact ⟨a1, a2, raw, Nat.lt_of_not_ge hT, hn, he, hd, rfl, rfl, rfl, rfl⟩

theorem getTile_inv (files : Int → Int → Option Container) (u : Uninit) (h : TPTImage) (x y : Int)
    (res : Nat) (l : Int) (tile : Nat) (r : TileResult)
    (hok : getTile files u h x y res l tile = .ok r) :
    ∃ h1 t1 t2 h2, res ≤ h.numResolutions ∧ reload files u h x y = .ok h1 ∧ h1.tiff = some t1 ∧
      selectDirectory t1 h1 x (vipsresOf h1.numResolutions res) = .ok (t2, h2) ∧
      serveTile t2 h2 x y res tile (vipsresOf h1.numResolutions res) = .ok r := by
  unfold getTile at hok
  by_cases hR : res > h.numResolutions
  · simp [hR, bind, Except.bind, throw, throwThe, MonadExceptOf.throw] at hok
  · simp only [hR, if_false, bind_eq_ok, pure, Except.pure] at hok
    obtain ⟨_, -, h1, hrel, t1, ht1, ⟨t2, h2⟩, hsel, hs⟩ := hok
    refine ⟨h1, t1, t2, h2, Nat.le_of_not_gt hR, hrel, ?_, hsel, hs⟩
    cases hh : h1.tiff with
    | none => rw [hh] at ht1; simp [orThrow] at ht1
    | some t => rw [hh] at ht1; simp [orThrow] at ht1; rw [ht1]

theorem serveTile_image (t : TIFF) (h : TPTImage) (x y : Int) (res tile : Nat) (v : Int)
    (r : TileResult) (hok : serveTile t h x y res tile v = .ok r) :
    ∃ cs ch j, r.image =
      { h with colourspace := cs, channels := ch, bpc := t.cur.bitsPerSample,
               tiff := some { t with jpegColorMode := j } } := by
  obtain ⟨tw0, th0, raw, -, -, -, -, himg, -⟩ := serveTile_inv t h x y res tile v r hok
  obtain ⟨cs, ch, h2⟩ := tileColour_snd t.cur.photometric t (readTags t h)
  obtain ⟨j, h1⟩ := tileColour_fst t.cur.photometric t (readTags t h)
  rw [himg, h1, h2]
  exact ⟨cs, ch, j, rfl⟩

/-- The tile count of lines 459-460 is the ceiling of the quotient. -/
theorem ceil_div_eq (w tw : Nat) (htw : 0 < tw) :
    ⌈(w : ℚ) / tw⌉₊ = w / tw + (if w % tw = 0 then 0 else 1) := by
  have htq : (0 : ℚ) < tw := by exact_mod_cast htw
  have hdm := Nat.div_add_mod w tw
  apply le_antisymm
  · rw [Nat.ceil_le, div_le_iff₀ htq]
    have : w ≤ (w / tw + (if w % tw = 0 then 0 else 1)) * tw := by
      split_ifs with hr
      · rw [hr] at hdm; simp only [add_zero] at hdm ⊢; rw [Nat.mul_comm]; omega
      · have := Nat.mod_lt w htw
        rw [Nat.add_mul, Nat.mul_comm (w / tw) tw]; omega
    exact_mod_cast this
  · split_ifs with hr
    · simp only [add_zero]
      rcases Nat.eq_zero_or_pos (w / tw) with h0 | hpos
      · rw [h0]; exact Nat.zero_le _
      · have hlt : w / tw - 1 < ⌈(w : ℚ) / tw⌉₊ := by
          rw [Nat.lt_ceil, lt_div_iff₀ htq]
          have : (w / tw - 1) * tw < w := by
            rw [hr] at hdm
            have h1 : (w / tw - 1) * tw + tw = w / tw * tw := by
              rw [← Nat.succ_mul]; congr 1; omega
            rw [Nat.mul_comm] at hdm
            omega
          exact_mod_cast this
        omega
    · have hlt : w / tw < ⌈(w : ℚ) / tw⌉₊ := by
        rw [Nat.lt_ceil, lt_div_iff₀ htq]
        have : w / tw * tw < w := by
          rw [Nat.mul_comm]
          have : 0 < w % tw := Nat.pos_of_ne_zero hr
          omega
        exact_mod_cast this
      omega

theorem tileExtent_eq_ok (W H tw th t a b : Nat) (hW : W < 2 ^ 32) (hH : H < 2 ^ 32)
    (hok : tileExtent W H tw th t = .ok (a, b)) :
    0 < tw ∧ 0 < th ∧ 0 < W ∧
    a = (if t % ⌈(W : ℚ) / tw⌉₊ = ⌈(W : ℚ) / tw⌉₊ - 1 ∧ W % tw ≠ 0 then W % tw else tw) ∧
    b = (if t / ⌈(W : ℚ) / tw⌉₊ = ⌈(H : ℚ) / th⌉₊ - 1 ∧ H % th ≠ 0 then H % th else th) := by
  unfold tileExtent at hok
  by_cases hz : tw = 0 ∨ th = 0
  · simp [hz] at hok
  · simp only [hz, if_false] at hok
    have htw : 0 < tw := Nat.pos_of_ne_zero fun h0 => hz (Or.inl h0)
    have hth : 0 < th := Nat.pos_of_ne_zero fun h0 => hz (Or.inr h0)
    have hx : W / tw + (if W % tw = 0 then 0 else 1) < 2 ^ 32 := by
      have := Nat.div_add_mod W tw
      have hle : W / tw ≤ tw * (W / tw) := Nat.le_mul_of_pos_left _ htw
      split_ifs with hr <;> omega
    have hy : H / th + (if H % th = 0 then 0 else 1) < 2 ^ 32 := by
      have := Nat.div_add_mod H th
      have hle : H / th ≤ th * (H / th) := Nat.le_mul_of_pos_left _ hth
      split_ifs with hr <;> omega
    rw [Nat.mod_eq_of_lt hx, Nat.mod_eq_of_lt hy, ← ceil_div_eq W tw htw,
      ← ceil_div_eq H th hth] at hok
    by_cases hn : ⌈(W : ℚ) / tw⌉₊ = 0
    · simp [hn] at hok
    · simp only [hn, if_false, Except.ok.injEq, Prod.mk.injEq] at hok
      have hWpos : 0 < W := by
        rcases Nat.eq_zero_or_pos W with h0 | h0
        · subst h0; simp at hn
        · exact h0
      have hcx : ⌈(W : ℚ) / tw⌉₊ < 2 ^ 32 := by rw [ceil_div_eq W tw htw]; exact hx
      have hcy : ⌈(H : ℚ) / th⌉₊ < 2 ^ 32 := by rw [ceil_div_eq H th hth]; exact hy
      have e1 : usub32 ⌈(W : ℚ) / tw⌉₊ 1 = ⌈(W : ℚ) / tw⌉₊ - 1 := by
        unfold usub32; omega
      refine ⟨htw, hth, hWpos, ?_, ?_⟩
      · rw [← hok.1, e1]
      · rw [← hok.2]
        by_cases hr : H % th = 0
        · simp [hr]
        · have hpos : 0 < ⌈(H : ℚ) / th⌉₊ := by
            rw [ceil_div_eq H th hth]; simp [hr]
          have e2 : usub32 ⌈(H : ℚ) / th⌉₊ 1 = ⌈(H : ℚ) / th⌉₊ - 1 := by
            unfold usub32; omega
          rw [e2]

/-! ## Lemmas on the bilevel expansion -/

theorem bit_set_iff (t k : Nat) : t &&& (1 <<< k) ≠ 0 ↔ t.testBit k = true := by
  rw [Nat.one_shiftLeft, Nat.and_two_pow]
  cases t.testBit k <;> simp

theorem unpackByte_length (t mx mn k : Nat) : (unpackByte t mx mn k).length = k := by
  induction k with
  | zero => rfl
  | succ k ih => simp [unpackByte, ih]

theorem unpackByte_getElem? (t mx mn : Nat) (k j : Nat) (hj : j < k) :
    (unpackByte t mx mn k)[j]? = some (if t.testBit (k - 1 - j) then mx else mn) := by
  induction k generalizing j with
  | zero => omega
  | succ k ih =>
    cases j with
    | zero =>
      simp only [unpackByte, List.getElem?_cons_zero, Nat.add_sub_cancel, Nat.sub_zero,
        bit_set_iff]
    | succ j =>
      simp only [unpackByte, List.getElem?_cons_succ]
      have e : k + 1 - 1 - (j + 1) = k - 1 - j := by omega
      rw [ih j (by omega), e]

theorem unpackLoop_spec (data : List Nat) (mx mn : Nat) (cnt : Nat) :
    ∀ (i : Nat) (buffer : List Nat), i + cnt ≤ data.length →
      ∃ out, unpackLoop data mx mn i cnt buffer = .ok out ∧
        out.length = buffer.length + 8 * cnt ∧
        (∀ k, k < buffer.length → out[k]? = buffer[k]?) ∧
        ∀ m j t, m < cnt → j < 8 → data[i + m]? = some t →
          out[buffer.length + 8 * m + j]? = some (if t.testBit (7 - j) then mx else mn) := by
  induction cnt with
  | zero =>
    intro i buffer _
    exact ⟨buffer, rfl, by simp, fun _ _ => rfl, fun m j t hm => absurd hm (Nat.not_lt_zero m)⟩
  | succ cnt ih =>
    intro i buffer hlen
    have hi : i < data.length := by omega
    have hget : data[i]? = some data[i] := List.getElem?_eq_getElem hi
    obtain ⟨out, hout, hl, hpre, hbits⟩ :=
      ih (i + 1) (buffer ++ unpackByte data[i] mx mn 8) (by omega)
    refine ⟨out, ?_, ?_, ?_, ?_⟩
    · simp only [unpackLoop, hget]
      exact hout
    · rw [hl, List.length_append, unpackByte_length]; omega
    · intro k hk
      rw [hpre k (by rw [List.length_append]; omega), List.getElem?_append_left hk]
    · intro m j t hm hj ht
      cases m with
      | zero =>
        rw [Nat.add_zero] at ht
        rw [hget] at ht
        injection ht with ht
        subst ht
        rw [Nat.mul_zero, Nat.add_zero,
          hpre _ (by rw [List.length_append, unpackByte_length]; omega),
          List.getElem?_append_right (by omega), Nat.add_sub_cancel_left,
          unpackByte_getElem? _ _ _ 8 j hj]
      | succ m =>
        have ht2 : data[i + 1 + m]? = some t := by
          rw [← ht]; congr 1; omega
        have := hbits m j t (by omega) hj ht2
        rw [List.length_append, unpackByte_length] at this
        rw [← this]
        congr 1
        omega

/-! ## Lemmas on the catalog build -/

theorem TIFFReadDirectory_eq_some (t t1 : TIFF) (k : Nat) (hloc : t.loc = .top k)
    (hok : TIFFReadDirectory t = some t1) :
    t1.loc = .top (k + 1) ∧ t1.container = t.container ∧
      t.container.dirs[k + 1]? = some t1.cur := by
  unfold TIFFReadDirectory at hok
  rw [hloc] at hok
  simp only at hok
  cases hd : t.container.dirs[k + 1]? with
  | none => simp [hd] at hok
  | some d =>
    simp only [hd, Option.some.injEq] at hok
    subst hok
    exact ⟨rfl, rfl, rfl⟩

theorem TIFFReadDirectory_eq_none (t : TIFF) (k : Nat) (hloc : t.loc = .top k)
    (hok : TIFFReadDirectory t = none) : t.container.dirs.length ≤ k + 1 := by
  unfold TIFFReadDirectory at hok
  rw [hloc] at hok
  simp only at hok
  cases hd : t.container.dirs[k + 1]? with
  | none => exact List.getElem?_eq_none_iff.1 hd
  | some d => simp [hd] at hok

/-- The stack entry `loadStackInfo` records for a directory. -/
theorem stackBody_stack (t : TIFF) (h : TPTImage) (n : Nat) :
    (stackBody t h n).1.stack =
      h.stack ++ ([t.cur].filter (fun d => d.subfileType = some FILETYPE_PAGE)).map
        (fun d => ({ name := d.documentName, scale := d.stonits } : Stack)) := by
  unfold stackBody
  by_cases hs : t.cur.subfileType = some FILETYPE_PAGE
  · simp [hs]
  · simp [hs]

theorem stackLoop_spec (fuel : Nat) :
    ∀ (t : TIFF) (h : TPTImage) (n k : Nat), t.loc = .top k →
      t.container.dirs[k]? = some t.cur → t.container.dirs.length ≤ k + fuel →
      ∃ t1 h1, stackLoop fuel t h n = some (t1, h1) ∧ t1.container = t.container ∧
        h1.stack = h.stack ++
          ((t.container.dirs.drop k).filter (fun d => d.subfileType = some FILETYPE_PAGE)).map
            (fun d => ({ name := d.documentName, scale := d.stonits } : Stack)) := by
  induction fuel with
  | zero =>
    intro t h n k _ hcur hlen
    have := (List.getElem?_eq_some_iff.1 hcur).1
    omega
  | succ fuel ih =>
    intro t h n k hloc hcur hlen
    have hk := (List.getElem?_eq_some_iff.1 hcur)
    obtain ⟨hklt, hkeq⟩ := hk
    have hdrop : t.container.dirs.drop k = t.cur :: t.container.dirs.drop (k + 1) := by
      rw [← hkeq]; exact List.drop_eq_getElem_cons hklt
    unfold stackLoop
    cases hr : TIFFReadDirectory t with
    | some t1 =>
      obtain ⟨hl1, hc1, hd1⟩ := TIFFReadDirectory_eq_some t t1 k hloc hr
      obtain ⟨t2, h2, hrun, hc2, hst⟩ :=
        ih t1 (stackBody t h n).1 (stackBody t h n).2 (k + 1) hl1 (by rw [hc1]; exact hd1)
          (by rw [hc1]; omega)
      refine ⟨t2, h2, hrun, by rw [hc2, hc1], ?_⟩
      rw [hst, stackBody_stack, hc1, hdrop, List.append_assoc]
      congr 1
      simp only [List.filter_cons, List.filter_nil]
      split <;> simp
    | none =>
      have hend := TIFFReadDirectory_eq_none t k hloc hr
      refine ⟨t, (stackBody t h n).1, rfl, rfl, ?_⟩
      rw [stackBody_stack, hdrop, List.drop_eq_nil_of_le hend]

theorem loadStackInfo_spec (t : TIFF) (h : TPTImage) (d0 : Directory) (ds : List Directory)
    (hdirs : t.container.dirs = d0 :: ds) :
    ∃ t1 h1, loadStackInfo t h = .ok (t1, h1) ∧ t1.container = t.container ∧
      h1.stack = h.stack ++
        ((d0 :: ds).filter (fun d => d.subfileType = some FILETYPE_PAGE)).map
          (fun d => ({ name := d.documentName, scale := d.stonits } : Stack)) := by
  unfold loadStackInfo
  have hset : TIFFSetDirectory t 0 =
      some { t with loc := .top 0, cur := d0, curdir := 0 } := by
    simp [TIFFSetDirectory, hdirs]
  rw [hset]
  simp only
  obtain ⟨t1, h1, hrun, hc, hst⟩ :=
    stackLoop_spec t.container.dirs.length { t with loc := .top 0, cur := d0, curdir := 0 } h 1 0
      rfl (by simp [hdirs]) (by simp)
  rw [hrun]
  simp only [List.drop_zero, hdirs] at hst
  simp only
  split
  · exact ⟨_, _, rfl, hc, hst⟩
  · exact ⟨_, _, rfl, hc, hst⟩

theorem normalBody_lists (t : TIFF) (h : TPTImage) (count : Nat) :
    (∃ ws, (normalBody t h count).image_widths = h.image_widths ++ ws) ∧
    (∃ hs, (normalBody t h count).image_heights = h.image_heights ++ hs) ∧
    (normalBody t h count).stack = h.stack := by
  unfold normalBody
  split
  · exact ⟨⟨_, rfl⟩, ⟨_, rfl⟩, rfl⟩
  · exact ⟨⟨[], (List.append_nil _).symm⟩, ⟨[], (List.append_nil _).symm⟩, rfl⟩

theorem normalLoop_spec (fuel : Nat) :
    ∀ (t : TIFF) (h : TPTImage) (count k : Nat), t.loc = .top k →
      k < t.container.dirs.length → t.container.dirs.length ≤ k + fuel →
      ∃ t1 h1, normalLoop fuel t h count = some (t1, h1) ∧ t1.container = t.container ∧
        (∃ ws, h1.image_widths = h.image_widths ++ ws) ∧
        (∃ hs, h1.image_heights = h.image_heights ++ hs) ∧ h1.stack = h.stack := by
  induction fuel with
  | zero => intro t h count k _ hk hlen; omega
  | succ fuel ih =>
    intro t h count k hloc hk hlen
    unfold normalLoop
    cases hr : TIFFReadDirectory t with
    | some t1 =>
      obtain ⟨hl1, hc1, hd1⟩ := TIFFReadDirectory_eq_some t t1 k hloc hr
      have hk1 : k + 1 < t1.container.dirs.length := by
        rw [hc1]; exact (List.getElem?_eq_some_iff.1 hd1).1
      obtain ⟨t2, h2, hrun, hc2, ⟨ws, hws⟩, ⟨hs, hhs⟩, hst⟩ :=
        ih t1 (normalBody t1 h count) (count + 1) (k + 1) hl1 hk1 (by rw [hc1]; omega)
      obtain ⟨⟨ws0, hws0⟩, ⟨hs0, hhs0⟩, hst0⟩ := normalBody_lists t1 h count
      refine ⟨t2, h2, hrun, by rw [hc2, hc1], ⟨ws0 ++ ws, ?_⟩, ⟨hs0 ++ hs, ?_⟩, ?_⟩
      · rw [hws, hws0, List.append_assoc]
      · rw [hhs, hhs0, List.append_assoc]
      · rw [hst, hst0]
    | none => exact ⟨t, h, rfl, rfl, ⟨[], (List.append_nil _).symm⟩, ⟨[], (List.append_nil _).symm⟩, rfl⟩

theorem vecResize_length_one (v : List Nat) : (vecResize v 1).length = 1 := by
  unfold vecResize
  cases v with
  | nil => rfl
  | cons a l => simp

theorem catalogColour_snd (c : Nat) (t : TIFF) (h : TPTImage) :
    ∃ cs ch, (catalogColour c t h).2 = { h with colourspace := cs, channels := ch } := by
  unfold catalogColour
  split_ifs <;> exact ⟨_, _, rfl⟩

theorem subIFDBlock_nil (t : TIFF) (h : TPTImage) (tw th : Nat) (hs : h.subifds = []) :
    subIFDBlock t h tw th = .ok (t, h) := by
  unfold subIFDBlock
  simp [hs]

theorem normalBlock_stack (t : TIFF) (h : TPTImage) (d0 d1 : Directory) (rest : List Directory)
    (tw th : Nat) (hp : h.pyramid = .NORMAL) (hloc : t.loc = .top 0)
    (hdirs : t.container.dirs = d0 :: d1 :: rest)
    (hiw : h.image_widths = [d0.imageWidth]) (hih : h.image_heights = [d0.imageLength])
    (htw : d1.tileWidth = some tw) (hth : d1.tileLength = some th)
    (hw : d0.imageWidth = d1.imageWidth) (hh : d0.imageLength = d1.imageLength)
    (hs0 : d0.subfileType = some FILETYPE_PAGE) (hs1 : d1.subfileType = some FILETYPE_PAGE) :
    ∃ t1 h1, normalBlock t h = .ok (t1, h1) ∧ t1.container = t.container ∧
      h1.image_widths.length = 1 ∧ h1.image_heights.length = 1 ∧
      h1.tile_widths.length = 1 ∧ h1.tile_heights.length = 1 ∧ 2 ≤ h1.stack.length := by
  unfold normalBlock
  simp only [hp, if_true]
  -- the first iteration of the loop reads directory 1
  have hread : TIFFReadDirectory t = some { t with loc := .top 1, cur := d1, curdir := 1 } := by
    simp [TIFFReadDirectory, hloc, hdirs]
  have hlen : t.container.dirs.length = rest.length + 2 := by rw [hdirs]; rfl
  obtain ⟨t2, h2, hrun, hc2, ⟨ws, hws⟩, ⟨hs, hhs⟩, -⟩ :=
    normalLoop_spec (rest.length + 2) { t with loc := .top 1, cur := d1, curdir := 1 }
      (normalBody { t with loc := .top 1, cur := d1, curdir := 1 } h 0) 1 1 rfl
      (by show 1 < t.container.dirs.length; omega)
      (by show t.container.dirs.length ≤ 1 + (rest.length + 2); omega)
  have hloop : normalLoop (t.container.dirs.length + 1) t h 0 = some (t2, h2) := by
    rw [hlen]
    show normalLoop (rest.length + 2 + 1) t h 0 = _
    rw [normalLoop, hread]
    exact hrun
  rw [hloop]
  simp only
  have hbw : (normalBody { t with loc := .top 1, cur := d1, curdir := 1 } h 0).image_widths =
      [d0.imageWidth, d1.imageWidth] := by
    simp [normalBody, htw, hth, hiw]
  have hbh : (normalBody { t with loc := .top 1, cur := d1, curdir := 1 } h 0).image_heights =
      [d0.imageLength, d1.imageLength] := by
    simp [normalBody, htw, hth, hih]
  rw [hbw] at hws
  rw [hbh] at hhs
  obtain ⟨t3, h3, hst, hc3, hstack⟩ :=
    loadStackInfo_spec t2 h2 d0 (d1 :: rest) (by rw [hc2]; exact hdirs)
  have hlen3 : 2 ≤ h3.stack.length := by
    rw [hstack]
    simp [List.filter_cons, hs0, hs1]
    omega
  have hcheck : stackCheck t2 h2 = .ok (t3,
      { h3 with
          image_widths := vecResize h3.image_widths 1
          image_heights := vecResize h3.image_heights 1
          tile_widths := vecResize h3.tile_widths 1
          tile_heights := vecResize h3.tile_heights 1 }) := by
    unfold stackCheck
    have hpos : h2.image_widths.length > 0 := by rw [hws]; simp
    have e0 : vecAt h2.image_widths 0 = .ok d0.imageWidth := by
      rw [vecAt_eq_ok, hws]; simp
    have e1 : vecAt h2.image_widths 1 = .ok d1.imageWidth := by
      rw [vecAt_eq_ok, hws]; simp
    have f0 : vecAt h2.image_heights 0 = .ok d0.imageLength := by
      rw [vecAt_eq_ok, hhs]; simp
    have f1 : vecAt h2.image_heights 1 = .ok d1.imageLength := by
      rw [vecAt_eq_ok, hhs]; simp
    have hpos3 : h3.stack.length > 0 := by omega
    simp only [hpos, if_true, e0, e1, f0, f1, hst, hw, hh, bind, Except.bind, pure, Except.pure,
      hpos3]
  rw [hcheck]
  exact ⟨_, _, rfl, by rw [hc3, hc2], vecResize_length_one _, vecResize_length_one _,
    vecResize_length_one _, vecResize_length_one _, hlen3⟩

theorem unpackLoop_length (data : List Nat) (mx mn : Nat) (cnt : Nat) :
    ∀ (i : Nat) (buffer out : List Nat), unpackLoop data mx mn i cnt buffer = .ok out →
      out.length = buffer.length + 8 * cnt := by
  induction cnt with
  | zero =>
    intro i buffer out hok
    simp only [unpackLoop, Except.ok.injEq] at hok
    rw [← hok]; rfl
  | succ cnt ih =>
    intro i buffer out hok
    unfold unpackLoop at hok
    cases hd : data[i]? with
    | none => simp [hd] at hok
    | some t =>
      simp only [hd] at hok
      rw [ih _ _ _ hok, List.length_append, unpackByte_length]
      omega

/-- Closed form of `tileExtent` on a level with positive 32-bit sizes. -/
theorem tileExtent_closed (W H tw th t : Nat) (hW : 0 < W) (hW32 : W < 2 ^ 32) (hH32 : H < 2 ^ 32)
    (htw : 0 < tw) (hth : 0 < th) :
    tileExtent W H tw th t =
      .ok (if t % (W / tw + (if W % tw = 0 then 0 else 1)) =
                W / tw + (if W % tw = 0 then 0 else 1) - 1 ∧ W % tw ≠ 0 then W % tw else tw,
           if t / (W / tw + (if W % tw = 0 then 0 else 1)) =
                H / th + (if H % th = 0 then 0 else 1) - 1 ∧ H % th ≠ 0 then H % th else th) := by
  have hx : W / tw + (if W % tw = 0 then 0 else 1) < 2 ^ 32 := by
    have := Nat.div_add_mod W tw
    have hle : W / tw ≤ tw * (W / tw) := Nat.le_mul_of_pos_left _ htw
    split_ifs with hr <;> omega
  have hy : H / th + (if H % th = 0 then 0 else 1) < 2 ^ 32 := by
    have := Nat.div_add_mod H th
    have hle : H / th ≤ th * (H / th) := Nat.le_mul_of_pos_left _ hth
    split_ifs with hr <;> omega
  have hpos : 0 < W / tw + (if W % tw = 0 then 0 else 1) := by
    by_cases hr : W % tw = 0
    · simp only [hr, if_true, Nat.add_zero]
      have := Nat.div_add_mod W tw
      rcases Nat.eq_zero_or_pos (W / tw) with h0 | h0
      · rw [h0, hr] at this; omega
      · exact h0
    · simp [hr]
  unfold tileExtent
  have hz : ¬ (tw = 0 ∨ th = 0) := by omega
  simp only [hz, if_false, Nat.mod_eq_of_lt hx, Nat.mod_eq_of_lt hy]
  have hne : ¬ (W / tw + (if W % tw = 0 then 0 else 1) = 0) := by omega
  simp only [hne, if_false]
  have e1 : usub32 (W / tw + (if W % tw = 0 then 0 else 1)) 1 =
      W / tw + (if W % tw = 0 then 0 else 1) - 1 := by
    unfold usub32; omega
  rw [e1]
  by_cases hr : H % th = 0
  · simp [hr]
  · have hposy : 0 < H / th + (if H % th = 0 then 0 else 1) := by simp [hr]
    have e2 : usub32 (H / th + (if H % th = 0 then 0 else 1)) 1 =
        H / th + (if H % th = 0 then 0 else 1) - 1 := by
      unfold usub32; omega
    rw [e2]

/-- Sum of `n` tile sizes, all nominal except a shorter last one. -/
theorem sum_last_short (n q r : Nat) (hn : 0 < n) :
    ∑ i in Finset.range n, (if i = n - 1 ∧ r ≠ 0 then r else q) =
      (n - 1) * q + (if r ≠ 0 then r else q) := by
  obtain ⟨m, rfl⟩ : ∃ m, n = m + 1 := ⟨n - 1, by omega⟩
  rw [Finset.sum_range_succ]
  have h1 : ∑ i in Finset.range m, (if i = m + 1 - 1 ∧ r ≠ 0 then r else q) =
      ∑ _i in Finset.range m, q := by
    apply Finset.sum_congr rfl
    intro i hi
    have : i < m := Finset.mem_range.1 hi
    have hne : ¬ (i = m + 1 - 1 ∧ r ≠ 0) := by
      intro h; omega
    simp only [hne, if_false]
  rw [h1, Finset.sum_const, Finset.card_range, smul_eq_mul]
  simp only [Nat.add_sub_cancel, true_and]


/-- A tile size that is nominal or a non-zero remainder lies between 1 and the nominal size. -/
theorem short_bounds (P : Prop) [Decidable P] (r q : Nat) (hr : r < q) :
    1 ≤ (if P ∧ r ≠ 0 then r else q) ∧ (if P ∧ r ≠ 0 then r else q) ≤ q := by
  split_ifs with h
  · exact ⟨Nat.pos_of_ne_zero h.2, Nat.le_of_lt hr⟩
  · exact ⟨by omega, Nat.le_refl _⟩
theorem loadImageInfo_inv (u : Uninit) (h h1 : TPTImage) (seq ang : Int)
    (hok : loadImageInfo u h seq ang = .ok h1) :
    ∃ t0 t1 s n t4, h.tiff = some t0 ∧
      (t1 = t0 ∧ TIFFCurrentDirectory t0 = 0 ∨ TIFFSetDirectory t0 0 = some t1) ∧
      subIFDBlock t1 (catalogStart u t0 t1 h seq ang) (t0.cur.tileWidth.getD u.tw)
        (t0.cur.tileLength.getD u.th) = .ok s ∧
      normalBlock s.1 s.2 = .ok n ∧
      TIFFSetDirectory n.1 (TIFFCurrentDirectory t0) = some t4 ∧
      h1 = withTiff
        (catalogColour t0.cur.photometric t4
          { n.2 with numResolutions := n.2.image_widths.length }).2
        (catalogColour t0.cur.photometric t4
          { n.2 with numResolutions := n.2.image_widths.length }).1 := by
  cases ht : h.tiff with
  | none => simp [loadImageInfo, ht] at hok
  | some t0 =>
    by_cases hc : TIFFCurrentDirectory t0 = 0
    · simp only [loadImageInfo, ht, hc, ne_eq, not_true_eq_false, if_false, bind_eq_ok,
        orThrow_eq_ok, pure, Except.pure, Except.ok.injEq] at hok
      obtain ⟨t1, ht1, s, hs, n, hn, t4, ht4, hh1⟩ := hok
      refine ⟨t0, t1, s, n, t4, rfl, Or.inl ⟨ht1.symm, hc⟩, hs, hn, ?_, hh1.symm⟩
      rw [hc]; exact ht4
    · simp only [loadImageInfo, ht, hc, ne_eq, not_false_eq_true, if_true, bind_eq_ok,
        orThrow_eq_ok, pure, Except.pure, Except.ok.injEq] at hok
      obtain ⟨t1, ht1, s, hs, n, hn, t4, ht4, hh1⟩ := hok
      exact ⟨t0, t1, s, n, t4, rfl, Or.inr ht1, hs, hn, ht4, hh1.symm⟩

theorem TIFFReadDirectory_container (t t1 : TIFF) (hok : TIFFReadDirectory t = some t1) :
    t1.container = t.container := by
  unfold TIFFReadDirectory at hok
  cases hl : t.loc with
  | sub off => rw [hl] at hok; simp at hok
  | top k =>
    rw [hl] at hok
    simp only at hok
    cases hd : t.container.dirs[k + 1]? with
    | none => simp [hd] at hok
    | some d =>
      simp only [hd, Option.some.injEq] at hok
      subst hok
      rfl

theorem catalogStart_aligned (u : Uninit) (t0 t1 : TIFF) (h : TPTImage) (seq ang : Int) :
    levelsAligned (catalogStart u t0 t1 h seq ang) ∧
      (catalogStart u t0 t1 h seq ang).resolution_ids = h.resolution_ids ++ [0] ∧
      (catalogStart u t0 t1 h seq ang).pyramid = h.pyramid := by
  unfold catalogStart loadSubIFDs levelsAligned
  split <;> exact ⟨⟨Nat.le_refl _, rfl, rfl, rfl⟩, rfl, rfl⟩

/-- What the body of the scan of nested directories keeps: the container, the members
other than the four level lists, and the alignment of those lists. -/
theorem subIFDBody_shape (s : SubScan) (off : Nat) :
    (subIFDBody s off).t.container = s.t.container ∧
      (subIFDBody s off).h.resolution_ids = s.h.resolution_ids ∧
      (subIFDBody s off).h.pyramid = s.h.pyramid ∧
      (levelsAligned s.h → levelsAligned (subIFDBody s off).h) := by
  unfold subIFDBody
  cases hsub : TIFFSetSubDirectory s.t off with
  | none => exact ⟨rfl, rfl, rfl, id⟩
  | some t1 =>
    have hc := (TIFFSetSubDirectory_eq_some _ _ _ hsub).2.1
    simp only
    split
    · refine ⟨hc, rfl, rfl, ?_⟩
      intro ha
      unfold levelsAligned at ha ⊢
      simp only [List.length_append, List.length_singleton]
      omega
    · exact ⟨hc, rfl, rfl, id⟩

theorem subIFDLoop_shape (offs : List Nat) :
    ∀ s : SubScan, (subIFDLoop s offs).t.container = s.t.container ∧
      (subIFDLoop s offs).h.resolution_ids = s.h.resolution_ids ∧
      (subIFDLoop s offs).h.pyramid = s.h.pyramid ∧
      (levelsAligned s.h → levelsAligned (subIFDLoop s offs).h) := by
  induction offs with
  | nil => intro s; exact ⟨rfl, rfl, rfl, id⟩
  | cons off offs ih =>
    intro s
    obtain ⟨b1, b2, b3, b4⟩ := subIFDBody_shape s off
    obtain ⟨i1, i2, i3, i4⟩ := ih (subIFDBody s off)
    simp only [subIFDLoop, List.foldl_cons] at i1 i2 i3 i4 ⊢
    exact ⟨i1.trans b1, i2.trans b2, i3.trans b3, fun ha => i4 (b4 ha)⟩

theorem stackBody_shape (t : TIFF) (h : TPTImage) (n : Nat) :
    ∃ hal st, (stackBody t h n).1 = { h with horizontalAnglesList := hal, stack := st } := by
  unfold stackBody
  split
  · exact ⟨_, _, rfl⟩
  · exact ⟨_, _, rfl⟩

theorem stackLoop_shape (fuel : Nat) :
    ∀ (t t1 : TIFF) (h h1 : TPTImage) (n : Nat), stackLoop fuel t h n = some (t1, h1) →
      t1.container = t.container ∧
        ∃ hal st, h1 = { h with horizontalAnglesList := hal, stack := st } := by
  induction fuel with
  | zero => intro t t1 h h1 n hok; simp [stackLoop] at hok
  | succ fuel ih =>
    intro t t1 h h1 n hok
    unfold stackLoop at hok
    obtain ⟨hal0, st0, hb⟩ := stackBody_shape t h n
    cases hr : TIFFReadDirectory t with
    | none =>
      simp only [hr, Option.some.injEq, Prod.mk.injEq] at hok
      obtain ⟨e1, e2⟩ := hok
      subst e1
      exact ⟨rfl, hal0, st0, by rw [← e2, hb]⟩
    | some t2 =>
      simp only [hr] at hok
      obtain ⟨hc, hal, st, hh⟩ := ih _ _ _ _ _ hok
      refine ⟨hc.trans (TIFFReadDirectory_container _ _ hr), hal, st, ?_⟩
      rw [hh, hb]

theorem loadStackInfo_shape (t t1 : TIFF) (h h1 : TPTImage)
    (hok : loadStackInfo t h = .ok (t1, h1)) :
    t1.container = t.container ∧
      ∃ hal st, h1 = { h with horizontalAnglesList := hal, stack := st } := by
  unfold loadStackInfo at hok
  cases hs : TIFFSetDirectory t 0 with
  | none => simp [hs] at hok
  | some t0 =>
    have hc0 := (TIFFSetDirectory_eq_some _ _ _ hs).2.2.2.1
    simp only [hs] at hok
    cases hl : stackLoop t0.container.dirs.length t0 h 1 with
    | none => simp [hl] at hok
    | some r =>
      obtain ⟨t2, h2⟩ := r
      obtain ⟨hc, hal, st, hh⟩ := stackLoop_shape _ _ _ _ _ _ hl
      simp only [hl] at hok
      split at hok
      · simp only [Except.ok.injEq, Prod.mk.injEq] at hok
        obtain ⟨e1, e2⟩ := hok
        subst e1
        exact ⟨hc.trans hc0, _, st, by rw [← e2, hh]⟩
      · simp only [Except.ok.injEq, Prod.mk.injEq] at hok
        obtain ⟨e1, e2⟩ := hok
        subst e1
        exact ⟨hc.trans hc0, hal, st, by rw [← e2, hh]⟩
theorem catalogColour_fst (c : Nat) (t : TIFF) (h : TPTImage) :
    ∃ j, (catalogColour c t h).1 = { t with jpegColorMode := j } := by
  unfold catalogColour
  split_ifs <;> exact ⟨_, rfl⟩
theorem subIFDBlock_shape (t t1 : TIFF) (h h1 : TPTImage) (tw th : Nat)
    (hok : subIFDBlock t h tw th = .ok (t1, h1)) :
    t1.container = t.container ∧ h1.resolution_ids = h.resolution_ids ∧
      (levelsAligned h → levelsAligned h1) := by
  unfold subIFDBlock at hok
  by_cases hs : h.subifds.length > 0
  · simp only [hs, if_true] at hok
    obtain ⟨l1, l2, -, l4⟩ :=
      subIFDLoop_shape (h.subifds.drop 1) { t := t, h := h, tw := tw, th := th, count := 0 }
    simp only at l1 l2 l4
    split at hok
    · simp at hok
    · rename_i ta ha heq
      cases hd : TIFFSetDirectory ta 0 with
      | none => simp [hd] at hok
      | some t2 =>
        simp only [hd, Except.ok.injEq, Prod.mk.injEq] at hok
        obtain ⟨e1, e2⟩ := hok
        subst e1 e2
        have hc2 := (TIFFSetDirectory_eq_some _ _ _ hd).2.2.2.1
        split at heq
        · obtain ⟨hc, hal, st, hh⟩ := loadStackInfo_shape _ _ _ _ heq
          refine ⟨hc2.trans (hc.trans l1), ?_, ?_⟩
          · rw [hh]; exact l2
          · intro hal0
            have := l4 hal0
            rw [hh]
            exact this
        · simp only [Except.ok.injEq, Prod.mk.injEq] at heq
          obtain ⟨e1, e2⟩ := heq
          subst e1 e2
          exact ⟨hc2.trans l1, l2, l4⟩
  · simp only [hs, if_false, Except.ok.injEq, Prod.mk.injEq] at hok
    obtain ⟨e1, e2⟩ := hok
    subst e1 e2
    exact ⟨rfl, rfl, id⟩

theorem normalBody_shape (t : TIFF) (h : TPTImage) (count : Nat) :
    (∃ ids, (normalBody t h count).resolution_ids = h.resolution_ids ++ ids) ∧
      (levelsAligned h → levelsAligned (normalBody t h count)) := by
  unfold normalBody
  split
  · refine ⟨⟨_, rfl⟩, ?_⟩
    intro ha
    unfold levelsAligned at ha ⊢
    simp only [List.length_append, List.length_singleton]
    omega
  · exact ⟨⟨[], (List.append_nil _).symm⟩, id⟩

theorem normalLoop_shape (fuel : Nat) :
    ∀ (t t1 : TIFF) (h h1 : TPTImage) (count : Nat),
      normalLoop fuel t h count = some (t1, h1) →
      t1.container = t.container ∧ (∃ ids, h1.resolution_ids = h.resolution_ids ++ ids) ∧
        (levelsAligned h → levelsAligned h1) := by
  induction fuel with
  | zero => intro t t1 h h1 count hok; simp [normalLoop] at hok
  | succ fuel ih =>
    intro t t1 h h1 count hok
    unfold normalLoop at hok
    cases hr : TIFFReadDirectory t with
    | none =>
      simp only [hr, Option.some.injEq, Prod.mk.injEq] at hok
      obtain ⟨e1, e2⟩ := hok
      subst e1 e2
      exact ⟨rfl, ⟨[], (List.append_nil _).symm⟩, id⟩
    | some t2 =>
      simp only [hr] at hok
      obtain ⟨hc, ⟨ids, hids⟩, hal⟩ := ih _ _ _ _ _ hok
      obtain ⟨⟨ids0, hids0⟩, hal0⟩ := normalBody_shape t2 h count
      refine ⟨hc.trans (TIFFReadDirectory_container _ _ hr), ⟨ids0 ++ ids, ?_⟩,
        fun ha => hal (hal0 ha)⟩
      rw [hids, hids0, List.append_assoc]

theorem stackCheck_shape (t t1 : TIFF) (h h1 : TPTImage) (hok : stackCheck t h = .ok (t1, h1)) :
    t1.container = t.container ∧ h1.resolution_ids = h.resolution_ids ∧
      (levelsAligned h → levelsAligned h1) := by
  unfold stackCheck at hok
  split at hok
  · simp only [bind_eq_ok] at hok
    obtain ⟨w0, -, w1, -, hok⟩ := hok
    split at hok
    · simp only [bind_eq_ok] at hok
      obtain ⟨h0, -, h1', -, hok⟩ := hok
      split at hok
      · simp only [bind_eq_ok] at hok
        obtain ⟨⟨ta, hs⟩, hst, hok⟩ := hok
        obtain ⟨hc, hal, st, hh⟩ := loadStackInfo_shape _ _ _ _ hst
        simp only at hok
        split at hok
        · simp only [pure, Except.pure, Except.ok.injEq, Prod.mk.injEq] at hok
          obtain ⟨e1, e2⟩ := hok
          subst e1 e2
          refine ⟨hc, by rw [hh], ?_⟩
          intro _
          simp [levelsAligned, vecResize_length_one]
        · simp only [pure, Except.pure, Except.ok.injEq, Prod.mk.injEq] at hok
          obtain ⟨e1, e2⟩ := hok
          subst e1 e2
          refine ⟨hc, by rw [hh], ?_⟩
          intro ha
          rw [hh]
          exact ha
      · simp only [pure, Except.pure, Except.ok.injEq, Prod.mk.injEq] at hok
        obtain ⟨e1, e2⟩ := hok
        subst e1 e2
        exact ⟨rfl, rfl, id⟩
    · simp only [pure, Except.pure, Except.ok.injEq, Prod.mk.injEq] at hok
      obtain ⟨e1, e2⟩ := hok
      subst e1 e2
      exact ⟨rfl, rfl, id⟩
  · simp only [pure, Except.pure, Except.ok.injEq, Prod.mk.injEq] at hok
    obtain ⟨e1, e2⟩ := hok
    subst e1 e2
    exact ⟨rfl, rfl, id⟩

theorem normalBlock_shape (t t1 : TIFF) (h h1 : TPTImage) (hok : normalBlock t h = .ok (t1, h1)) :
    t1.container = t.container ∧ (∃ ids, h1.resolution_ids = h.resolution_ids ++ ids) ∧
      (levelsAligned h → levelsAligned h1) := by
  unfold normalBlock at hok
  by_cases hp : h.pyramid = .NORMAL
  · simp only [hp, if_true] at hok
    cases hl : normalLoop (t.container.dirs.length + 1) t h 0 with
    | none => simp [hl] at hok
    | some r =>
      obtain ⟨t2, h2⟩ := r
      simp only [hl] at hok
      obtain ⟨hc, hids, hal⟩ := normalLoop_shape _ _ _ _ _ _ hl
      obtain ⟨hc2, hids2, hal2⟩ := stackCheck_shape _ _ _ _ hok
      exact ⟨hc2.trans hc, by rw [hids2]; exact hids, fun ha => hal2 (hal ha)⟩
  · simp only [hp, if_false, Except.ok.injEq, Prod.mk.injEq] at hok
    obtain ⟨e1, e2⟩ := hok
    subst e1 e2
    exact ⟨rfl, ⟨[], (List.append_nil _).symm⟩, id⟩

/-- What every successful build leaves: aligned level lists counted by
`numResolutions`, the old `resolution_ids` followed by a 0 and the directories found,
and the cursor on the top-level directory the codec reports. -/
theorem loadImageInfo_shape (u : Uninit) (h h1 : TPTImage) (seq ang : Int)
    (hok : loadImageInfo u h seq ang = .ok h1) :
    levelsAligned h1 ∧ h1.numResolutions = h1.image_widths.length ∧
      (∃ ids, h1.resolution_ids = h.resolution_ids ++ 0 :: ids) ∧
      ∃ t, h1.tiff = some t ∧ onTopLevel t := by
  obtain ⟨t0, t1, s, n, t4, -, -, hs, hn, ht4, hh1⟩ := loadImageInfo_inv u h h1 seq ang hok
  obtain ⟨sa, sb⟩ := s
  obtain ⟨na, nb⟩ := n
  obtain ⟨-, s2, s3⟩ := subIFDBlock_shape _ _ _ _ _ _ hs
  obtain ⟨-, ⟨ids, n2⟩, n3⟩ := normalBlock_shape _ _ _ _ hn
  obtain ⟨c1, c2, -⟩ := catalogStart_aligned u t0 t1 h seq ang
  obtain ⟨cs, ch, hcol⟩ := catalogColour_snd t0.cur.photometric t4
    { nb with numResolutions := nb.image_widths.length }
  obtain ⟨j, hj⟩ := catalogColour_fst t0.cur.photometric t4
    { nb with numResolutions := nb.image_widths.length }
  obtain ⟨-, hloc, hcur, hcon, hdir⟩ := TIFFSetDirectory_eq_some _ _ _ ht4
  simp only at hh1 hs hn
  rw [hh1, hcol, hj]
  refine ⟨n3 (s3 c1), rfl, ⟨ids, ?_⟩, _, rfl, ?_⟩
  · show nb.resolution_ids = _
    rw [n2, s2, c2, List.append_assoc]; rfl
  · show t4.loc = .top t4.curdir ∧ t4.container.dirs[t4.curdir]? = some t4.cur
    rw [hloc, hcur, hcon]
    exact ⟨rfl, hdir⟩

/-- A close clears the `tiff` member and nothing else. -/
theorem closeImage_eq (s : TPTImage) : closeImage s = { s with tiff := none } := by
  unfold closeImage
  cases hs : s.tiff with
  | none =>
    obtain ⟨tiff, cx, cy, iw, ih, tw, th, ids, sub, si, p, st, hal, n, ch, b, sty, cs, is⟩ := s
    simp only at hs
    subst hs
    rfl
  | some t => rfl

/-- What `reload` keeps: a `resolution_ids` list that is empty or starts with 0, and a
cursor on the top-level directory the codec reports. -/
theorem reload_shape (files : Int → Int → Option Container) (u : Uninit) (h h1 : TPTImage)
    (x y : Int) (hok : reload files u h x y = .ok h1)
    (hids : ∀ a, h.resolution_ids[0]? = some a → a = 0)
    (hcur : ∀ t, h.tiff = some t → onTopLevel t) :
    (∀ a, h1.resolution_ids[0]? = some a → a = 0) ∧
      (∀ t, h1.tiff = some t → onTopLevel t) := by
  have hopen : ∀ t, (files x y).bind TIFFOpen = some t → onTopLevel t := by
    intro t ht
    cases hf : files x y with
    | none => simp [hf] at ht
    | some c =>
      simp only [hf, Option.some_bind] at ht
      obtain ⟨d, ds, hd, e⟩ := TIFFOpen_eq_some c t ht
      subst e
      exact ⟨rfl, by simp [hd]⟩
  have hbuild : ∀ g : TPTImage, g.resolution_ids = h.resolution_ids →
      loadImageInfo u g x y = .ok h1 →
      (∀ a, h1.resolution_ids[0]? = some a → a = 0) ∧
        (∀ t, h1.tiff = some t → onTopLevel t) := by
    intro g hg hl
    obtain ⟨-, -, ⟨ids, hr⟩, t, ht, hwf⟩ := loadImageInfo_shape u g h1 x y hl
    refine ⟨?_, ?_⟩
    · intro a ha
      rw [hr, hg] at ha
      cases hl0 : h.resolution_ids with
      | nil =>
        rw [hl0] at ha
        simp only [List.nil_append, List.getElem?_cons_zero, Option.some.injEq] at ha
        exact ha.symm
      | cons b bs =>
        rw [hl0] at ha
        simp only [List.cons_append, List.getElem?_cons_zero, Option.some.injEq] at ha
        subst ha
        exact hids b (by rw [hl0]; simp)
    · intro t' ht'
      rw [ht] at ht'
      injection ht' with ht'
      subst ht'
      exact hwf
  unfold reload at hok
  by_cases hd : h.stack.isEmpty = true ∧ (h.currentX ≠ x ∨ h.currentY ≠ y)
  · have hclose : (closeImage h).tiff = none := by rw [closeImage_eq]
    have hstack : (closeImage h).stack = h.stack ∧ (closeImage h).currentX = h.currentX ∧
        (closeImage h).currentY = h.currentY ∧
        (closeImage h).resolution_ids = h.resolution_ids := by
      rw [closeImage_eq]
      exact ⟨rfl, rfl, rfl, rfl⟩
    simp only [hd, and_self, if_true, hclose, bind_eq_ok, orThrow_eq_ok, pure, Except.pure,
      Except.ok.injEq] at hok
    obtain ⟨t, -, g, hg, hok⟩ := hok
    subst hg
    have hd2 : (withTiff (closeImage h) t).stack.isEmpty = true ∧
        ((withTiff (closeImage h) t).currentX ≠ x ∨ (withTiff (closeImage h) t).currentY ≠ y) := by
      simp only [withTiff, hstack.1, hstack.2.1, hstack.2.2.1]
      exact hd
    simp only [hd2, and_self, if_true] at hok
    exact hbuild (withTiff (closeImage h) t) hstack.2.2.2 hok
  · simp only [hd, if_false] at hok
    cases ht : h.tiff with
    | some t =>
      simp only [ht, bind_eq_ok, pure, Except.pure, Except.ok.injEq, exists_eq_left'] at hok
      simp only [hd, if_false, Except.ok.injEq] at hok
      subst hok
      exact ⟨hids, hcur⟩
    | none =>
      simp only [ht, bind_eq_ok, orThrow_eq_ok, pure, Except.pure, Except.ok.injEq] at hok
      obtain ⟨t, hto, g, hg, hok⟩ := hok
      subst hg
      have hd2 : ¬ ((withTiff h t).stack.isEmpty = true ∧
          ((withTiff h t).currentX ≠ x ∨ (withTiff h t).currentY ≠ y)) := hd
      simp only [hd2, if_false, Except.ok.injEq] at hok
      subst hok
      refine ⟨hids, ?_⟩
      intro t' ht'
      simp only [withTiff, Option.some.injEq] at ht'
      subst ht'
      exact hopen _ hto

/-- The seek of the classic scheme: no move when `v` is the directory number the codec
reports, else the cursor goes to top-level directory `resolution_ids[v]`. -/
theorem seekNormal_served (t t2 : TIFF) (h : TPTImage) (v : Int)
    (hok : seekNormal t h v = .ok t2) :
    (t2 = t ∧ v = (t.curdir : Int)) ∨
      ∃ id, vecAt h.resolution_ids v = .ok id ∧ t2.loc = .top id ∧
        t2.container.dirs[id]? = some t2.cur := by
  unfold seekNormal at hok
  by_cases hv : v = (TIFFCurrentDirectory t : Int)
  · simp only [hv, ne_eq, not_true_eq_false, if_false, Except.ok.injEq] at hok
    exact Or.inl ⟨hok.symm, hv⟩
  · simp only [ne_eq, hv, not_false_eq_true, if_true] at hok
    cases hid : vecAt h.resolution_ids v with
    | error e => simp [hid] at hok
    | ok id =>
      simp only [hid, orThrow_eq_ok] at hok
      obtain ⟨-, a, -, b, c⟩ := TIFFSetDirectory_eq_some _ _ _ hok
      simp only [Int.toNat_ofNat] at a c
      exact Or.inr ⟨id, rfl, a, by rw [b]; exact c⟩

theorem selectDirectory_normal (t t2 : TIFF) (h h2 : TPTImage) (x v : Int)
    (hp : h.pyramid = .NORMAL) (hok : selectDirectory t h x v = .ok (t2, h2)) :
    h2 = h ∧ seekNormal t h v = .ok t2 := by
  unfold selectDirectory at hok
  simp only [hp, reduceCtorEq, if_false] at hok
  cases hs : seekNormal t h v with
  | error e => simp [hs] at hok
  | ok t3 =>
    simp only [hs, Except.ok.injEq, Prod.mk.injEq] at hok
    exact ⟨hok.2.symm, by rw [hok.1]⟩
theorem levelsAdded_nil (h : TPTImage) : levelsAdded h h [] := by
  simp [levelsAdded]

theorem levelsAdded_trans (h h1 h2 : TPTImage) (ds es : List Directory)
    (h01 : levelsAdded h h1 ds) (h12 : levelsAdded h1 h2 es) : levelsAdded h h2 (ds ++ es) := by
  unfold levelsAdded at *
  rw [h12.1, h12.2, h01.1, h01.2]
  simp

theorem subIFDBody_sizes (s : SubScan) (off : Nat) :
    ∃ ds, ds.Sublist (s.t.container.subdirs.lookup off).toList ∧
      levelsAdded s.h (subIFDBody s off).h ds ∧
      (subIFDBody s off).count = s.count + ds.length := by
  unfold subIFDBody
  cases hsub : TIFFSetSubDirectory s.t off with
  | none => exact ⟨[], List.nil_sublist _, levelsAdded_nil _, rfl⟩
  | some t1 =>
    have hc := (TIFFSetSubDirectory_eq_some _ _ _ hsub).2.2
    simp only
    split
    · refine ⟨[t1.cur], ?_, ⟨rfl, rfl⟩, rfl⟩
      rw [hc]
      exact List.Sublist.refl _
    · exact ⟨[], List.nil_sublist _, levelsAdded_nil _, rfl⟩

theorem subIFDLoop_sizes (offs : List Nat) :
    ∀ s : SubScan, ∃ ds, ds.Sublist (offs.filterMap s.t.container.subdirs.lookup) ∧
      levelsAdded s.h (subIFDLoop s offs).h ds ∧
      (subIFDLoop s offs).count = s.count + ds.length := by
  induction offs with
  | nil => intro s; exact ⟨[], List.nil_sublist _, levelsAdded_nil _, rfl⟩
  | cons off offs ih =>
    intro s
    obtain ⟨ds0, b1, b2, b3⟩ := subIFDBody_sizes s off
    obtain ⟨ds1, i1, i2, i3⟩ := ih (subIFDBody s off)
    rw [(subIFDBody_shape s off).1] at i1
    simp only [subIFDLoop, List.foldl_cons] at i2 i3 ⊢
    refine ⟨ds0 ++ ds1, ?_, levelsAdded_trans _ _ _ _ _ b2 i2, ?_⟩
    · have : (off :: offs).filterMap s.t.container.subdirs.lookup =
          (s.t.container.subdirs.lookup off).toList ++
            offs.filterMap s.t.container.subdirs.lookup := by
        cases hl : s.t.container.subdirs.lookup off <;> simp [List.filterMap_cons, hl]
      rw [this]
      exact List.Sublist.append b1 i1
    · rw [i3, b3, List.length_append]; omega

theorem loadStackInfo_sizes (t t1 : TIFF) (h h1 : TPTImage)
    (hok : loadStackInfo t h = .ok (t1, h1)) :
    h1.image_widths = h.image_widths ∧ h1.image_heights = h.image_heights ∧
      h1.pyramid = h.pyramid := by
  obtain ⟨-, hal, st, hh⟩ := loadStackInfo_shape _ _ _ _ hok
  rw [hh]
  exact ⟨rfl, rfl, rfl⟩

theorem subIFDBlock_sizes (t t1 : TIFF) (h h1 : TPTImage) (tw th : Nat)
    (hok : subIFDBlock t h tw th = .ok (t1, h1)) :
    ∃ ds, ds.Sublist ((h.subifds.drop 1).filterMap t.container.subdirs.lookup) ∧
      levelsAdded h h1 ds ∧ (ds = [] ∨ h1.pyramid ≠ .NORMAL) ∧
      (h1.pyramid = .NORMAL → h.pyramid = .NORMAL) ∧ (t1 = t ∨ t1.loc = .top 0) := by
  unfold subIFDBlock at hok
  by_cases hs : h.subifds.length > 0
  · simp only [hs, if_true] at hok
    obtain ⟨ds, l1, l2, l3⟩ :=
      subIFDLoop_sizes (h.subifds.drop 1) { t := t, h := h, tw := tw, th := th, count := 0 }
    obtain ⟨-, -, lp, -⟩ :=
      subIFDLoop_shape (h.subifds.drop 1) { t := t, h := h, tw := tw, th := th, count := 0 }
    simp only at l1 l2 l3 lp
    split at hok
    · simp at hok
    · rename_i ta ha heq
      cases hd : TIFFSetDirectory ta 0 with
      | none => simp [hd] at hok
      | some t2 =>
        simp only [hd, Except.ok.injEq, Prod.mk.injEq] at hok
        obtain ⟨e1, e2⟩ := hok
        subst e1 e2
        have hloc := (TIFFSetDirectory_eq_some _ _ _ hd).2.1
        simp only [Int.toNat_zero] at hloc
        split at heq
        · obtain ⟨w1, w2, w3⟩ := loadStackInfo_sizes _ _ _ _ heq
          simp only at w1 w2 w3
          refine ⟨ds, l1, ⟨?_, ?_⟩, Or.inr ?_, ?_, Or.inr hloc⟩
          · rw [w1]; exact l2.1
          · rw [w2]; exact l2.2
          · rw [w3]; simp
          · rw [w3]; simp
        · rename_i hcnt
          simp only [Except.ok.injEq, Prod.mk.injEq] at heq
          obtain ⟨e1, e2⟩ := heq
          subst e1 e2
          refine ⟨ds, l1, l2, Or.inl ?_, ?_, Or.inr hloc⟩
          · rw [l3] at hcnt
            apply List.eq_nil_of_length_eq_zero
            omega
          · rw [lp]; exact id
  · simp only [hs, if_false, Except.ok.injEq, Prod.mk.injEq] at hok
    obtain ⟨e1, e2⟩ := hok
    subst e1 e2
    exact ⟨[], List.nil_sublist _, levelsAdded_nil _, Or.inl rfl, id, Or.inl rfl⟩

theorem normalBody_sizes (t : TIFF) (h : TPTImage) (count : Nat) :
    ∃ ds, ds.Sublist [t.cur] ∧ levelsAdded h (normalBody t h count) ds := by
  unfold normalBody
  split
  · exact ⟨[t.cur], List.Sublist.refl _, rfl, rfl⟩
  · exact ⟨[], List.nil_sublist _, levelsAdded_nil _⟩

theorem normalLoop_sizes (fuel : Nat) :
    ∀ (t t1 : TIFF) (h h1 : TPTImage) (count k : Nat), t.loc = .top k →
      normalLoop fuel t h count = some (t1, h1) →
      ∃ ds, ds.Sublist (t.container.dirs.drop (k + 1)) ∧ levelsAdded h h1 ds := by
  induction fuel with
  | zero => intro t t1 h h1 count k _ hok; simp [normalLoop] at hok
  | succ fuel ih =>
    intro t t1 h h1 count k hloc hok
    unfold normalLoop at hok
    cases hr : TIFFReadDirectory t with
    | none =>
      simp only [hr, Option.some.injEq, Prod.mk.injEq] at hok
      obtain ⟨e1, e2⟩ := hok
      subst e1 e2
      exact ⟨[], List.nil_sublist _, levelsAdded_nil _⟩
    | some t2 =>
      simp only [hr] at hok
      obtain ⟨hl2, hc2, hd2⟩ := TIFFReadDirectory_eq_some t t2 k hloc hr
      obtain ⟨ds0, b1, b2⟩ := normalBody_sizes t2 h count
      obtain ⟨ds1, i1, i2⟩ := ih _ _ _ _ _ (k + 1) hl2 hok
      rw [hc2] at i1
      refine ⟨ds0 ++ ds1, ?_, levelsAdded_trans _ _ _ _ _ b2 i2⟩
      obtain ⟨hlt, hget⟩ := List.getElem?_eq_some_iff.1 hd2
      rw [List.drop_eq_getElem_cons hlt, hget]
      exact List.Sublist.append b1 i1

theorem vecResize_one_sublist (v : List Nat) (hv : 0 < v.length) : (vecResize v 1).Sublist v := by
  unfold vecResize
  cases v with
  | nil => simp at hv
  | cons a l => simp

theorem stackCheck_sizes (t t1 : TIFF) (h h1 : TPTImage) (hok : stackCheck t h = .ok (t1, h1)) :
    h1.image_widths.Sublist h.image_widths ∧ h1.image_heights.Sublist h.image_heights := by
  unfold stackCheck at hok
  split at hok
  · rename_i hlen
    simp only [bind_eq_ok] at hok
    obtain ⟨w0, -, w1, -, hok⟩ := hok
    split at hok
    · simp only [bind_eq_ok] at hok
      obtain ⟨h0, hh0, h1', -, hok⟩ := hok
      split at hok
      · simp only [bind_eq_ok] at hok
        obtain ⟨⟨ta, hs⟩, hst, hok⟩ := hok
        obtain ⟨w1, w2, -⟩ := loadStackInfo_sizes _ _ _ _ hst
        have hlen2 : 0 < h.image_heights.length := by
          have := ((vecAt_eq_ok _ _ _).1 hh0).2
          exact (List.getElem?_eq_some_iff.1 this).1
        simp only at hok
        split at hok
        · simp only [pure, Except.pure, Except.ok.injEq, Prod.mk.injEq] at hok
          obtain ⟨e1, e2⟩ := hok
          subst e1 e2
          simp only [w1, w2]
          exact ⟨vecResize_one_sublist _ hlen, vecResize_one_sublist _ hlen2⟩
        · simp only [pure, Except.pure, Except.ok.injEq, Prod.mk.injEq] at hok
          obtain ⟨e1, e2⟩ := hok
          subst e1 e2
          rw [w1, w2]
          exact ⟨List.Sublist.refl _, List.Sublist.refl _⟩
      · simp only [pure, Except.pure, Except.ok.injEq, Prod.mk.injEq] at hok
        obtain ⟨e1, e2⟩ := hok
        subst e1 e2
        exact ⟨List.Sublist.refl _, List.Sublist.refl _⟩
    · simp only [pure, Except.pure, Except.ok.injEq, Prod.mk.injEq] at hok
      obtain ⟨e1, e2⟩ := hok
      subst e1 e2
      exact ⟨List.Sublist.refl _, List.Sublist.refl _⟩
  · simp only [pure, Except.pure, Except.ok.injEq, Prod.mk.injEq] at hok
    obtain ⟨e1, e2⟩ := hok
    subst e1 e2
    exact ⟨List.Sublist.refl _, List.Sublist.refl _⟩

theorem normalBlock_sizes (t t1 : TIFF) (h h1 : TPTImage) (k : Nat) (hloc : t.loc = .top k)
    (hok : normalBlock t h = .ok (t1, h1)) :
    (h.pyramid ≠ .NORMAL ∧ h1 = h) ∨
      (h.pyramid = .NORMAL ∧
        h1.image_widths.Sublist
          (h.image_widths ++ (t.container.dirs.drop (k + 1)).map (fun d => d.imageWidth)) ∧
        h1.image_heights.Sublist
          (h.image_heights ++ (t.container.dirs.drop (k + 1)).map (fun d => d.imageLength))) := by
  unfold normalBlock at hok
  by_cases hp : h.pyramid = .NORMAL
  · simp only [hp, if_true] at hok
    cases hl : normalLoop (t.container.dirs.length + 1) t h 0 with
    | none => simp [hl] at hok
    | some r =>
      obtain ⟨t2, h2⟩ := r
      simp only [hl] at hok
      obtain ⟨ds, hsub, hw, hh⟩ := normalLoop_sizes _ _ _ _ _ _ k hloc hl
      obtain ⟨s1, s2⟩ := stackCheck_sizes _ _ _ _ hok
      refine Or.inr ⟨hp, ?_, ?_⟩
      · rw [hw] at s1
        exact s1.trans (List.Sublist.append (List.Sublist.refl _) (hsub.map _))
      · rw [hh] at s2
        exact s2.trans (List.Sublist.append (List.Sublist.refl _) (hsub.map _))
  · simp only [hp, if_false, Except.ok.injEq, Prod.mk.injEq] at hok
    obtain ⟨e1, e2⟩ := hok
    subst e1 e2
    exact Or.inl ⟨hp, rfl⟩

theorem loadSubIFDs_drop (t : TIFF) (h : TPTImage) :
    (loadSubIFDs t h).subifds.drop 1 = t.cur.subIFD.getD [] := by
  unfold loadSubIFDs
  split
  · rename_i o os heq
    rw [heq]; rfl
  · rename_i hne
    cases hs : t.cur.subIFD with
    | none => rfl
    | some l =>
      cases l with
      | nil => rfl
      | cons o os => exact absurd hs (hne o os)

/-- The level sizes a build on a just-opened container records: the sizes of the first
directory followed by those of a selection, in order, of its nested directories or
of the directories that follow it in the main chain. -/
theorem loadImageInfo_sizes (u : Uninit) (c : Container) (t0 : TIFF) (h h1 : TPTImage)
    (seq ang : Int) (hopen : TIFFOpen c = some t0) (ht : h.tiff = some t0)
    (hok : loadImageInfo u h seq ang = .ok h1) :
    ∃ d0 ds, c.dirs = d0 :: c.dirs.drop 1 ∧
      (ds.Sublist (c.dirs.drop 1) ∨
        ds.Sublist ((d0.subIFD.getD []).filterMap c.subdirs.lookup)) ∧
      h1.image_widths.Sublist ((d0 :: ds).map (fun d => d.imageWidth)) ∧
      h1.image_heights.Sublist ((d0 :: ds).map (fun d => d.imageLength)) := by
  obtain ⟨t0', t1, s, n, t4, ht', hseek, hs, hn, -, hh1⟩ := loadImageInfo_inv u h h1 seq ang hok
  rw [ht] at ht'
  injection ht' with ht'
  subst ht'
  obtain ⟨d0', rest', hd', hopen'⟩ := TIFFOpen_eq_some c t0 hopen
  cases hd : c.dirs with
  | nil => rw [hd] at hd'; cases hd'
  | cons d0 rest =>
    have e0 : t0.container = c ∧ t0.loc = .top 0 ∧ t0.cur = d0 := by
      rw [hd] at hd'
      injection hd' with a b
      rw [hopen', a]; exact ⟨rfl, rfl, rfl⟩
    have e1 : t1.container = c ∧ t1.loc = .top 0 ∧ t1.cur = d0 := by
      rcases hseek with ⟨e, -⟩ | hset
      · rw [e]; exact e0
      · obtain ⟨-, a, -, b, d⟩ := TIFFSetDirectory_eq_some _ _ _ hset
        simp only [Int.toNat_zero] at a d
        rw [e0.1, hd] at d
        simp only [List.getElem?_cons_zero, Option.some.injEq] at d
        exact ⟨b.trans e0.1, a, d.symm⟩
    obtain ⟨sa, sb⟩ := s
    obtain ⟨na, nb⟩ := n
    simp only at hs hn hh1
    obtain ⟨ds, b1, b2, b3, b4, b5⟩ := subIFDBlock_sizes _ _ _ _ _ _ hs
    have hsc := (subIFDBlock_shape _ _ _ _ _ _ hs).1
    have hstart : (catalogStart u t0 t1 h seq ang).image_widths = [d0.imageWidth] ∧
        (catalogStart u t0 t1 h seq ang).image_heights = [d0.imageLength] ∧
        (catalogStart u t0 t1 h seq ang).subifds.drop 1 = d0.subIFD.getD [] := by
      refine ⟨?_, ?_, ?_⟩
      · unfold catalogStart loadSubIFDs
        split <;> simp [e0.2.2]
      · unfold catalogStart loadSubIFDs
        split <;> simp [e0.2.2]
      · show (loadSubIFDs t1 _).subifds.drop 1 = _
        rw [loadSubIFDs_drop, e1.2.2]
    rw [hstart.2.2, e1.1] at b1
    have hsloc : sa.loc = .top 0 := by
      rcases b5 with e | e
      · rw [e]; exact e1.2.1
      · exact e
    obtain ⟨cs, ch, hcol⟩ := catalogColour_snd t0.cur.photometric t4
      { nb with numResolutions := nb.image_widths.length }
    have hw1 : h1.image_widths = nb.image_widths := by rw [hh1, hcol]; rfl
    have hh1' : h1.image_heights = nb.image_heights := by rw [hh1, hcol]; rfl
    rw [hw1, hh1']
    refine ⟨d0, ?_⟩
    rcases normalBlock_sizes _ _ _ _ 0 hsloc hn with ⟨-, e⟩ | ⟨hp, w, hh⟩
    · subst e
      refine ⟨ds, by simp, Or.inr b1, ?_, ?_⟩
      · rw [b2.1, hstart.1]; exact List.Sublist.refl _
      · rw [b2.2, hstart.2.1]; exact List.Sublist.refl _
    · have hds : ds = [] := by
        rcases b3 with e | e
        · exact e
        · exact absurd hp e
      subst hds
      rw [b2.1, hstart.1, hsc, e1.1, hd] at w
      rw [b2.2, hstart.2.1, hsc, e1.1, hd] at hh
      refine ⟨rest, by simp, Or.inl (by simp), ?_, ?_⟩
      · simpa using w
      · simpa using hh
/-! ## Lemmas on the sample range -/

theorem toFloat32_defaultMax_zero (bpc : Nat) (st : SampleType) :
    toFloat32 (defaultMax bpc st 0) =
      some (if bpc ≤ 8 then 255
        else if bpc = 12 then 4095
        else if bpc = 16 then 65535
        else if bpc = 32 ∧ st = .FIXEDPOINT then 4294967296
        else if bpc = 32 ∧ st = .FLOATINGPOINT then 1
        else 0) := by
  unfold defaultMax
  simp only [if_true]
  split_ifs <;> rfl

theorem rangeBody_eq_ok (bpc : Nat) (st : SampleType) (smin smax : List ℚ)
    (acc r : List ℚ × List ℚ) (i : Nat) :
    rangeBody bpc st smin smax acc i = .ok r ↔
      ∃ mx mn fmin fmax, smax[i]? = some mx ∧ smin[i]? = some mn ∧
        toFloat32 mn = some fmin ∧ toFloat32 (defaultMax bpc st mx) = some fmax ∧
        r = (acc.1 ++ [fmin], acc.2 ++ [fmax]) := by
  unfold rangeBody
  simp only [bind_eq_ok, orThrow_eq_ok, vecAt_eq_ok, pure, Except.pure, Except.ok.injEq,
    Int.toNat_ofNat, Int.natCast_nonneg, true_and]
  constructor
  · rintro ⟨mx, hmx, mn, hmn, fmin, hfmin, fmax, hfmax, hr⟩
    exact ⟨mx, mn, fmin, fmax, hmx, hmn, hfmin, hfmax, hr.symm⟩
  · rintro ⟨mx, mn, fmin, fmax, hmx, hmn, hfmin, hfmax, hr⟩
    exact ⟨mx, hmx, mn, hmn, fmin, hfmin, fmax, hfmax, hr.symm⟩

/-- What the loop over the channels appends: one entry per channel to each vector, the
entry of `max` being the conversion of the defaulted `smaxvalue` entry. -/
theorem rangeLoop_spec (bpc : Nat) (st : SampleType) (smin smax : List ℚ) (n : Nat) :
    ∀ (i : Nat) (acc r : List ℚ × List ℚ), rangeLoop bpc st smin smax n i acc = .ok r →
      ∃ e1 e2, r = (acc.1 ++ e1, acc.2 ++ e2) ∧ e1.length = n ∧ e2.length = n ∧
        ∀ j, j < n → ∃ mx, smax[i + j]? = some mx ∧
          e2[j]? = toFloat32 (defaultMax bpc st mx) := by
  induction n with
  | zero =>
    intro i acc r hok
    simp only [rangeLoop, Except.ok.injEq] at hok
    subst hok
    exact ⟨[], [], by simp, rfl, rfl, fun j hj => absurd hj (Nat.not_lt_zero j)⟩
  | succ n ih =>
    intro i acc r hok
    unfold rangeLoop at hok
    cases hb : rangeBody bpc st smin smax acc i with
    | error e => simp [hb] at hok
    | ok acc1 =>
      simp only [hb] at hok
      obtain ⟨mx, mn, fmin, fmax, hmx, -, -, hfmax, hacc⟩ := (rangeBody_eq_ok _ _ _ _ _ _ _).1 hb
      obtain ⟨e1, e2, hr, hl1, hl2, hent⟩ := ih (i + 1) acc1 r hok
      subst hacc
      refine ⟨fmin :: e1, fmax :: e2, ?_, by simp [hl1], by simp [hl2], ?_⟩
      · rw [hr]; simp
      · intro j hj
        cases j with
        | zero => exact ⟨mx, hmx, by simp [hfmax]⟩
        | succ j =>
          obtain ⟨mx', h1, h2⟩ := hent j (by omega)
          refine ⟨mx', ?_, ?_⟩
          · rw [← h1]; congr 1; omega
          · simpa using h2

/-- The loop over the channels completes on arrays that hold zeros. -/
theorem rangeLoop_zeros (bpc : Nat) (st : SampleType) (c n : Nat) :
    ∀ (i : Nat) (acc : List ℚ × List ℚ), i + n ≤ c →
      ∃ r, rangeLoop bpc st (List.replicate c 0) (List.replicate c 0) n i acc = .ok r := by
  induction n with
  | zero => intro i acc _; exact ⟨acc, rfl⟩
  | succ n ih =>
    intro i acc hle
    unfold rangeLoop
    have hz : (List.replicate c (0 : ℚ))[i]? = some 0 := by
      rw [List.getElem?_replicate]; simp; omega
    have hb : rangeBody bpc st (List.replicate c 0) (List.replicate c 0) acc i =
        .ok (acc.1 ++ [0], acc.2 ++ [(if bpc ≤ 8 then 255
          else if bpc = 12 then 4095
          else if bpc = 16 then 65535
          else if bpc = 32 ∧ st = .FIXEDPOINT then 4294967296
          else if bpc = 32 ∧ st = .FLOATINGPOINT then 1
          else 0 : ℚ)]) :=
      (rangeBody_eq_ok _ _ _ _ _ _ _).2
        ⟨0, 0, 0, _, hz, hz, rfl, toFloat32_defaultMax_zero bpc st, rfl⟩
    rw [hb]
    exact ih (i + 1) _ (by omega)

theorem sampleArrays_max_absent (perSample : Bool) (t : TIFF) (c : Nat)
    (hmax : t.cur.sMaxSampleValue = none) :
    (sampleArrays perSample t c).2 = List.replicate c 0 := by
  unfold sampleArrays
  cases perSample <;> simp [hmax]

theorem sampleArrays_min_absent (perSample : Bool) (t : TIFF) (c : Nat)
    (hmin : t.cur.sMinSampleValue = none) :
    (sampleArrays perSample t c).1 = List.replicate c 0 := by
  unfold sampleArrays
  cases perSample <;> simp [hmin]

theorem catalogRange_eq_ok (perSample : Bool) (u : Uninit) (h h1 : TPTImage) (seq ang : Int)
    (t : TIFF) (hbuild : loadImageInfo u h seq ang = .ok h1) (ht : h1.tiff = some t)
    (mins maxs : List ℚ) :
    catalogRange perSample u h seq ang = .ok (h1, mins, maxs) ↔
      sampleRange perSample t h1 = .ok (mins, maxs) := by
  unfold catalogRange
  simp only [hbuild, bind, Except.bind, ht]
  cases hs : sampleRange perSample t h1 with
  | error e => simp [pure, Except.pure]
  | ok r =>
    obtain ⟨a, b⟩ := r
    simp [pure, Except.pure]

/-! ## Theorems -/

/-- C1 (the code departs from the claim): on the three-level pyramid `pyr3` the catalog
has `numResolutions = 3`; a request for `res = 3` passes the range test of line 354,
which only rejects `res > numResolutions`, the native index becomes `-1`, and the
call runs into the vector lookups with that index instead of failing with the
non-existent-resolution error. Only from `res = 4` on is that error raised. -/
theorem getTile_res_eq_numResolutions_passes_range_check :
    openImage pyr3Files u0 closedHandle = .ok pyr3Handle ∧ pyr3Handle.numResolutions = 3 ∧
      vipsresOf 3 3 = -1 ∧
      getTile pyr3Files u0 pyr3Handle 0 0 3 0 0 = .error .undefinedBehaviour ∧
      getTile pyr3Files u0 pyr3Handle 0 0 4 0 0 = .error (.nonExistentResolution 4) :=
  ⟨rfl, rfl, by decide, rfl, rfl⟩

/-- C2 (the code departs from the claim): in `gap4` the catalog records the directories
`[0, 2, 3]`. Asked for `res = 0` right after opening, `getTile` serves directory 3,
the one recorded for native level 2. Asked for `res = 0` after a call for `res = 1`
has left the cursor on directory 2, the test `vipsres != cd` of line 415 compares the
native level 2 with the directory number 2, no seek is made, and the tile is served
from directory 2 (the 500x400 level). In general the classic branch makes no seek
whenever the native level equals the directory number the codec reports, whatever
`resolution_ids` records for that level. -/
theorem getTile_normal_depends_on_cursor :
    openImage gap4Files u0 closedHandle = .ok gap4Handle ∧ gap4Handle.pyramid = .NORMAL ∧
      gap4Handle.numResolutions = 3 ∧ gap4Handle.resolution_ids = [0, 2, 3] ∧
      ∃ r1 r2 r3,
        getTile gap4Files u0 gap4Handle 0 0 0 0 0 = .ok r3 ∧ cursor r3.image = some (.top 3) ∧
        getTile gap4Files u0 gap4Handle 0 0 1 0 0 = .ok r1 ∧ cursor r1.image = some (.top 2) ∧
        r1.image.resolution_ids = [0, 2, 3] ∧ r1.image.numResolutions = 3 ∧
        getTile gap4Files u0 r1.image 0 0 0 0 0 = .ok r2 ∧ cursor r2.image = some (.top 2) ∧
        (served r2.image).map (fun d => (d.imageWidth, d.imageLength)) = some (500, 400) ∧
        ∀ (t : TIFF) (h : TPTImage), seekNormal t h (TIFFCurrentDirectory t : Int) = .ok t :=
  ⟨rfl, rfl, rfl, rfl, _, _, _, rfl, rfl, rfl, rfl, rfl, rfl, rfl, rfl, rfl,
    fun t h => by simp [seekNormal]⟩

/-- C3 (the code departs from the claim): a handle opened on `pyr3` for `(0, 0)` and then
asked for a tile of `(1, 0)` reloads the catalog; the four size lists are cleared
first (lines 137-140) but `resolution_ids` is not, so it ends as `[0, 1, 2, 0, 1, 2]`,
where a handle opened directly for `(1, 0)` on the same container has `[0, 1, 2]`.
In general every build restarts `image_widths` from the current directory and appends
to the `resolution_ids` it finds. -/
theorem getTile_reload_keeps_old_resolution_ids :
    openImage pyr3Files u0 closedHandle = .ok pyr3Handle ∧ pyr3Handle.stack = [] ∧
      pyr3Handle.currentX = 0 ∧ pyr3Handle.resolution_ids = [0, 1, 2] ∧
      ∃ r f,
        getTile pyr3Files u0 pyr3Handle 1 0 0 0 0 = .ok r ∧ r.image.currentX = 1 ∧
        r.image.resolution_ids = [0, 1, 2, 0, 1, 2] ∧
        openImage pyr3Files u0 { closedHandle with currentX := 1 } = .ok f ∧
        f.resolution_ids = [0, 1, 2] ∧
        r.image.image_widths = f.image_widths ∧ r.image.numResolutions = f.numResolutions ∧
        ∀ (u : Uninit) (t0 t1 : TIFF) (h : TPTImage) (seq ang : Int),
          (catalogStart u t0 t1 h seq ang).image_widths = [t0.cur.imageWidth] ∧
          (catalogStart u t0 t1 h seq ang).resolution_ids = h.resolution_ids ++ [0] :=
  ⟨rfl, rfl, rfl, rfl, _, _, rfl, rfl, rfl, rfl, rfl, rfl, rfl,
    fun u t0 t1 h seq ang => by
      unfold catalogStart loadSubIFDs
      split <;> exact ⟨rfl, rfl⟩⟩

/-- C4: for every successful `getTile` call with `res < numResolutions` (the level count
as it stands at line 385, being one an `int` can hold), the native index is
`k = numResolutions - 1 - res`; it
lies in `[0, numResolutions)` and applying the mapping to `k` gives `res` back. The
nominal tile size comes from entry `k` of the catalog's tile size lists and is the
size the tile is constructed with before the crop test. Directory selection uses `k`
too: in the classic scheme the cursor either already reported directory number `k` or
was moved to `resolution_ids[k]`; in the SubIFD scheme a non-zero `subifds[k]` is the
nested directory the cursor ends on. For three levels, `res = 0` maps to native index
2 and `res = 2` to native index 0. -/
theorem getTile_uses_native_index (files : Int → Int → Option Container) (u : Uninit)
    (h : TPTImage) (x y : Int) (res : Nat) (l : Int) (tile : Nat) (r : TileResult)
    (hok : getTile files u h x y res l tile = .ok r)
    (hN : r.image.numResolutions < 2 ^ 31) (hres : res < r.image.numResolutions) :
    r.vipsres = ((r.image.numResolutions - 1 - res : Nat) : Int) ∧
    r.image.numResolutions - 1 - res < r.image.numResolutions ∧
    vipsresOf r.image.numResolutions (r.image.numResolutions - 1 - res) = (res : Int) ∧
    (∃ tw th raw,
      r.image.tile_widths[r.image.numResolutions - 1 - res]? = some tw ∧
      r.image.tile_heights[r.image.numResolutions - 1 - res]? = some th ∧
      raw.width = tw ∧ raw.height = th ∧
      r.cropped = decide (r.tw ≠ tw ∨ r.th ≠ th) ∧
      r.rawtile = if r.cropped then raw.crop r.tw r.th else raw) ∧
    (r.image.pyramid = .NORMAL → ∃ t, r.image.tiff = some t ∧
      (t.curdir = r.image.numResolutions - 1 - res ∨
        ∃ id, r.image.resolution_ids[r.image.numResolutions - 1 - res]? = some id ∧
          t.loc = .top id)) ∧
    (r.image.pyramid = .SUBIFD → ∀ off,
      r.image.subifds[r.image.numResolutions - 1 - res]? = some off → 0 < off →
        cursor r.image = some (.sub off)) ∧
    vipsresOf 3 0 = 2 ∧ vipsresOf 3 2 = 0 := by
  obtain ⟨h1, t1, t2, h2, -, -, -, hsel, hserve⟩ := getTile_inv files u h x y res l tile r hok
  obtain ⟨⟨s, si, hh2⟩, hnorm, hsub⟩ := selectDirectory_eq_ok t1 t2 h1 h2 x _ hsel
  obtain ⟨cs, ch, j, himg⟩ := serveTile_image t2 h2 x y res tile _ r hserve
  obtain ⟨tw0, th0, raw, -, hnom, -, hdec, -, hv, hcrop, hraw⟩ :=
    serveTile_inv t2 h2 x y res tile _ r hserve
  obtain ⟨hw, hh, -, -⟩ := nominalTile_eq_ok _ _ _ _ hnom
  obtain ⟨hrw, hrh, -⟩ := decodeTile_eq_ok _ _ _ _ _ _ _ _ _ _ _ hdec
  subst hh2
  obtain ⟨image, rawtile, vr, tw, th, cropped⟩ := r
  simp only at himg hv hcrop hraw hN hres ⊢
  subst himg
  simp only at hN hres ⊢
  have hk : vipsresOf h1.numResolutions res = ((h1.numResolutions - 1 - res : Nat) : Int) := by
    rw [vipsresOf_eq _ _ hN hres]; omega
  rw [hk] at hv hw hh hnorm hsub
  have hw2 := ((vecAt_eq_ok _ _ _).1 hw).2
  have hh2b := ((vecAt_eq_ok _ _ _).1 hh).2
  simp only [Int.toNat_ofNat] at hw2 hh2b
  refine ⟨hv, by omega, ?_, ⟨tw0, th0, raw, hw2, hh2b, hrw, hrh, hcrop, hraw⟩, ?_, ?_,
    by decide, by decide⟩
  · rw [vipsresOf_eq _ _ hN (by omega)]; omega
  · intro hp
    refine ⟨_, rfl, ?_⟩
    rcases hnorm hp with ⟨ht, hcd⟩ | ⟨id, hid, hloc⟩
    · left
      subst ht
      show t2.curdir = _
      omega
    · right
      refine ⟨id, ?_, hloc⟩
      have := ((vecAt_eq_ok _ _ _).1 hid).2
      simp only [Int.toNat_ofNat] at this
      exact this
  · intro hp off hoff hpos
    have hoff2 : vecAt s ((h1.numResolutions - 1 - res : Nat) : Int) = .ok off := by
      rw [vecAt_eq_ok]
      refine ⟨by omega, ?_⟩
      simp only [Int.toNat_ofNat]
      exact hoff
    have := hsub hp off hoff2 hpos
    simp only [cursor, Option.map_some']
    rw [this]

/-- Witness for C4: the theorem applied to the tile requests `res = 0` and `res = 2` on the three-level pyramid
`pyr3`. -/
theorem getTile_uses_native_index_witness :
    ∃ r0 r2, getTile pyr3Files u0 pyr3Handle 0 0 0 0 0 = .ok r0 ∧
      getTile pyr3Files u0 pyr3Handle 0 0 2 0 0 = .ok r2 ∧
      r0.image.numResolutions = 3 ∧ r2.image.numResolutions = 3 ∧
      (served r0.image).map (fun d => (d.imageWidth, d.imageLength)) = some (250, 200) ∧
      (served r2.image).map (fun d => (d.imageWidth, d.imageLength)) = some (1000, 800) ∧
      r0.vipsres = ((r0.image.numResolutions - 1 - 0 : Nat) : Int) ∧
      r2.vipsres = ((r2.image.numResolutions - 1 - 2 : Nat) : Int) := by
  refine ⟨_, _, rfl, rfl, rfl, rfl, rfl, rfl, ?_, ?_⟩
  · exact (getTile_uses_native_index pyr3Files u0 pyr3Handle 0 0 0 0 0 _ rfl (by decide)
      (by decide)).1
  · exact (getTile_uses_native_index pyr3Files u0 pyr3Handle 0 0 2 0 0 _ rfl (by decide)
      (by decide)).1

/-- C5: for every successful `getTile` call, with `W x H` the image size of the
directory served (32-bit tag values), `tw x th` the nominal tile size of the level,
`tilesAcross = ceil(W / tw)` and `tilesDown = ceil(H / th)`: the width passed to the
crop test is `W mod tw` when `tile mod tilesAcross = tilesAcross - 1` and
`W mod tw != 0`, and `tw` otherwise; the height is `H mod th` when
`tile / tilesAcross = tilesDown - 1` and `H mod th != 0`, and `th` otherwise;
`crop` is invoked exactly when one of the two differs from the nominal size, and the
tile returned has that width and height. For `W = 1000`, `tw = 256` there are 4 tiles
across, column 3 has width 232 and columns 0 to 2 have width 256. -/
theorem getTile_crop_size (files : Int → Int → Option Container) (u : Uninit) (h : TPTImage)
    (x y : Int) (res : Nat) (l : Int) (tile : Nat) (r : TileResult) (d : Directory)
    (hok : getTile files u h x y res l tile = .ok r) (hd : served r.image = some d)
    (hW : d.imageWidth < 2 ^ 32) (hH : d.imageLength < 2 ^ 32) :
    (∃ tw th raw, r.image.tile_widths[r.vipsres.toNat]? = some tw ∧
      r.image.tile_heights[r.vipsres.toNat]? = some th ∧ 0 < tw ∧ 0 < th ∧
      r.tw = (if tile % ⌈(d.imageWidth : ℚ) / tw⌉₊ = ⌈(d.imageWidth : ℚ) / tw⌉₊ - 1 ∧
                d.imageWidth % tw ≠ 0 then d.imageWidth % tw else tw) ∧
      r.th = (if tile / ⌈(d.imageWidth : ℚ) / tw⌉₊ = ⌈(d.imageLength : ℚ) / th⌉₊ - 1 ∧
                d.imageLength % th ≠ 0 then d.imageLength % th else th) ∧
      (r.cropped = true ↔ r.tw ≠ tw ∨ r.th ≠ th) ∧
      r.rawtile = (if r.cropped then raw.crop r.tw r.th else raw) ∧
      r.rawtile.width = r.tw ∧ r.rawtile.height = r.th) ∧
    ⌈(1000 : ℚ) / 256⌉₊ = 4 ∧
    ∀ row c, c < 4 →
      tileExtent 1000 800 256 256 (4 * row + c) =
        .ok (if c = 3 then 232 else 256, if row = 3 then 32 else 256) := by
  obtain ⟨h1, t1, t2, h2, -, -, -, hsel, hserve⟩ := getTile_inv files u h x y res l tile r hok
  obtain ⟨cs, ch, j, himg⟩ := serveTile_image t2 h2 x y res tile _ r hserve
  obtain ⟨tw0, th0, raw, -, hnom, hext, hdec, -, hv, hcrop, hraw⟩ :=
    serveTile_inv t2 h2 x y res tile _ r hserve
  obtain ⟨hw, hh, -, -⟩ := nominalTile_eq_ok _ _ _ _ hnom
  obtain ⟨hrw, hrh, -⟩ := decodeTile_eq_ok _ _ _ _ _ _ _ _ _ _ _ hdec
  obtain ⟨image, rawtile, vr, tw, th, cropped⟩ := r
  simp only at himg hv hcrop hraw hd hext ⊢
  subst himg hv
  simp only [served, Option.map_some', Option.some.injEq] at hd
  subst hd
  simp only at hW hH ⊢
  obtain ⟨htw, hth, -, ha, hb⟩ := tileExtent_eq_ok _ _ _ _ _ _ _ hW hH hext
  have hw2 := ((vecAt_eq_ok _ _ _).1 hw).2
  have hh2 := ((vecAt_eq_ok _ _ _).1 hh).2
  refine ⟨⟨tw0, th0, raw, hw2, hh2, htw, hth, ha, hb, ?_, hraw, ?_, ?_⟩, ?_, ?_⟩
  · rw [hcrop]; simp
  · rw [hraw]
    by_cases hc : cropped = true
    · simp [hc, RawTile.crop]
    · simp only [hc, if_false, Bool.false_eq_true]
      rw [hcrop] at hc
      simp only [decide_eq_true_eq, not_or, not_not] at hc
      rw [hrw, hc.1]
  · rw [hraw]
    by_cases hc : cropped = true
    · simp [hc, RawTile.crop]
    · simp only [hc, if_false, Bool.false_eq_true]
      rw [hcrop] at hc
      simp only [decide_eq_true_eq, not_or, not_not] at hc
      rw [hrh, hc.2]
  · have hc := ceil_div_eq 1000 256 (by norm_num)
    simpa using hc
  · intro row c hc
    unfold tileExtent usub32
    norm_num
    have h1 : (4 * row + c) % 4 = c := by omega
    have h2 : (4 * row + c) / 4 = row := by omega
    rw [h1, h2]
    constructor
    · split_ifs <;> omega
    · split_ifs <;> omega

/-- Witness for C5: the theorem applied to tile 3, the last tile of the first row, of the 1000x800 level of `pyr3`,
which is cropped to width 232. -/
theorem getTile_crop_size_witness :
    ∃ r d, getTile pyr3Files u0 pyr3Handle 0 0 2 0 3 = .ok r ∧ served r.image = some d ∧
      d.imageWidth = 1000 ∧ d.imageLength = 800 ∧ r.tw = 232 ∧ r.th = 256 ∧ r.cropped = true ∧
      ∃ tw th raw, r.image.tile_widths[r.vipsres.toNat]? = some tw ∧
        r.image.tile_heights[r.vipsres.toNat]? = some th ∧ 0 < tw ∧ 0 < th ∧
        r.tw = (if 3 % ⌈(d.imageWidth : ℚ) / tw⌉₊ = ⌈(d.imageWidth : ℚ) / tw⌉₊ - 1 ∧
                  d.imageWidth % tw ≠ 0 then d.imageWidth % tw else tw) ∧
        r.th = (if 3 / ⌈(d.imageWidth : ℚ) / tw⌉₊ = ⌈(d.imageLength : ℚ) / th⌉₊ - 1 ∧
                  d.imageLength % th ≠ 0 then d.imageLength % th else th) ∧
        (r.cropped = true ↔ r.tw ≠ tw ∨ r.th ≠ th) ∧
        r.rawtile = (if r.cropped then raw.crop r.tw r.th else raw) ∧
        r.rawtile.width = r.tw ∧ r.rawtile.height = r.th := by
  refine ⟨_, _, rfl, rfl, rfl, rfl, rfl, rfl, rfl, ?_⟩
  exact (getTile_crop_size pyr3Files u0 pyr3Handle 0 0 2 0 3 _ _ rfl rfl (by decide)
    (by decide)).1

/-- C6: the 1 bit expansion, run on a tile of `np` pixels, `np` a multiple of 8 (so that
every write stays inside the buffer of `np` samples), whose buffer holds the
`(np + 7) / 8` source bytes it reads, succeeds, reports a bit depth of 8 and fills the
`np` samples; for every source byte index `i` below that count and every `j` in
`0..7`, output sample `8 * i + j` is set by bit `7 - j` of source byte `i` (most
significant bit first): a set bit gives 0 and a clear bit 255 when the colour model
tag is 0 (min-is-white), a set bit gives 255 and a clear bit 0 for every other tag,
min-is-black among them. The byte `0b10110000` with min-is-black unpacks to
`[255, 0, 255, 255, 0, 0, 0, 0]`. -/
theorem expandBilevel_msb_first (raw : RawTile) (np colour : Nat)
    (hlen : (np + 7) / 8 ≤ raw.data.length) (hnp : np % 8 = 0) :
    (∃ r, expandBilevel raw np colour = .ok r ∧ r.bpc = 8 ∧ r.data.length = np ∧
      r.dataLength = np ∧ r.capacity = np ∧
      ∀ i j t, i < (np + 7) / 8 → j < 8 → raw.data[i]? = some t →
        8 * i + j < np ∧
        r.data[8 * i + j]? =
          some (if colour = PHOTOMETRIC_MINISWHITE then (if t.testBit (7 - j) then 0 else 255)
                else (if t.testBit (7 - j) then 255 else 0))) ∧
    unpackByte 0b10110000 255 0 8 = [255, 0, 255, 255, 0, 0, 0, 0] ∧
    (expandBilevel bilevelRaw 8 PHOTOMETRIC_MINISBLACK).map (fun r => (r.data, r.bpc)) =
      .ok ([255, 0, 255, 255, 0, 0, 0, 0], 8) := by
  refine ⟨?_, rfl, rfl⟩
  obtain ⟨out, hout, hl, -, hbits⟩ :=
    unpackLoop_spec raw.data (if colour = 0 then 0 else 255) (if colour = 0 then 255 else 0)
      ((np + 7) / 8) 0 [] (by omega)
  have hl2 : out.length = np := by
    rw [hl]
    simp only [List.length_nil, Nat.zero_add]
    omega
  refine ⟨{ raw with data := out, capacity := np, dataLength := out.length, bpc := 8 }, ?_, rfl,
    hl2, hl2, rfl, ?_⟩
  · unfold expandBilevel
    simp only [hout, hl2, Nat.lt_irrefl, if_false]
  · intro i j t hi hj ht
    have := hbits i j t hi hj (by rw [Nat.zero_add]; exact ht)
    simp only [List.length_nil, Nat.zero_add] at this
    refine ⟨by omega, ?_⟩
    show out[8 * i + j]? = _
    rw [this]
    unfold PHOTOMETRIC_MINISWHITE
    by_cases hc : colour = 0 <;> simp [hc]

/-- Witness for C6: the theorem on a tile of 8 pixels holding the byte `0b10110000`, and
the tile `getTile` returns for the bilevel pyramid `bilevel2`, whose first data byte
is that byte. -/
theorem expandBilevel_msb_first_witness :
    (∃ r, expandBilevel bilevelRaw 8 PHOTOMETRIC_MINISBLACK = .ok r ∧ r.bpc = 8 ∧
      r.data.length = 8 ∧ r.dataLength = 8 ∧ r.capacity = 8 ∧
      ∀ i j t, i < (8 + 7) / 8 → j < 8 → bilevelRaw.data[i]? = some t →
        8 * i + j < 8 ∧
        r.data[8 * i + j]? =
          some (if PHOTOMETRIC_MINISBLACK = PHOTOMETRIC_MINISWHITE then
                  (if t.testBit (7 - j) then 0 else 255)
                else (if t.testBit (7 - j) then 255 else 0))) ∧
    ∃ r, getTile bilevel2Files u0 bilevel2Handle 0 0 0 0 0 = .ok r ∧ r.rawtile.bpc = 8 ∧
      r.rawtile.data.take 8 = [255, 0, 255, 255, 0, 0, 0, 0] ∧ r.rawtile.data.length = 64 :=
  ⟨(expandBilevel_msb_first bilevelRaw 8 PHOTOMETRIC_MINISBLACK (by decide) (by decide)).1,
    _, rfl, rfl, rfl, rfl⟩

/-- C7: a handle in the classic scheme that holds a just-opened container whose first
directory lists no nested directories, whose first two top-level directories report
the same image width and height and are both tagged as stack members (sub-file type
2), and whose second directory is tiled: the catalog build succeeds with
`numResolutions = 1`, the four per-level size lists of length 1, and at least two
stack layers. -/
theorem loadImageInfo_stack_collapses (u : Uninit) (h : TPTImage) (seq ang : Int) (c : Container)
    (t : TIFF) (d0 d1 : Directory) (rest : List Directory) (tw th : Nat)
    (hfresh : h.pyramid = .NORMAL) (ht : h.tiff = some t) (hopen : TIFFOpen c = some t)
    (hdirs : c.dirs = d0 :: d1 :: rest) (hnosub : d0.subIFD = none)
    (htw : d1.tileWidth = some tw) (hth : d1.tileLength = some th)
    (hw : d0.imageWidth = d1.imageWidth) (hh : d0.imageLength = d1.imageLength)
    (hs0 : d0.subfileType = some FILETYPE_PAGE) (hs1 : d1.subfileType = some FILETYPE_PAGE) :
    ∃ h1, loadImageInfo u h seq ang = .ok h1 ∧ h1.numResolutions = 1 ∧
      h1.image_widths.length = 1 ∧ h1.image_heights.length = 1 ∧
      h1.tile_widths.length = 1 ∧ h1.tile_heights.length = 1 ∧ 2 ≤ h1.stack.length := by
  have ht0 : t = { container := c, loc := .top 0, cur := d0, curdir := 0, jpegColorMode := none } := by
    obtain ⟨d, r, hd, e⟩ := TIFFOpen_eq_some c t hopen
    rw [hdirs] at hd
    injection hd with a b
    rw [e, a]
  subst ht0
  have hstart : (catalogStart u
      { container := c, loc := .top 0, cur := d0, curdir := 0, jpegColorMode := none }
      { container := c, loc := .top 0, cur := d0, curdir := 0, jpegColorMode := none }
      h seq ang).subifds = [] := by
    simp [catalogStart, loadSubIFDs, hnosub]
  obtain ⟨t1, h1, hnb, hc1, l1, l2, l3, l4, l5⟩ :=
    normalBlock_stack
      { container := c, loc := .top 0, cur := d0, curdir := 0, jpegColorMode := none }
      (catalogStart u
        { container := c, loc := .top 0, cur := d0, curdir := 0, jpegColorMode := none }
        { container := c, loc := .top 0, cur := d0, curdir := 0, jpegColorMode := none }
        h seq ang) d0 d1 rest tw th
      (by simp [catalogStart, loadSubIFDs, hnosub, hfresh]) rfl hdirs
      (by simp [catalogStart, loadSubIFDs, hnosub]) (by simp [catalogStart, loadSubIFDs, hnosub])
      htw hth hw hh hs0 hs1
  have hset : TIFFSetDirectory t1 (0 : Nat) = some { t1 with loc := .top 0, cur := d0, curdir := 0 } := by
    have : t1.container.dirs = d0 :: d1 :: rest := by rw [hc1]; exact hdirs
    simp [TIFFSetDirectory, this]
  obtain ⟨cs, ch, hcol⟩ := catalogColour_snd d0.photometric
    { t1 with loc := .top 0, cur := d0, curdir := 0 }
    { h1 with numResolutions := h1.image_widths.length }
  have hval : loadImageInfo u h seq ang = .ok (withTiff
      (catalogColour d0.photometric { t1 with loc := .top 0, cur := d0, curdir := 0 }
        { h1 with numResolutions := h1.image_widths.length }).2
      (catalogColour d0.photometric { t1 with loc := .top 0, cur := d0, curdir := 0 }
        { h1 with numResolutions := h1.image_widths.length }).1) := by
    unfold loadImageInfo
    rw [ht]
    simp only [TIFFCurrentDirectory, ne_eq, not_true_eq_false, if_false, pure, Except.pure,
      bind, Except.bind, subIFDBlock_nil _ _ _ _ hstart, hnb, hset, orThrow]
  refine ⟨_, hval, ?_⟩
  simp only [withTiff]
  rw [hcol]
  exact ⟨l1, l1, l2, l3, l4, l5⟩

/-- Witness for C7: the theorem on `stack2`, two 2048x2048 directories tagged as stack members, and the same
catalog as `openImage` builds it. -/
theorem loadImageInfo_stack_collapses_witness :
    TIFFOpen stack2 = some stack2Tiff ∧
    (∃ h1, loadImageInfo u0 (withTiff closedHandle stack2Tiff) 0 0 = .ok h1 ∧
      h1.numResolutions = 1 ∧ h1.image_widths.length = 1 ∧ h1.image_heights.length = 1 ∧
      h1.tile_widths.length = 1 ∧ h1.tile_heights.length = 1 ∧ 2 ≤ h1.stack.length) ∧
    ∃ h2, openImage (fun _ _ => some stack2) u0 closedHandle = .ok h2 ∧
      h2.image_widths = [2048] ∧ h2.image_heights = [2048] ∧ h2.stack.length = 2 :=
  ⟨rfl,
    loadImageInfo_stack_collapses u0 (withTiff closedHandle stack2Tiff) 0 0 stack2 stack2Tiff
      layerDir layerDir [] 256 256 rfl rfl rfl rfl rfl rfl rfl rfl rfl rfl rfl,
    _, rfl, rfl, rfl, rfl⟩

/-- C8 (the code departs from the claim): in `nested2` the nested directory at offset 100
is skipped at build because it is not tagged reduced-resolution, so native level 1
takes its sizes (500x400) from the directory at offset 200; `getTile` for that level
seeks to `subifds[1]`, which is offset 100, and serves the skipped 64x64 directory. -/
theorem getTile_subifd_seeks_skipped_directory :
    openImage nested2Files u0 closedHandle = .ok nested2Handle ∧
      nested2Handle.pyramid = .SUBIFD ∧ nested2Handle.numResolutions = 2 ∧
      nested2Handle.subifds = [0, 100, 200] ∧
      nested2Handle.image_widths = [1000, 500] ∧ nested2Handle.image_heights = [800, 400] ∧
      (nested2.subdirs.lookup 200).map (fun d => (d.imageWidth, d.imageLength)) = some (500, 400) ∧
      ∃ r, getTile nested2Files u0 nested2Handle 0 0 0 0 0 = .ok r ∧ r.vipsres = 1 ∧
        cursor r.image = some (.sub 100) ∧
        (served r.image).map (fun d => (d.imageWidth, d.imageLength)) = some (64, 64) :=
  ⟨rfl, rfl, rfl, rfl, rfl, rfl, rfl, _, rfl, rfl, rfl, rfl⟩

/-- C9: for every successful `getTile` call, the colour space assigned from the colour
model tag and bit depth of the directory served is CIELAB for CIE-Lab, binary for
min-is-black with 1 bit per sample, greyscale for min-is-black with any other bit
depth, greyscale with the channel count of the handle and of the tile returned set to
1 for palette-indexed data, and sRGB for YCbCr. -/
theorem getTile_colourspace (files : Int → Int → Option Container) (u : Uninit) (h : TPTImage)
    (x y : Int) (res : Nat) (l : Int) (tile : Nat) (r : TileResult) (d : Directory)
    (hok : getTile files u h x y res l tile = .ok r) (hd : served r.image = some d) :
    (d.photometric = PHOTOMETRIC_CIELAB → r.image.colourspace = .CIELAB) ∧
    (d.photometric = PHOTOMETRIC_MINISBLACK → d.bitsPerSample = 1 →
      r.image.colourspace = .BINARY) ∧
    (d.photometric = PHOTOMETRIC_MINISBLACK → d.bitsPerSample ≠ 1 →
      r.image.colourspace = .GREYSCALE) ∧
    (d.photometric = PHOTOMETRIC_PALETTE →
      r.image.colourspace = .GREYSCALE ∧ r.image.channels = 1 ∧ r.rawtile.channels = 1) ∧
    (d.photometric = PHOTOMETRIC_YCBCR → r.image.colourspace = .sRGB) := by
  obtain ⟨h1, t1, t2, h2, -, -, -, -, hserve⟩ := getTile_inv files u h x y res l tile r hok
  obtain ⟨j, hj⟩ := tileColour_fst t2.cur.photometric t2 (readTags t2 h2)
  obtain ⟨tw0, th0, raw, -, -, -, hdec, himg, -, -, hraw⟩ :=
    serveTile_inv t2 h2 x y res tile _ r hserve
  obtain ⟨-, -, hch⟩ := decodeTile_eq_ok _ _ _ _ _ _ _ _ _ _ _ hdec
  have hd2 : d = t2.cur := by
    rw [himg, hj] at hd
    simp only [served, withTiff, Option.map_some', Option.some.injEq] at hd
    exact hd.symm
  subst hd2
  have hcrop : r.rawtile.channels = raw.channels := by
    rw [hraw]; split <;> rfl
  rw [himg]
  refine ⟨?_, ?_, ?_, ?_, ?_⟩
  · intro hc
    simp [withTiff, tileColour, hc]
  · intro hc hb
    simp [withTiff, tileColour, hc, readTags, hb, PHOTOMETRIC_MINISBLACK, PHOTOMETRIC_CIELAB]
  · intro hc hb
    simp [withTiff, tileColour, hc, readTags, hb, PHOTOMETRIC_MINISBLACK, PHOTOMETRIC_CIELAB]
  · intro hc
    rw [hcrop, hch]
    simp [withTiff, tileColour, hc, PHOTOMETRIC_PALETTE, PHOTOMETRIC_MINISBLACK,
      PHOTOMETRIC_CIELAB]
  · intro hc
    simp [withTiff, tileColour, hc, PHOTOMETRIC_YCBCR, PHOTOMETRIC_PALETTE,
      PHOTOMETRIC_MINISBLACK, PHOTOMETRIC_CIELAB]

/-- Witness for C9: the theorem on the palette-indexed pyramid `palette2`. -/
theorem getTile_colourspace_witness :
    ∃ r d, getTile palette2Files u0 palette2Handle 0 0 1 0 0 = .ok r ∧
      served r.image = some d ∧ d.photometric = PHOTOMETRIC_PALETTE ∧
      r.image.colourspace = .GREYSCALE ∧ r.image.channels = 1 ∧ r.rawtile.channels = 1 := by
  refine ⟨_, _, rfl, rfl, rfl, ?_⟩
  exact (getTile_colourspace palette2Files u0 palette2Handle 0 0 1 0 0 _ _ rfl rfl).2.2.2.1 rfl

/-- C10 (the code departs from the claim): for the planar-separate RGB container
`planar2` the tile returned has channel count 1, but the colour space the call assigns
is sRGB: lines 513-516 change `rawtile.channels` only, although the comment above them
says the image is classified as greyscale. -/
theorem getTile_planar_separate_stays_sRGB :
    openImage planar2Files u0 closedHandle = .ok planar2Handle ∧
      ∃ r, getTile planar2Files u0 planar2Handle 0 0 1 0 0 = .ok r ∧
        (served r.image).map (fun d => (d.samplesPerPixel, d.planarConfig)) = some (3, 2) ∧
        r.rawtile.channels = 1 ∧ r.image.colourspace = .sRGB :=
  ⟨rfl, _, rfl, rfl, rfl, rfl⟩

/-- C11 (counterexample): on the pyramid `deep2` of unsigned 32 bit samples, which has
no maximum sample value tag, the build succeeds with one channel, 32 bits per
channel and fixed-point samples, and the `max` vector holds 4294967296, not
4294967295; so it does in both compilations of lines 270-292. -/
theorem catalogRange_records_two_pow_32 :
    catalogRange true u0 (withTiff closedHandle deep2Tiff) 0 0 =
        .ok (deep2Built, [0], [4294967296]) ∧
      catalogRange false u0 (withTiff closedHandle deep2Tiff) 0 0 =
        .ok (deep2Built, [0], [4294967296]) ∧
      deep2Built.channels = 1 ∧ deep2Built.bpc = 32 ∧ deep2Built.sampleType = .FIXEDPOINT ∧
      deep2Tiff.cur.sMaxSampleValue = none ∧ (4294967296 : ℚ) ≠ 4294967295 ∧
      toFloat32 4294967295 = some 4294967296 :=
  ⟨rfl, rfl, rfl, rfl, rfl, rfl, by decide, rfl⟩

/-- C11 (amended): after a catalog build, with `t` the directory the build leaves the
cursor on: whenever lines 259-312 complete, the `min` and `max` vectors each have one
entry per channel, and if the maximum sample value tag is absent every entry of `max`
is 255 for at most 8 bits per channel, 4095 for 12, 65535 for 16, 4294967296 (the
single precision value nearest to 4294967295) for 32 bit fixed-point samples, 1 for
32 bit floating-point samples and 0 otherwise; and they do complete when both tags
are absent. -/
theorem catalogRange_default_max (perSample : Bool) (u : Uninit) (h h1 : TPTImage)
    (seq ang : Int) (hbuild : loadImageInfo u h seq ang = .ok h1) :
    ∃ t, h1.tiff = some t ∧
      (∀ mins maxs, catalogRange perSample u h seq ang = .ok (h1, mins, maxs) →
        mins.length = h1.channels ∧ maxs.length = h1.channels ∧
        (t.cur.sMaxSampleValue = none → ∀ i, i < h1.channels →
          maxs[i]? = some (if h1.bpc ≤ 8 then 255
            else if h1.bpc = 12 then 4095
            else if h1.bpc = 16 then 65535
            else if h1.bpc = 32 ∧ h1.sampleType = .FIXEDPOINT then 4294967296
            else if h1.bpc = 32 ∧ h1.sampleType = .FLOATINGPOINT then 1
            else 0))) ∧
      (t.cur.sMinSampleValue = none → t.cur.sMaxSampleValue = none →
        ∃ mins maxs, catalogRange perSample u h seq ang = .ok (h1, mins, maxs)) := by
  obtain ⟨-, -, -, t, ht, -⟩ := loadImageInfo_shape u h h1 seq ang hbuild
  refine ⟨t, ht, ?_, ?_⟩
  · intro mins maxs hok
    rw [catalogRange_eq_ok perSample u h h1 seq ang t hbuild ht] at hok
    unfold sampleRange at hok
    obtain ⟨e1, e2, hr, hl1, hl2, hent⟩ := rangeLoop_spec _ _ _ _ _ _ _ _ hok
    simp only [List.nil_append, Prod.mk.injEq] at hr
    obtain ⟨hr1, hr2⟩ := hr
    subst hr1 hr2
    refine ⟨hl1, hl2, ?_⟩
    intro hmax i hi
    obtain ⟨mx, hmx, he⟩ := hent i hi
    rw [sampleArrays_max_absent perSample t _ hmax, List.getElem?_replicate] at hmx
    simp only [Nat.zero_add, hi, if_true, Option.some.injEq] at hmx
    rw [he, ← hmx]
    exact toFloat32_defaultMax_zero _ _
  · intro hmin hmax
    obtain ⟨r, hr⟩ := rangeLoop_zeros h1.bpc h1.sampleType h1.channels h1.channels 0 ([], [])
      (by omega)
    refine ⟨r.1, r.2, ?_⟩
    rw [catalogRange_eq_ok perSample u h h1 seq ang t hbuild ht]
    unfold sampleRange
    rw [sampleArrays_max_absent perSample t _ hmax, sampleArrays_min_absent perSample t _ hmin]
    exact hr

/-- Witness for C11 (amended): the theorem on the catalog built for `deep2`. -/
theorem catalogRange_default_max_witness :
    loadImageInfo u0 (withTiff closedHandle deep2Tiff) 0 0 = .ok deep2Built ∧
      ∃ t, deep2Built.tiff = some t ∧
        (∀ mins maxs, catalogRange true u0 (withTiff closedHandle deep2Tiff) 0 0 =
            .ok (deep2Built, mins, maxs) →
          mins.length = deep2Built.channels ∧ maxs.length = deep2Built.channels ∧
          (t.cur.sMaxSampleValue = none → ∀ i, i < deep2Built.channels →
            maxs[i]? = some (if deep2Built.bpc ≤ 8 then 255
              else if deep2Built.bpc = 12 then 4095
              else if deep2Built.bpc = 16 then 65535
              else if deep2Built.bpc = 32 ∧ deep2Built.sampleType = .FIXEDPOINT then 4294967296
              else if deep2Built.bpc = 32 ∧ deep2Built.sampleType = .FLOATINGPOINT then 1
              else 0))) ∧
        (t.cur.sMinSampleValue = none → t.cur.sMaxSampleValue = none →
          ∃ mins maxs, catalogRange true u0 (withTiff closedHandle deep2Tiff) 0 0 =
            .ok (deep2Built, mins, maxs)) :=
  ⟨rfl, catalogRange_default_max true u0 (withTiff closedHandle deep2Tiff) deep2Built 0 0 rfl⟩

/-- C12 (the code departs from the claim): the base directory of `stripBase` is stored
in strips, so lines 107-108 leave the locals `tw` and `th` as they were and lines
145-146 record those values as the tile size of the base level. With 0 and 256 in
them `openImage` succeeds and marks the handle open although the recorded tile width
is 0, because line 83 rejects the image only when the width and the height are both
0. Whatever the two locals hold, `openImage` fails on this untiled base directory
only when both are 0. -/
theorem openImage_accepts_untiled_base :
    (TIFFOpen stripBase).map (fun t => (t.cur.tileWidth, t.cur.tileLength)) = some (none, none) ∧
      openImage stripBaseFiles (garbage 0 256) closedHandle = .ok stripBaseHandle ∧
      stripBaseHandle.tile_widths[0]? = some 0 ∧ stripBaseHandle.tile_heights[0]? = some 256 ∧
      stripBaseHandle.isSet = true ∧ stripBaseHandle.numResolutions = 2 ∧
      (∀ u : Uninit, u.tw ≠ 0 ∨ u.th ≠ 0 →
        ∃ h, openImage stripBaseFiles u closedHandle = .ok h ∧ h.isSet = true ∧
          h.tile_widths[0]? = some u.tw ∧ h.tile_heights[0]? = some u.th) ∧
      ∀ u : Uninit, u.tw = 0 → u.th = 0 →
        openImage stripBaseFiles u closedHandle = .error .notTiled := by
  have hbuild : ∀ u : Uninit, ∃ h,
      loadImageInfo u (withTiff closedHandle
        { container := stripBase, loc := .top 0, cur := stripDir 1000 800, curdir := 0,
          jpegColorMode := none }) 0 0 = .ok h ∧
      h.tile_widths = [u.tw, 256] ∧ h.tile_heights = [u.th, 256] :=
    fun u => ⟨_, rfl, rfl, rfl⟩
  have hopen : ∀ u : Uninit, openImage stripBaseFiles u closedHandle =
      (loadImageInfo u (withTiff closedHandle
        { container := stripBase, loc := .top 0, cur := stripDir 1000 800, curdir := 0,
          jpegColorMode := none }) 0 0 >>= fun h => do
        let tw0 ← vecAt h.tile_widths 0
        if tw0 = 0 then
          let th0 ← vecAt h.tile_heights 0
          if th0 = 0 then throw .notTiled
          else pure { h with isSet := true }
        else pure { h with isSet := true }) := fun u => rfl
  refine ⟨rfl, rfl, rfl, rfl, rfl, rfl, ?_, ?_⟩
  · intro u hu
    obtain ⟨h, hb, hw, hh⟩ := hbuild u
    refine ⟨{ h with isSet := true }, ?_, rfl, by simp [hw], by simp [hh]⟩
    rw [hopen u, hb]
    by_cases h0 : u.tw = 0
    · have h1 : u.th ≠ 0 := by
        rcases hu with hu | hu
        · exact absurd h0 hu
        · exact hu
      simp [bind, Except.bind, vecAt, hw, hh, h0, h1, pure, Except.pure]
    · simp [bind, Except.bind, vecAt, hw, h0, pure, Except.pure]
  · intro u h0 h1
    obtain ⟨h, hb, hw, hh⟩ := hbuild u
    rw [hopen u, hb]
    simp [bind, Except.bind, vecAt, hw, hh, h0, h1, throw, throwThe, MonadExceptOf.throw]

/-- C13: for every successful `getTile` call that ends with a classic-scheme catalog and
asks for `res = numResolutions - 1`, on a handle whose `resolution_ids` list is empty
or starts with the 0 every build records first, wherever among the top-level
directories the cursor of the open container stands before the call: the call leaves
the cursor on top-level directory 0 of the container, and the tile returned is read
from that directory: its bytes are those of tile `tile` of directory 0, as many as
the tile size of directory 0, in a tile of the nominal size of native level 0, expanded
if bilevel and cropped if on the right or bottom edge. -/
theorem getTile_full_resolution_serves_directory_zero (files : Int → Int → Option Container)
    (u : Uninit) (h : TPTImage) (x y : Int) (res : Nat) (l : Int) (tile : Nat) (r : TileResult)
    (hok : getTile files u h x y res l tile = .ok r) (hp : r.image.pyramid = .NORMAL)
    (hres : res + 1 = r.image.numResolutions) (hN : r.image.numResolutions < 2 ^ 31)
    (hids : ∀ a, h.resolution_ids[0]? = some a → a = 0)
    (hcur : ∀ t, h.tiff = some t → onTopLevel t) :
    cursor r.image = some (.top 0) ∧
      ∃ t d0 data tw0 th0 raw, r.image.tiff = some t ∧ t.cur = d0 ∧
        t.container.dirs[0]? = some d0 ∧ d0.tiles[tile]? = some (some data) ∧
        r.image.tile_widths[0]? = some tw0 ∧ r.image.tile_heights[0]? = some th0 ∧
        (if r.image.bpc = 1 ∧ r.image.channels = 1 then
            expandBilevel (filledTile r.image x y res tile tw0 th0 d0.planarConfig d0.tileSize
              (data.take d0.tileSize)) ((tw0 * th0) % 2 ^ 32) d0.photometric
          else .ok (filledTile r.image x y res tile tw0 th0 d0.planarConfig d0.tileSize
              (data.take d0.tileSize))) = .ok raw ∧
        r.rawtile = (if r.cropped then raw.crop r.tw r.th else raw) := by
  obtain ⟨h1, t1, t2, h2, -, hrel, ht1, hsel, hserve⟩ := getTile_inv files u h x y res l tile r hok
  obtain ⟨hids1, hcur1⟩ := reload_shape files u h h1 x y hrel hids hcur
  obtain ⟨cs, ch, j, himg⟩ := serveTile_image t2 h2 x y res tile _ r hserve
  have hp1 : h1.pyramid = .NORMAL := by
    obtain ⟨⟨s, si, hh2⟩, -, -⟩ := selectDirectory_eq_ok t1 t2 h1 h2 x _ hsel
    rw [himg, hh2] at hp
    exact hp
  obtain ⟨hh2, hseek⟩ := selectDirectory_normal t1 t2 h1 h2 x _ hp1 hsel
  subst hh2
  have hres2 : res + 1 = h2.numResolutions := by rw [himg] at hres; exact hres
  have hN2 : h2.numResolutions < 2 ^ 31 := by rw [himg] at hN; exact hN
  have hv : vipsresOf h2.numResolutions res = 0 := by
    rw [vipsresOf_eq _ _ hN2 (by omega)]; omega
  rw [hv] at hseek hserve
  have key : t2.loc = .top 0 ∧ t2.container.dirs[0]? = some t2.cur := by
    rcases seekNormal_served _ _ _ _ hseek with ⟨ht, hcd⟩ | ⟨id, hid, hloc, hdir⟩
    · subst ht
      obtain ⟨a, b⟩ := hcur1 t2 ht1
      have h0 : t2.curdir = 0 := by omega
      rw [h0] at a b
      exact ⟨a, b⟩
    · have h0 := ((vecAt_eq_ok _ _ _).1 hid).2
      simp only [Int.toNat_zero] at h0
      have := hids1 id h0
      subst this
      exact ⟨hloc, hdir⟩
  obtain ⟨tw0, th0, raw, -, hnom, -, hdec, himg2, -, -, hraw⟩ :=
    serveTile_inv t2 h2 x y res tile 0 r hserve
  obtain ⟨hw0, hh0, -, -⟩ := nominalTile_eq_ok _ _ _ _ hnom
  obtain ⟨data, hdata, hfill⟩ := decodeTile_inv _ _ _ _ _ _ _ _ _ _ _ hdec
  obtain ⟨j2, hj2⟩ := tileColour_fst t2.cur.photometric t2 (readTags t2 h2)
  rw [hj2] at hdata hfill
  have hw1 := ((vecAt_eq_ok _ _ _).1 hw0).2
  have hh1 := ((vecAt_eq_ok _ _ _).1 hh0).2
  simp only [Int.toNat_zero] at hw1 hh1
  refine ⟨?_, { t2 with jpegColorMode := j }, t2.cur, data, tw0, th0, raw, ?_, rfl, key.2, hdata,
    ?_, ?_, ?_, hraw⟩
  · rw [himg]
    simp only [cursor, Option.map_some']
    rw [key.1]
  · rw [himg]
  · rw [himg]; exact hw1
  · rw [himg]; exact hh1
  · rw [himg2]
    exact hfill

/-- Witness for C13: the theorem on `marked4` with the cursor left on directory 2 by an
earlier call, which returned the byte of directory 2; the call for the full
resolution returns the byte of directory 0. -/
theorem getTile_full_resolution_serves_directory_zero_witness :
    cursor marked4Moved = some (.top 2) ∧ marked4Moved.resolution_ids = [0, 2, 3] ∧
      (getTile marked4Files u0 marked4Handle 0 0 1 0 0).map (fun r => r.rawtile.data) = .ok [2] ∧
      ∃ r, getTile marked4Files u0 marked4Moved 0 0 2 0 0 = .ok r ∧ r.image.pyramid = .NORMAL ∧
        r.image.numResolutions = 3 ∧ r.rawtile.data = [1] ∧ cursor r.image = some (.top 0) := by
  refine ⟨rfl, rfl, rfl, _, rfl, rfl, rfl, rfl, ?_⟩
  refine (getTile_full_resolution_serves_directory_zero marked4Files u0 marked4Moved 0 0 2 0 0 _
    rfl rfl rfl (by decide) ?_ ?_).1
  · intro a ha
    have h0 : marked4Moved.resolution_ids[0]? = some 0 := rfl
    rw [h0] at ha
    injection ha with ha
    exact ha.symm
  · intro t ht
    have h0 : marked4Moved.tiff.map (fun t => (decide (t.loc = .top t.curdir),
        decide (t.container.dirs[t.curdir]? = some t.cur))) = some (true, true) := rfl
    rw [ht] at h0
    simpa [onTopLevel] using h0

/-- C14: `closeImage` is idempotent: for every handle state `s`, closing twice gives the
state closing once gives; after the first close the handle holds no container, so
the test of line 337 fails in the second close and no container is released; and a
close changes no member other than `tiff`. -/
theorem closeImage_idempotent (s : TPTImage) :
    closeImage (closeImage s) = closeImage s ∧ (closeImage s).tiff = none ∧
      releases (closeImage s) = false ∧ closeImage s = { s with tiff := none } := by
  have h1 : closeImage s = { s with tiff := none } := closeImage_eq s
  have h2 : (closeImage s).tiff = none := by rw [h1]
  have h3 : ∀ x : TPTImage, x.tiff = none → closeImage x = x := by
    intro x hx
    unfold closeImage
    rw [hx]
  exact ⟨h3 _ h2, h2, by simp [releases, h2], h1⟩

/-- C15 (counterexample): on the chain `growing2`, whose second directory is larger than
its first, `openImage` succeeds and the catalog records the widths 100, 200 and the
heights 100, 200: native level 0 is smaller than native level 1. -/
theorem loadImageInfo_records_growing_sizes :
    openImage growing2Files u0 closedHandle = .ok growing2Handle ∧
      growing2Handle.numResolutions = 2 ∧ growing2Handle.image_widths = [100, 200] ∧
      growing2Handle.image_heights = [100, 200] ∧
      ¬ (∀ (i j wi wj : Nat), i < j → growing2Handle.image_widths[i]? = some wi →
          growing2Handle.image_widths[j]? = some wj → wj ≤ wi) := by
  refine ⟨rfl, rfl, rfl, rfl, ?_⟩
  intro hall
  have := hall 0 1 100 200 (by decide) rfl rfl
  omega

/-- C15 (amended): after a successful catalog build on a just-opened container in which
the sizes of the top-level directories in chain order, and the sizes of the first
directory followed by its nested directories in the order of its nested-directory
list, are non-increasing, the recorded level sizes are non-increasing in native
index, and there are `numResolutions` of each. -/
theorem loadImageInfo_sizes_non_increasing (u : Uninit) (c : Container) (t0 : TIFF)
    (h h1 : TPTImage) (seq ang : Int) (hopen : TIFFOpen c = some t0) (ht : h.tiff = some t0)
    (hok : loadImageInfo u h seq ang = .ok h1)
    (hchainW : (c.dirs.map (fun d => d.imageWidth)).Pairwise (fun a b => b ≤ a))
    (hchainH : (c.dirs.map (fun d => d.imageLength)).Pairwise (fun a b => b ≤ a))
    (hsubW : ∀ d0, c.dirs[0]? = some d0 →
      ((d0 :: (d0.subIFD.getD []).filterMap c.subdirs.lookup).map
        (fun d => d.imageWidth)).Pairwise (fun a b => b ≤ a))
    (hsubH : ∀ d0, c.dirs[0]? = some d0 →
      ((d0 :: (d0.subIFD.getD []).filterMap c.subdirs.lookup).map
        (fun d => d.imageLength)).Pairwise (fun a b => b ≤ a)) :
    h1.image_widths.length = h1.numResolutions ∧ h1.image_heights.length = h1.numResolutions ∧
      (∀ (i j wi wj : Nat), i < j → h1.image_widths[i]? = some wi → h1.image_widths[j]? = some wj →
        wj ≤ wi) ∧
      (∀ (i j hi hj : Nat), i < j → h1.image_heights[i]? = some hi → h1.image_heights[j]? = some hj →
        hj ≤ hi) := by
  obtain ⟨⟨-, a2, -, -⟩, hn, -, -⟩ := loadImageInfo_shape u h h1 seq ang hok
  obtain ⟨d0, ds, hd, hds, hw, hh⟩ := loadImageInfo_sizes u c t0 h h1 seq ang hopen ht hok
  have hd0 : c.dirs[0]? = some d0 := by rw [hd]; simp
  have pw : h1.image_widths.Pairwise (fun a b => b ≤ a) := by
    refine List.Pairwise.sublist hw ?_
    rcases hds with e | e
    · refine List.Pairwise.sublist ?_ hchainW
      rw [hd]
      exact (List.Sublist.cons₂ d0 e).map _
    · exact List.Pairwise.sublist ((List.Sublist.cons₂ d0 e).map _) (hsubW d0 hd0)
  have ph : h1.image_heights.Pairwise (fun a b => b ≤ a) := by
    refine List.Pairwise.sublist hh ?_
    rcases hds with e | e
    · refine List.Pairwise.sublist ?_ hchainH
      rw [hd]
      exact (List.Sublist.cons₂ d0 e).map _
    · exact List.Pairwise.sublist ((List.Sublist.cons₂ d0 e).map _) (hsubH d0 hd0)
  refine ⟨hn.symm, by omega, ?_, ?_⟩
  · intro i j wi wj hij hi hj
    obtain ⟨hi1, hi2⟩ := List.getElem?_eq_some_iff.1 hi
    obtain ⟨hj1, hj2⟩ := List.getElem?_eq_some_iff.1 hj
    rw [← hi2, ← hj2]
    exact List.pairwise_iff_getElem.1 pw i j hi1 hj1 hij
  · intro i j wi wj hij hi hj
    obtain ⟨hi1, hi2⟩ := List.getElem?_eq_some_iff.1 hi
    obtain ⟨hj1, hj2⟩ := List.getElem?_eq_some_iff.1 hj
    rw [← hi2, ← hj2]
    exact List.pairwise_iff_getElem.1 ph i j hi1 hj1 hij

/-- Witness for C15 (amended): the theorem on the three-level pyramid `pyr3`. -/
theorem loadImageInfo_sizes_non_increasing_witness :
    TIFFOpen pyr3 = some pyr3Tiff ∧
      loadImageInfo u0 (withTiff closedHandle pyr3Tiff) 0 0 = .ok pyr3Built ∧
      pyr3Built.image_widths = [1000, 500, 250] ∧
      (∀ (i j wi wj : Nat), i < j → pyr3Built.image_widths[i]? = some wi →
        pyr3Built.image_widths[j]? = some wj → wj ≤ wi) :=
  ⟨rfl, rfl, rfl,
    (loadImageInfo_sizes_non_increasing u0 pyr3 pyr3Tiff (withTiff closedHandle pyr3Tiff)
      pyr3Built 0 0 rfl rfl rfl (by decide) (by decide)
      (fun d0 hd0 => by
        have e : d0 = tiledDir 1000 800 256 256 16 [] := by
          have h0 : pyr3.dirs[0]? = some (tiledDir 1000 800 256 256 16 []) := rfl
          rw [h0] at hd0
          exact (Option.some.inj hd0).symm
        subst e
        decide)
      (fun d0 hd0 => by
        have e : d0 = tiledDir 1000 800 256 256 16 [] := by
          have h0 : pyr3.dirs[0]? = some (tiledDir 1000 800 256 256 16 []) := rfl
          rw [h0] at hd0
          exact (Option.some.inj hd0).symm
        subst e
        decide)).2.2.1⟩

/-- C16: after every successful catalog build, whichever scheme it ends in,
`numResolutions >= 1` and the four per-level lists `image_widths`, `image_heights`,
`tile_widths` and `tile_heights` all have length `numResolutions`; so for every
`res < numResolutions` the native index `numResolutions - 1 - res` is within the tile
size lists, and the lookups of lines 443-444 with the index `getTile` computes
succeed (for a level count an `int` can hold). -/
theorem loadImageInfo_levels_aligned (u : Uninit) (h h1 : TPTImage) (seq ang : Int)
    (hok : loadImageInfo u h seq ang = .ok h1) :
    1 ≤ h1.numResolutions ∧ h1.image_widths.length = h1.numResolutions ∧
      h1.image_heights.length = h1.numResolutions ∧
      h1.tile_widths.length = h1.numResolutions ∧
      h1.tile_heights.length = h1.numResolutions ∧
      ∀ res, res < h1.numResolutions →
        h1.numResolutions - 1 - res < h1.tile_widths.length ∧
        h1.numResolutions - 1 - res < h1.tile_heights.length ∧
        (h1.numResolutions < 2 ^ 31 → ∃ tw th,
          vecAt h1.tile_widths (vipsresOf h1.numResolutions res) = .ok tw ∧
          vecAt h1.tile_heights (vipsresOf h1.numResolutions res) = .ok th) := by
  obtain ⟨⟨a1, a2, a3, a4⟩, hn, -, -⟩ := loadImageInfo_shape u h h1 seq ang hok
  refine ⟨by omega, hn.symm, by omega, by omega, by omega, ?_⟩
  intro res hres
  refine ⟨by omega, by omega, ?_⟩
  intro hN
  have hk : vipsresOf h1.numResolutions res = ((h1.numResolutions - 1 - res : Nat) : Int) := by
    rw [vipsresOf_eq _ _ hN hres]; omega
  have hw : h1.numResolutions - 1 - res < h1.tile_widths.length := by omega
  have hh : h1.numResolutions - 1 - res < h1.tile_heights.length := by omega
  refine ⟨h1.tile_widths[h1.numResolutions - 1 - res], h1.tile_heights[h1.numResolutions - 1 - res],
    ?_, ?_⟩
  · rw [hk, vecAt_eq_ok]
    exact ⟨by omega, by simp only [Int.toNat_ofNat]; exact List.getElem?_eq_getElem hw⟩
  · rw [hk, vecAt_eq_ok]
    exact ⟨by omega, by simp only [Int.toNat_ofNat]; exact List.getElem?_eq_getElem hh⟩

/-- Witness for C16: the theorem on the catalog built for the three-level pyramid `pyr3`. -/
theorem loadImageInfo_levels_aligned_witness :
    loadImageInfo u0 (withTiff closedHandle pyr3Tiff) 0 0 = .ok pyr3Built ∧
      pyr3Built.numResolutions = 3 ∧ pyr3Built.tile_widths.length = 3 ∧
      pyr3Built.tile_heights.length = 3 ∧
      vecAt pyr3Built.tile_widths (vipsresOf 3 0) = .ok 256 :=
  ⟨rfl, rfl,
    (loadImageInfo_levels_aligned u0 (withTiff closedHandle pyr3Tiff) pyr3Built 0 0 rfl).2.2.2.1,
    (loadImageInfo_levels_aligned u0 (withTiff closedHandle pyr3Tiff) pyr3Built 0 0 rfl).2.2.2.2.1,
    rfl⟩

/-- C17 (the code departs from the claim): for `single1`, one tiled top-level directory
and no nested directory, the loop over the chain records nothing, so the level lists
hold one entry when line 218 evaluates `image_widths[1]` behind the guard
`image_widths.size() > 0`; the build indexes past the end of the list and does not
come back with `numResolutions = 1`. The same holds for every handle whose width list
has one entry when the comparison is reached. -/
theorem loadImageInfo_single_directory_reads_level_one :
    TIFFOpen single1 = some single1Tiff ∧
      (normalLoop 2 single1Tiff (catalogStart u0 single1Tiff single1Tiff
          (withTiff closedHandle single1Tiff) 0 0) 0).map (fun r => r.2.image_widths) =
        some [1000] ∧
      loadImageInfo u0 (withTiff closedHandle single1Tiff) 0 0 = .error .undefinedBehaviour ∧
      openImage single1Files u0 closedHandle = .error .undefinedBehaviour ∧
      ∀ (t : TIFF) (h : TPTImage) (w : Nat), h.image_widths = [w] →
        stackCheck t h = .error .undefinedBehaviour := by
  refine ⟨rfl, rfl, rfl, rfl, ?_⟩
  intro t h w hw
  unfold stackCheck
  simp [hw, vecAt, bind, Except.bind]

/-- C18 (the code departs from the claim): for a 3x3 tile, `np = 9`, the loop unpacks
`(9 + 7) / 8 = 2` source bytes and writes 16 samples, so the final write index is 16
and the writes at indices 9 to 15 fall outside the 9-element buffer: the expansion,
and `getTile` on the bilevel pyramid `odd2`, have no defined result. In general the
loop writes `8 * ((np + 7) / 8)` samples, which is more than the `np` the buffer holds
whenever `np` is not a multiple of 8, and the expansion then never completes inside
its buffer. -/
theorem expandBilevel_overruns_buffer :
    (unpackLoop oddRaw.data 255 0 0 ((9 + 7) / 8) []).map List.length = .ok 16 ∧
      expandBilevel oddRaw 9 PHOTOMETRIC_MINISBLACK = .error .undefinedBehaviour ∧
      (served odd2Handle).map (fun d => (d.tileWidth, d.tileLength, d.bitsPerSample,
        d.samplesPerPixel)) = some (some 3, some 3, 1, 1) ∧
      getTile odd2Files u0 odd2Handle 0 0 1 0 0 = .error .undefinedBehaviour ∧
      (∀ (data out : List Nat) (mx mn np : Nat),
        unpackLoop data mx mn 0 ((np + 7) / 8) [] = .ok out →
          out.length = 8 * ((np + 7) / 8) ∧ (np % 8 ≠ 0 → np < out.length)) ∧
      ∀ (raw : RawTile) (np colour : Nat), np % 8 ≠ 0 →
        expandBilevel raw np colour = .error .undefinedBehaviour := by
  have hwrites : ∀ (data out : List Nat) (mx mn np : Nat),
      unpackLoop data mx mn 0 ((np + 7) / 8) [] = .ok out →
        out.length = 8 * ((np + 7) / 8) ∧ (np % 8 ≠ 0 → np < out.length) := by
    intro data out mx mn np hok
    have hlen : out.length = 8 * ((np + 7) / 8) := by
      have := unpackLoop_length _ _ _ _ _ _ _ hok
      simpa using this
    exact ⟨hlen, fun hnp => by omega⟩
  refine ⟨rfl, rfl, rfl, rfl, hwrites, ?_⟩
  intro raw np colour hnp
  unfold expandBilevel
  simp only
  split
  · rename_i e he
    have : ∀ (cnt i : Nat) (buffer : List Nat) (e : Err),
        unpackLoop raw.data (if colour = 0 then 0 else 255) (if colour = 0 then 255 else 0)
          i cnt buffer = .error e → e = .undefinedBehaviour := by
      intro cnt
      induction cnt with
      | zero => intro i buffer e h; simp [unpackLoop] at h
      | succ cnt ih =>
        intro i buffer e h
        unfold unpackLoop at h
        cases hd : raw.data[i]? with
        | none => simp only [hd, Except.error.injEq] at h; exact h.symm
        | some t => simp only [hd] at h; exact ih _ _ _ h
    rw [this _ _ _ _ he]
  · rename_i buffer hb
    have := (hwrites _ _ _ _ _ hb).2 hnp
    simp [this]

/-- C19: for every level with positive 32-bit image size `W x H` and positive nominal
tile size `tw x th`, with `tilesAcross = W / tw + (W mod tw != 0)` and
`tilesDown = H / th + (H mod th != 0)`: the size computed for every tile index is
defined (no division or modulo by zero), its width lies in `[1, tw]` and its height
in `[1, th]`; the widths of the tiles `r * tilesAcross + c`, `c < tilesAcross`, of
any one row sum to `W`, and the heights of the tiles `r * tilesAcross + c`,
`r < tilesDown`, of any one column sum to `H`. -/
theorem tileExtent_rows_and_columns (W H tw th : Nat) (hW : 0 < W) (hH : 0 < H)
    (hW32 : W < 2 ^ 32) (hH32 : H < 2 ^ 32) (htw : 0 < tw) (hth : 0 < th) :
    0 < W / tw + (if W % tw = 0 then 0 else 1) ∧ 0 < H / th + (if H % th = 0 then 0 else 1) ∧
    (∀ t, ∃ a b, tileExtent W H tw th t = .ok (a, b) ∧ 1 ≤ a ∧ a ≤ tw ∧ 1 ≤ b ∧ b ≤ th) ∧
    (∀ r, ∑ c in Finset.range (W / tw + (if W % tw = 0 then 0 else 1)),
      extentWidth W H tw th (r * (W / tw + (if W % tw = 0 then 0 else 1)) + c) = W) ∧
    (∀ c, c < W / tw + (if W % tw = 0 then 0 else 1) →
      ∑ r in Finset.range (H / th + (if H % th = 0 then 0 else 1)),
        extentHeight W H tw th (r * (W / tw + (if W % tw = 0 then 0 else 1)) + c) = H) := by
  have hcl := fun t => tileExtent_closed W H tw th t hW hW32 hH32 htw hth
  have hdx := Nat.div_add_mod W tw
  have hdy := Nat.div_add_mod H th
  have hmx := Nat.mod_lt W htw
  have hmy := Nat.mod_lt H hth
  have hta : 0 < W / tw + (if W % tw = 0 then 0 else 1) := by
    by_cases hr : W % tw = 0
    · simp only [hr, if_true, Nat.add_zero]
      rcases Nat.eq_zero_or_pos (W / tw) with h0 | h0
      · rw [h0, hr] at hdx; omega
      · exact h0
    · simp [hr]
  have htd : 0 < H / th + (if H % th = 0 then 0 else 1) := by
    by_cases hr : H % th = 0
    · simp only [hr, if_true, Nat.add_zero]
      rcases Nat.eq_zero_or_pos (H / th) with h0 | h0
      · rw [h0, hr] at hdy; omega
      · exact h0
    · simp [hr]
  refine ⟨hta, htd, ?_, ?_, ?_⟩
  · intro t
    exact ⟨_, _, hcl t, (short_bounds _ _ _ hmx).1, (short_bounds _ _ _ hmx).2,
      (short_bounds _ _ _ hmy).1, (short_bounds _ _ _ hmy).2⟩
  · intro r
    have hrow : ∀ c ∈ Finset.range (W / tw + (if W % tw = 0 then 0 else 1)),
        extentWidth W H tw th (r * (W / tw + (if W % tw = 0 then 0 else 1)) + c) =
          (if c = W / tw + (if W % tw = 0 then 0 else 1) - 1 ∧ W % tw ≠ 0 then W % tw
            else tw) := by
      intro c hc
      have hc' := Finset.mem_range.1 hc
      unfold extentWidth
      rw [hcl]
      simp only
      rw [Nat.mul_comm r, Nat.mul_add_mod, Nat.mod_eq_of_lt hc']
    rw [Finset.sum_congr rfl hrow, sum_last_short _ _ _ hta]
    by_cases hr : W % tw = 0
    · simp only [hr, if_true, Nat.add_zero, ne_eq, not_true_eq_false, if_false] at hdx hta ⊢
      have : (W / tw - 1) * tw + tw = W / tw * tw := by
        rw [← Nat.succ_mul]; congr 1; omega
      rw [this, Nat.mul_comm]; omega
    · simp only [hr, if_false, ne_eq, not_false_eq_true, if_true, Nat.add_sub_cancel]
      rw [Nat.mul_comm]; omega
  · intro c hc
    have hcol : ∀ r ∈ Finset.range (H / th + (if H % th = 0 then 0 else 1)),
        extentHeight W H tw th (r * (W / tw + (if W % tw = 0 then 0 else 1)) + c) =
          (if r = H / th + (if H % th = 0 then 0 else 1) - 1 ∧ H % th ≠ 0 then H % th
            else th) := by
      intro r _
      unfold extentHeight
      rw [hcl]
      simp only
      have : (r * (W / tw + (if W % tw = 0 then 0 else 1)) + c) /
          (W / tw + (if W % tw = 0 then 0 else 1)) = r := by
        rw [Nat.add_comm, Nat.add_mul_div_right _ _ hta, Nat.div_eq_of_lt hc, Nat.zero_add]
      rw [this]
    rw [Finset.sum_congr rfl hcol, sum_last_short _ _ _ htd]
    by_cases hr : H % th = 0
    · simp only [hr, if_true, Nat.add_zero, ne_eq, not_true_eq_false, if_false] at hdy htd ⊢
      have : (H / th - 1) * th + th = H / th * th := by
        rw [← Nat.succ_mul]; congr 1; omega
      rw [this, Nat.mul_comm]; omega
    · simp only [hr, if_false, ne_eq, not_false_eq_true, if_true, Nat.add_sub_cancel]
      rw [Nat.mul_comm]; omega

/-- Witness for C19: the theorem on the 1000x800 level with 256x256 tiles: 4 tiles across with widths
256, 256, 256, 232 and 4 tiles down with heights 256, 256, 256, 32. -/
theorem tileExtent_rows_and_columns_witness :
    (∑ c in Finset.range (1000 / 256 + (if 1000 % 256 = 0 then 0 else 1)),
      extentWidth 1000 800 256 256 (2 * (1000 / 256 + (if 1000 % 256 = 0 then 0 else 1)) + c) =
        1000) ∧
    (List.range 4).map (fun c => extentWidth 1000 800 256 256 (2 * 4 + c)) = [256, 256, 256, 232] ∧
    (List.range 4).map (fun r => extentHeight 1000 800 256 256 (r * 4 + 1)) = [256, 256, 256, 32] :=
  ⟨(tileExtent_rows_and_columns 1000 800 256 256 (by decide) (by decide) (by decide) (by decide)
      (by decide) (by decide)).2.2.2.1 2, by decide, by decide⟩

/-- C20 (the code departs from the claim): for the palette-indexed pyramid `palette2` the
catalog build records colour space sRGB and 3 channels (lines 245-250); serving a
tile from the base directory, whose tags are those the build read, assigns colour
space greyscale and 1 channel (lines 480-485). -/
theorem getTile_changes_palette_colourspace :
    openImage palette2Files u0 closedHandle = .ok palette2Handle ∧
      (served palette2Handle).map (fun d => (d.photometric, d.samplesPerPixel, d.bitsPerSample)) =
        some (PHOTOMETRIC_PALETTE, 1, 8) ∧
      palette2Handle.colourspace = .sRGB ∧ palette2Handle.channels = 3 ∧
      ∃ r, getTile palette2Files u0 palette2Handle 0 0 1 0 0 = .ok r ∧
        served r.image = served palette2Handle ∧
        r.image.colourspace = .GREYSCALE ∧ r.image.channels = 1 :=
  ⟨rfl, rfl, rfl, rfl, _, rfl, rfl, rfl, rfl⟩

end TPT
